import Mathlib

/-!
# The `$`-argument binding protocol of gmtmex (`src/gmtmex_parser.c`)

A shallow embedding of the C functions of `gmtmex_parser.c` and theorems about them.

Conventions of the embedding.

* A C string is the list of its characters before the terminating NUL.  Reading `s[i]`
  is defined for `i <= strlen s` (position `strlen s` holds the NUL) and is an
  out-of-bounds read beyond it; functions that can read or index out of bounds return
  `Option`, with `none` standing for that undefined behaviour.
* The key table `char *key[]` with its length `n_keys` is a list of C strings.
* The option list `struct GMT_OPTION *head` is the list of its nodes, `NULL` being `[]`.
* Loop indices and tallies that are bounded by the length of a string or of a list held
  in memory (`k`, `pos`, `n`, `PS`, `lr_pos`) are unbounded `Nat`/`Int`; the global
  counter `unique_ID` is an `unsigned int` and wraps modulo `2^32`.
* The file is compiled with `TESTING` defined, so identifiers come from `unique_ID`.
-/

set_option autoImplicit false

namespace Gmtmex

/-! ## Data model -/

/-- A C string without its terminating NUL. -/
abbrev CString := List Char

/-- The NUL character that terminates a C string. -/
def NUL : Char := Char.ofNat 0

/-- The double quote character. -/
def DQUOTE : Char := Char.ofNat 34

/-- The single quote character. -/
def SQUOTE : Char := Char.ofNat 39

/-- The read `s[i]` of a C string: a character of the string, the terminator at
`i = strlen s`, and `none` (out of bounds) beyond the terminator. -/
def cget (s : CString) (i : Nat) : Option Char :=
  match s[i]? with
  | some c => some c
  | none => if i = s.length then some NUL else none

/-- The read `s[0]`, which is always within the string's storage. -/
def cfirst (s : CString) : Char :=
  match s with
  | [] => NUL
  | c :: _ => c

/-! ## `gmtmex_get_arg_pos` -/

/-- The loop of `gmtmex_get_arg_pos` from position `k` on, with `pos == -1` so far:
`rest` is `arg[k..]` and `mute` the quote toggle. -/
def get_arg_pos_loop : CString → Nat → Bool → Int
  | [], _, _ => -1
  | c :: rest, k, mute =>
    let mute1 := if c = DQUOTE ∨ c = SQUOTE then !mute else mute
    if mute1 = false ∧ c = '$' then (k : Int) else get_arg_pos_loop rest (k + 1) mute1

/-- The function `gmtmex_get_arg_pos (arg)`: position of the first `$` outside quotes, or -1. -/
def gmtmex_get_arg_pos (arg : CString) : Int :=
  get_arg_pos_loop arg 0 false

/-- An option-list node `struct GMT_OPTION`: its flag character and its argument text. -/
structure GMT_OPTION where
  option : Char
  arg : CString
deriving DecidableEq

/-- The direction of a binding, `enum GMT_io_enum`: the index into `def[2]` and `lr_pos[2]`. -/
inductive GMT_io_enum where
  | GMT_IN
  | GMT_OUT
deriving DecidableEq

/-- The data kinds assigned to `*data_type`; `GMT_IS_PS` is the local `#define GMT_IS_PS 99`,
the others are enumerators of `gmt.h`. -/
inductive GMT_family where
  | GMT_IS_DATASET
  | GMT_IS_TEXTSET
  | GMT_IS_GRID
  | GMT_IS_CPT
  | GMT_IS_IMAGE
  | GMT_IS_PS
deriving DecidableEq

/-- The geometries assigned to `*geometry` (enumerators of `gmt.h`). -/
inductive GMT_geometry where
  | GMT_IS_NONE
  | GMT_IS_POINT
  | GMT_IS_LINE
  | GMT_IS_POLY
  | GMT_IS_SURFACE
deriving DecidableEq

/-- The constant `GMT_MEX_NONE`, defined as -3. -/
def GMT_MEX_NONE : Int := -3

/-- The constant `GMT_MEX_EXPLICIT`, defined as -2. -/
def GMT_MEX_EXPLICIT : Int := -2

/-- The constant `GMT_MEX_IMPLICIT`, defined as -1. -/
def GMT_MEX_IMPLICIT : Int := -1

/-- Modelled from the spec: the flag that "designates an output-file destination",
`GMTAPI_OPT_OUTFILE` of `gmt.h`, which is the character `>`. -/
def GMTAPI_OPT_OUTFILE : Char := '>'

/-! ## `gmtmex_find_option` -/

/-- The loop `for (k = 0; pos == -1 && k < n_keys; k++) if (key[k][0] == option) pos = k;`
from index `k` on, the list being `key[k..]`. -/
def find_option_loop (option : Char) : List CString → Nat → Int
  | [], _ => -1
  | s :: rest, k =>
    if cfirst s = option then (k : Int) else find_option_loop option rest (k + 1)

/-- The function `gmtmex_find_option (option, key, n_keys)`: position of the first key whose
first character is `option`, or -1. -/
def gmtmex_find_option (option : Char) (key : List CString) : Int :=
  find_option_loop option key 0

/-! ## `gmtmex_get_key_pos` -/

/-- What `gmtmex_get_key_pos` leaves in `def[GMT_IN]`, `def[GMT_OUT]` and returns as `PS`. -/
structure KeyPos where
  def_in : Int
  def_out : Int
  PS : Nat
deriving DecidableEq

/-- The first loop of `gmtmex_get_key_pos`, over the option-list nodes; the pair is
`(def[GMT_IN], def[GMT_OUT])`. -/
def key_pos_options (key : List CString) : List GMT_OPTION → Int × Int → Option (Int × Int)
  | [], d => some d
  | opt :: rest, d =>
    let pos := gmtmex_find_option opt.option key
    if pos = -1 then key_pos_options key rest d
    else
      match key[pos.toNat]? with
      | none => none
      | some s =>
        match cget s 2 with
        | none => none
        | some r =>
          let d_in := if r = 'I' then GMT_MEX_EXPLICIT else d.1
          let d_out := if r = 'O' then GMT_MEX_EXPLICIT else d.2
          key_pos_options key rest (d_in, d_out)

/-- The body of the second loop of `gmtmex_get_key_pos` for the key `s = key[pos]`. -/
def key_pos_key (s : CString) (pos : Nat) (st : KeyPos) : Option KeyPos :=
  match cget s 2 with
  | none => none
  | some r =>
    let d_in :=
      if (r = 'I' ∨ r = 'i') ∧ cfirst s = '-' then GMT_MEX_NONE
      else if r = 'I' ∧ st.def_in = GMT_MEX_IMPLICIT then (pos : Int)
      else st.def_in
    let d_out :=
      if (r = 'O' ∨ r = 'o') ∧ cfirst s = '-' then GMT_MEX_NONE
      else if r = 'O' ∧ st.def_out = GMT_MEX_IMPLICIT then (pos : Int)
      else st.def_out
    let ps :=
      if (r = 'O' ∨ r = 'o') ∧ cget s 1 = some 'X' ∧ cfirst s = '-' then 1 else st.PS
    some { def_in := d_in, def_out := d_out, PS := ps }

/-- The second loop of `gmtmex_get_key_pos`, over the keys from index `pos` on. -/
def key_pos_keys : List CString → Nat → KeyPos → Option KeyPos
  | [], _, st => some st
  | s :: rest, pos, st =>
    match key_pos_key s pos st with
    | none => none
    | some st1 => key_pos_keys rest (pos + 1) st1

/-- The function `gmtmex_get_key_pos (key, n_keys, head, def)`. -/
def gmtmex_get_key_pos (key : List CString) (head : List GMT_OPTION) : Option KeyPos :=
  match key_pos_options key head (GMT_MEX_IMPLICIT, GMT_MEX_IMPLICIT) with
  | none => none
  | some d => key_pos_keys key 0 { def_in := d.1, def_out := d.2, PS := 0 }

/-! ## `gmtmex_get_arg_dir` -/

/-- What `gmtmex_get_arg_dir` returns and leaves behind: the direction returned, the contents
of `*data_type` and `*geometry` (`none` while never assigned) and the key table. -/
structure ArgDir where
  direction : GMT_io_enum
  data_type : Option GMT_family
  geometry : Option GMT_geometry
  key : List CString
deriving DecidableEq

/-- The `switch (key[item][1])` of `gmtmex_get_arg_dir`; the default case assigns nothing. -/
def arg_dir_switch (c : Char) (data_type : Option GMT_family) (geometry : Option GMT_geometry) :
    Option GMT_family × Option GMT_geometry :=
  if c = 'G' then (some GMT_family.GMT_IS_GRID, some GMT_geometry.GMT_IS_SURFACE)
  else if c = 'P' then (some GMT_family.GMT_IS_DATASET, some GMT_geometry.GMT_IS_POLY)
  else if c = 'L' then (some GMT_family.GMT_IS_DATASET, some GMT_geometry.GMT_IS_LINE)
  else if c = 'D' then (some GMT_family.GMT_IS_DATASET, some GMT_geometry.GMT_IS_POINT)
  else if c = 'C' then (some GMT_family.GMT_IS_CPT, some GMT_geometry.GMT_IS_NONE)
  else if c = 'T' then (some GMT_family.GMT_IS_TEXTSET, some GMT_geometry.GMT_IS_NONE)
  else if c = 'I' then (some GMT_family.GMT_IS_IMAGE, some GMT_geometry.GMT_IS_SURFACE)
  else if c = 'X' then (some GMT_family.GMT_IS_PS, some GMT_geometry.GMT_IS_NONE)
  else (data_type, geometry)

/-- The function `gmtmex_get_arg_dir (option, key, n_keys, data_type, geometry)`.  With
`item == -1` the code goes on to read `key[-1]`, which is out of bounds. -/
def gmtmex_get_arg_dir (option : Char) (key : List CString)
    (data_type : Option GMT_family) (geometry : Option GMT_geometry) : Option ArgDir :=
  let item := gmtmex_find_option option key
  if item = -1 then none
  else
    match key[item.toNat]? with
    | none => none
    | some s =>
      match cget s 1 with
      | none => none
      | some c =>
        let tg := arg_dir_switch c data_type geometry
        match cget s 2 with
        | none => none
        | some r =>
          let s1 := if r = 'I' then s.set 2 'i' else s
          let r1 := if r = 'I' then 'i' else r
          let s2 := if r1 = 'O' then s1.set 2 'o' else s1
          let r2 := if r1 = 'O' then 'o' else r1
          some { direction := if r2 = 'i' then GMT_io_enum.GMT_IN else GMT_io_enum.GMT_OUT,
                 data_type := tg.1, geometry := tg.2,
                 key := key.set item.toNat s2 }

/-! ## `make_char_array` -/

/-- One call `strsep (&tmp, ",")` on a non-NULL `tmp`: the token returned and the new `tmp`
(`none` for `NULL`, when no comma was left). -/
def strsep_comma : CString → CString × Option CString
  | [] => ([], none)
  | c :: rest =>
    if c = ',' then ([], some rest)
    else ((c :: (strsep_comma rest).1), (strsep_comma rest).2)

/-- The loop `while ((next = strsep (&tmp, ",")) != NULL) s[k++] = strdup (next);`: the
strings stored, in order.  The first argument bounds the number of iterations. -/
def strsep_loop : Nat → Option CString → List CString
  | 0, _ => []
  | _ + 1, none => []
  | fuel + 1, some tmp => (strsep_comma tmp).1 :: strsep_loop fuel (strsep_comma tmp).2

/-- The function `make_char_array (string, n_items)`: `none` is the `NULL` returned for a
`NULL` or empty string (`*n_items` is then left untouched); otherwise the strings stored in
the array and the value `n` written to `*n_items`. -/
def make_char_array (string : Option CString) : Option (List CString × Nat) :=
  match string with
  | none => none
  | some str =>
    if str.length = 0 then none
    else some (strsep_loop (str.length + 1) (some str), str.count ',' + 1)

/-! ## The option-list collaborators and `GMTMEX_parser` -/

/-- Modelled from the spec: `GMT_Make_Option (API, option, arg)` of the GMT library, which
makes "a brand-new option-list node" from a flag and an argument text. -/
def GMT_Make_Option (option : Char) (arg : CString) : GMT_OPTION :=
  { option := option, arg := arg }

/-- Modelled from the spec: `GMT_Append_Option (API, new, head)` of the GMT library, which
appends the node at the end of the list and returns the list. -/
def GMT_Append_Option (new_opt : GMT_OPTION) (head : List GMT_OPTION) : List GMT_OPTION :=
  head ++ [new_opt]

/-- Modelled from the spec: the rewriting done by `GMT_Update_Option`, "substituting the
identifier for the marker (preserving any surrounding literal text in the argument)".  The
marker is the first unmuted `$`, at the position that `gmtmex_get_arg_pos` returns. -/
def substitute_marker (arg name : CString) : CString :=
  arg.take (gmtmex_get_arg_pos arg).toNat ++ name ++
    arg.drop ((gmtmex_get_arg_pos arg).toNat + 1)

/-- Modelled from the spec: `GMT_Update_Option (API, option, arg, head)` of the GMT library,
which is not among these sources.  The parser calls it with the flag of the node being
bound and the encoded identifier, to "rewrite the node's argument text by substituting the
identifier for the marker (preserving any surrounding literal text in the argument)".  The
node is found from the flag: it is the first node of the list that carries the flag and
whose argument still holds an unmuted marker; a list without such a node is left as it
is. -/
def GMT_Update_Option (option : Char) (arg : CString) : List GMT_OPTION → List GMT_OPTION
  | [] => []
  | o :: rest =>
    if o.option = option ∧ gmtmex_get_arg_pos o.arg ≠ -1 then
      { option := o.option, arg := substitute_marker o.arg arg } :: rest
    else o :: GMT_Update_Option option arg rest

/-- The variables of one call of `GMTMEX_parser`, with the global `unique_ID`. -/
structure ParserState where
  key : List CString
  head : List GMT_OPTION
  unique_ID : Nat
  lr_pos_in : Int
  lr_pos_out : Int
  data_type : Option GMT_family
  geometry : Option GMT_geometry
  PS : Nat
deriving DecidableEq

/-- The assignment `ID = unique_ID++` converts the `unsigned int` to `int`. -/
def to_int (u : Nat) : Int :=
  if u < 2 ^ 31 then (u : Int) else (u : Int) - 2 ^ 32

/-- The statement `lr_pos[direction]++`. -/
def advance_lr_pos (direction : GMT_io_enum) (st : ParserState) : ParserState :=
  match direction with
  | GMT_io_enum.GMT_IN => { st with lr_pos_in := st.lr_pos_in + 1 }
  | GMT_io_enum.GMT_OUT => { st with lr_pos_out := st.lr_pos_out + 1 }

/-- The statement `GMT_Append_Option (API, new_ptr, head);` of the parser.  The value
returned is discarded and `head` is a by-value pointer: a non-empty list is extended in
place, an empty list (`head == NULL`) stays empty for the parser and for its caller. -/
def append_in_place (new_opt : GMT_OPTION) (head : List GMT_OPTION) : List GMT_OPTION :=
  match head with
  | [] => []
  | o :: rest => GMT_Append_Option new_opt (o :: rest)

/-- One round of the loop `for (direction = GMT_IN; direction <= GMT_OUT; direction++)` of
`GMTMEX_parser`, `d` being `def[direction]`.  The parameter `encode` is `GMT_Encode_ID`: for
an identifier, the status it returns and the text it leaves in `name`. -/
def parser_add_default (encode : Int → Int × CString) (direction : GMT_io_enum) (d : Int)
    (st : ParserState) : Option ParserState :=
  if d = GMT_MEX_NONE then some st
  else if d = GMT_MEX_EXPLICIT then some st
  else if d < 0 then none
  else
    match st.key[d.toNat]? with
    | none => none
    | some s =>
      match gmtmex_get_arg_dir (cfirst s) st.key st.data_type st.geometry with
      | none => none
      | some a =>
        match a.key[d.toNat]? with
        | none => none
        | some s1 =>
          let name := (encode (to_int st.unique_ID)).2
          some (advance_lr_pos direction
            { st with
              key := a.key
              data_type := a.data_type
              geometry := a.geometry
              unique_ID := (st.unique_ID + 1) % 2 ^ 32
              head := append_in_place (GMT_Make_Option (cfirst s1) name) st.head })

/-- The loop over both directions: default synthesis. -/
def parser_add_defaults (encode : Int → Int × CString) (kp : KeyPos) (st : ParserState) :
    Option ParserState :=
  match parser_add_default encode GMT_io_enum.GMT_IN kp.def_in st with
  | none => none
  | some st1 => parser_add_default encode GMT_io_enum.GMT_OUT kp.def_out st1

/-- The body of the loop `for (opt = head; opt; opt = opt->next)` of `GMTMEX_parser` for the
node `opt`. -/
def parser_bind_node (encode : Int → Int × CString) (opt : GMT_OPTION) (st : ParserState) :
    Option ParserState :=
  let st1 :=
    if st.PS ≠ 0 ∧ opt.option = GMTAPI_OPT_OUTFILE then { st with PS := st.PS + 1 } else st
  if gmtmex_get_arg_pos opt.arg = -1 then some st1
  else
    match gmtmex_get_arg_dir opt.option st1.key st1.data_type st1.geometry with
    | none => none
    | some a =>
      let name := (encode (to_int st1.unique_ID)).2
      some (advance_lr_pos a.direction
        { st1 with
          key := a.key
          data_type := a.data_type
          geometry := a.geometry
          unique_ID := (st1.unique_ID + 1) % 2 ^ 32
          head := GMT_Update_Option opt.option name st1.head })

/-- The loop `for (opt = head; opt; opt = opt->next)` of `GMTMEX_parser`, `opt` being the
`i`-th node of the list as it is now; the first argument bounds the number of rounds. -/
def parser_bind_loop (encode : Int → Int × CString) : Nat → Nat → ParserState → Option ParserState
  | 0, _, st => some st
  | fuel + 1, i, st =>
    match st.head[i]? with
    | none => some st
    | some opt =>
      match parser_bind_node encode opt st with
      | none => none
      | some st1 => parser_bind_loop encode fuel (i + 1) st1

/-- The final test of `PS` in `GMTMEX_parser`. -/
def parser_error (PS : Nat) : Int :=
  if PS = 1 then 1 else if PS > 2 then 2 else 0

/-- What a call of `GMTMEX_parser` returns and leaves behind. -/
structure ParserResult where
  error : Int
  state : ParserState
deriving DecidableEq

/-- The state of `GMTMEX_parser` after `make_char_array` and `gmtmex_get_key_pos`. -/
def parser_start (key : List CString) (head : List GMT_OPTION) (unique_ID : Nat) (PS : Nat) :
    ParserState :=
  { key := key, head := head, unique_ID := unique_ID, lr_pos_in := 0, lr_pos_out := 0,
    data_type := none, geometry := none, PS := PS }

/-- The key table of `GMTMEX_parser`: for a `NULL` result of `make_char_array` the table is
`NULL` and `n_keys` keeps its initial value 0. -/
def parser_keys (keys : Option CString) : List CString :=
  match make_char_array keys with
  | none => []
  | some r => r.1

/-- The function `GMTMEX_parser (API, plhs, nlhs, prhs, nrhs, keys, head)`, compiled with
`TESTING`; `unique_ID` is the value of the global counter on entry, `encode` is
`GMT_Encode_ID`.  The result is `none` when the call reads out of bounds. -/
def GMTMEX_parser_run (encode : Int → Int × CString) (keys : Option CString)
    (head : List GMT_OPTION) (unique_ID : Nat) : Option ParserResult :=
  match gmtmex_get_key_pos (parser_keys keys) head with
  | none => none
  | some kp =>
    match parser_add_defaults encode kp (parser_start (parser_keys keys) head unique_ID kp.PS) with
    | none => none
    | some st =>
      match parser_bind_loop encode st.head.length 0 st with
      | none => none
      | some st1 => some { error := parser_error st1.PS, state := st1 }

/-! ## The `psconvert` step of `mexFunction` (`src/gmtmex.c`) -/

/-- The test `strncmp (a, b, n) == 0`: the first `n` characters of the two strings agree. -/
def strncmp_eq (a b : CString) (n : Nat) : Bool :=
  decide (a.take n = b.take n)

/-- The text `h` begins with the text `n`. -/
def starts_with : CString → CString → Bool
  | _, [] => true
  | [], _ :: _ => false
  | c :: h, d :: n => decide (c = d) && starts_with h n

/-- The call `strstr (haystack, needle)`: the offset of the first occurrence of `needle` in
`haystack`, `none` for the `NULL` returned when there is no occurrence. -/
def strstr : CString → CString → Option Nat
  | [], needle => if starts_with [] needle then some 0 else none
  | c :: h, needle =>
    if starts_with (c :: h) needle then some 0
    else
      match strstr h needle with
      | some k => some (k + 1)
      | none => none

/-- The statement of `mexFunction` commented "Add -F to psconvert if user requested a return
image but did not explicitly give -F": the value of `opt_args` after it (`none` for `NULL`).
The call `strcat` is concatenation; the size of the buffer is not part of the model. -/
def mexFunction_add_F (module : CString) (nlhs : Int) (opt_args : Option CString) :
    Option CString :=
  match opt_args with
  | none =>
    if strncmp_eq module "psconvert".toList 9 = true ∧ nlhs = 1 then some "-F".toList else none
  | some a =>
    if strncmp_eq module "psconvert".toList 9 = true ∧ nlhs = 1 ∧
        strstr "-F".toList a = none then
      some (a ++ " -F".toList)
    else some a

/-! ## Predicates used by the statements -/

/-- Number of quote characters (single or double) in a text. -/
def quoteCount (s : CString) : Nat :=
  s.countP (fun c => c = DQUOTE ∨ c = SQUOTE)

/-- Position `k` of `s` holds a `$` that is preceded by an even number of quote characters. -/
def Unmuted (s : CString) (k : Nat) : Prop :=
  s[k]? = some '$' ∧ quoteCount (s.take k) % 2 = 0

/-- A `$` at offset `j` of the unscanned text is outside quotes, given the toggle `m` on entry. -/
def UnmutedFrom (m : Bool) (rest : CString) (j : Nat) : Prop :=
  rest[j]? = some '$' ∧ (quoteCount (rest.take j) + m.toNat) % 2 = 0

/-- Number of nodes of an option list whose flag designates an output file. -/
def outfile_count (head : List GMT_OPTION) : Nat :=
  head.countP (fun o => o.option = GMTAPI_OPT_OUTFILE)

/-- The flags of an option list, in list order. -/
def flags (head : List GMT_OPTION) : List Char :=
  head.map (fun o => o.option)

/-- An option-list node written with a string for its argument. -/
def node (flag : Char) (arg : String) : GMT_OPTION :=
  { option := flag, arg := arg.toList }

/-- A sample `GMT_Encode_ID`: it succeeds and writes `@GMTAPI@-` followed by the six decimal
digits of the identifier, the form shown in the comments of `GMTMEX_parser`. -/
def sample_encode (ID : Int) : Int × CString :=
  (0, "@GMTAPI@-".toList ++
    [Char.ofNat (48 + ID.toNat / 100000 % 10), Char.ofNat (48 + ID.toNat / 10000 % 10),
     Char.ofNat (48 + ID.toNat / 1000 % 10), Char.ofNat (48 + ID.toNat / 100 % 10),
     Char.ofNat (48 + ID.toNat / 10 % 10), Char.ofNat (48 + ID.toNat % 10)])

/-- The descriptor that matches a flag: the first key whose first character is the flag. -/
def matching (key : List CString) (flag : Char) : Option CString :=
  key.find? (fun s => decide (cfirst s = flag))

/-- The flag `key[d][0]` of the key at index `d`. -/
def key_flag (key : List CString) (d : Int) : Char :=
  match key[d.toNat]? with
  | some s => cfirst s
  | none => NUL

/-- Every key holds at least two characters, so that its third position `key[k][2]` is a
character or the terminator. -/
def KeysInBounds (key : List CString) : Prop :=
  ∀ s ∈ key, 2 ≤ s.length

instance (key : List CString) : Decidable (KeysInBounds key) := by
  unfold KeysInBounds
  infer_instance

/-- The key table has a descriptor that disallows input: flag `-` with role `I` or `i`. -/
def DisallowedIn (key : List CString) : Prop :=
  ∃ s ∈ key, cfirst s = '-' ∧ (s[2]? = some 'I' ∨ s[2]? = some 'i')

instance (key : List CString) : Decidable (DisallowedIn key) := by
  unfold DisallowedIn
  infer_instance

/-- The key table has a descriptor that disallows output: flag `-` with role `O` or `o`. -/
def DisallowedOut (key : List CString) : Prop :=
  ∃ s ∈ key, cfirst s = '-' ∧ (s[2]? = some 'O' ∨ s[2]? = some 'o')

instance (key : List CString) : Decidable (DisallowedOut key) := by
  unfold DisallowedOut
  infer_instance

/-- The role character of the descriptor that matches a flag, if there is one. -/
def matched_role (key : List CString) (flag : Char) : Option Char :=
  match matching key flag with
  | some s => s[2]?
  | none => none

/-- Some node of the option list has a flag whose matching descriptor has the role `r`. -/
def GivenExplicitly (key : List CString) (head : List GMT_OPTION) (r : Char) : Prop :=
  ∃ opt ∈ head, matched_role key opt.option = some r

instance (key : List CString) (head : List GMT_OPTION) (r : Char) :
    Decidable (GivenExplicitly key head r) := by
  unfold GivenExplicitly
  infer_instance

/-- Re-serialising a key table: the keys joined by commas. -/
def join_keys : List CString → CString
  | [] => []
  | [t] => t
  | t :: t2 :: ts => t ++ ',' :: join_keys (t2 :: ts)

/-- A sample `GMT_Encode_ID` that fails: it returns a status other than `GMT_NOERROR` (0) and
writes no text. -/
def failing_encode (_ : Int) : Int × CString :=
  (1, [])

/-- The key marks a PostScript producer: flag `-`, kind `X` and an output role. -/
def PostScriptKey (s : CString) : Prop :=
  cfirst s = '-' ∧ s[1]? = some 'X' ∧ (s[2]? = some 'O' ∨ s[2]? = some 'o')

instance (s : CString) : Decidable (PostScriptKey s) := by
  unfold PostScriptKey
  infer_instance

/-- The argument of the node holds an unmuted `$`. -/
def has_placeholder (o : GMT_OPTION) : Bool :=
  decide (gmtmex_get_arg_pos o.arg ≠ -1)

/-- The identifiers taken by `ID = unique_ID++` in the binding loop of `GMTMEX_parser`, in
the order in which they are taken: one for each node visited with an unmuted `$`. -/
def bind_issued (encode : Int → Int × CString) : Nat → Nat → ParserState → List Nat
  | 0, _, _ => []
  | fuel + 1, i, st =>
    match st.head[i]? with
    | none => []
    | some opt =>
      match parser_bind_node encode opt st with
      | none => []
      | some st1 =>
        (if gmtmex_get_arg_pos opt.arg = -1 then [] else [st.unique_ID])
          ++ bind_issued encode fuel (i + 1) st1

/-- The identifier taken by `ID = unique_ID++` in one round of the default synthesis, if the
round takes one. -/
def default_issued (d : Int) (st : ParserState) : List Nat :=
  if d = GMT_MEX_NONE then []
  else if d = GMT_MEX_EXPLICIT then []
  else [st.unique_ID]

/-- The identifiers taken from `unique_ID` by a call of `GMTMEX_parser`, in the order in
which they are taken. -/
def GMTMEX_parser_issued (encode : Int → Int × CString) (keys : Option CString)
    (head : List GMT_OPTION) (unique_ID : Nat) : List Nat :=
  match gmtmex_get_key_pos (parser_keys keys) head with
  | none => []
  | some kp =>
    match parser_add_default encode GMT_io_enum.GMT_IN kp.def_in
        (parser_start (parser_keys keys) head unique_ID kp.PS) with
    | none => []
    | some st1 =>
      default_issued kp.def_in (parser_start (parser_keys keys) head unique_ID kp.PS) ++
        match parser_add_default encode GMT_io_enum.GMT_OUT kp.def_out st1 with
        | none => []
        | some st2 =>
          default_issued kp.def_out st1 ++ bind_issued encode st2.head.length 0 st2

/-- The number of default nodes that the synthesis makes: one for each direction whose
entry of `def` is a key index. -/
def default_count (kp : KeyPos) : Nat :=
  (if 0 ≤ kp.def_in then 1 else 0) + (if 0 ≤ kp.def_out then 1 else 0)

/-- The flag and the direction class (input role or not) of each key, in order. -/
def key_roles (key : List CString) : List (Char × Bool) :=
  key.map (fun s => (cfirst s, decide (s[2]? = some 'I' ∨ s[2]? = some 'i')))

/-- The descriptor that matches the flag has an input role (`I` or `i`). -/
def input_governed (key : List CString) (flag : Char) : Bool :=
  match matching key flag with
  | some s => decide (s[2]? = some 'I' ∨ s[2]? = some 'i')
  | none => false

/-- The result of the run used as an example for the identifiers: key table `<GI,GGO,LDi`,
options `-Fg200k -L$`, counter 5. -/
def two_defaults_result : ParserResult :=
  { error := 0,
    state := { key := ["<Gi".toList, "GGo".toList, "LDi".toList],
               head := [node 'F' "g200k", node 'L' "@GMTAPI@-000007",
                        node '<' "@GMTAPI@-000005", node 'G' "@GMTAPI@-000006"],
               unique_ID := 8, lr_pos_in := 2, lr_pos_out := 1,
               data_type := some GMT_family.GMT_IS_DATASET,
               geometry := some GMT_geometry.GMT_IS_POINT, PS := 0 } }

/-- Number of unmuted `$` in a text: the scan of `gmtmex_get_arg_pos` carried on to the end
of the text, `mute` being the quote toggle. -/
def placeholder_count_loop : CString → Bool → Nat
  | [], _ => 0
  | c :: rest, mute =>
    let mute1 := if c = DQUOTE ∨ c = SQUOTE then !mute else mute
    (if mute1 = false ∧ c = '$' then 1 else 0) + placeholder_count_loop rest mute1

/-- Number of `$` outside quotes in an argument text. -/
def placeholder_count (arg : CString) : Nat :=
  placeholder_count_loop arg false

/-- The text holds no `$` and an even number of quote characters (none, for the encoded
identifiers shown in the comments of `GMTMEX_parser`): put into an argument, it adds no
marker and leaves the quote toggle of the scan as it finds it. -/
def PlainName (s : CString) : Prop :=
  '$' ∉ s ∧ quoteCount s % 2 = 0

instance (s : CString) : Decidable (PlainName s) := by
  unfold PlainName
  infer_instance

/-- A `GMT_Encode_ID` that writes a single quote character as the name: a name without `$`
and with an odd number of quote characters. -/
def quoting_encode (_ : Int) : Int × CString :=
  (0, [SQUOTE])

/-! # Theorems -/

/-! ## Theorems: `gmtmex_get_arg_pos` -/

theorem dollar_ne_quotes : ¬ (('$' : Char) = DQUOTE ∨ ('$' : Char) = SQUOTE) := by decide

theorem unmutedFrom_cons_succ (m : Bool) (c : Char) (rest : CString) (j : Nat) :
    UnmutedFrom m (c :: rest) (j + 1) ↔
      UnmutedFrom (if c = DQUOTE ∨ c = SQUOTE then !m else m) rest j := by
  unfold UnmutedFrom quoteCount
  by_cases hq : c = DQUOTE ∨ c = SQUOTE
  · cases m
    · simp [hq, List.countP_cons]
    · simp [hq, List.countP_cons]
      intro _
      omega
  · cases m <;> simp [hq, List.countP_cons]

theorem get_arg_pos_loop_spec (rest : CString) :
    ∀ (k : Nat) (m : Bool),
      (get_arg_pos_loop rest k m = -1 ∧ ∀ j, ¬ UnmutedFrom m rest j) ∨
      (∃ j : Nat, get_arg_pos_loop rest k m = ((k + j : Nat) : Int) ∧ UnmutedFrom m rest j ∧
        ∀ i, i < j → ¬ UnmutedFrom m rest i) := by
  induction rest with
  | nil =>
    intro k m
    left
    refine ⟨rfl, ?_⟩
    intro j hj
    simp [UnmutedFrom] at hj
  | cons c rest ih =>
    intro k m
    by_cases hfound : (if c = DQUOTE ∨ c = SQUOTE then !m else m) = false ∧ c = '$'
    · right
      refine ⟨0, ?_, ?_, ?_⟩
      · simp only [get_arg_pos_loop]
        rw [if_pos hfound]
        simp
      · obtain ⟨hm, hc⟩ := hfound
        subst hc
        simp only [dollar_ne_quotes, if_false] at hm
        subst hm
        simp [UnmutedFrom, quoteCount]
      · intro i hi
        omega
    · have hzero : ¬ UnmutedFrom m (c :: rest) 0 := by
        intro h0
        apply hfound
        obtain ⟨hget, hpar⟩ := h0
        have hc : c = '$' := by simpa using hget
        subst hc
        cases m
        · simp [dollar_ne_quotes]
        · simp [quoteCount] at hpar
      have hstep : get_arg_pos_loop (c :: rest) k m =
          get_arg_pos_loop rest (k + 1) (if c = DQUOTE ∨ c = SQUOTE then !m else m) := by
        simp only [get_arg_pos_loop]
        rw [if_neg hfound]
      rcases ih (k + 1) (if c = DQUOTE ∨ c = SQUOTE then !m else m) with ⟨hres, hnone⟩ | ⟨j, hres, hj, hmin⟩
      · left
        refine ⟨by rw [hstep, hres], ?_⟩
        intro j
        cases j with
        | zero => exact hzero
        | succ j =>
          rw [unmutedFrom_cons_succ]
          exact hnone j
      · right
        refine ⟨j + 1, ?_, ?_, ?_⟩
        · rw [hstep, hres]
          congr 1
          omega
        · rw [unmutedFrom_cons_succ]
          exact hj
        · intro i hi
          cases i with
          | zero => exact hzero
          | succ i =>
            rw [unmutedFrom_cons_succ]
            exact hmin i (by omega)

theorem unmutedFrom_false_iff (s : CString) (k : Nat) : UnmutedFrom false s k ↔ Unmuted s k := by
  simp [UnmutedFrom, Unmuted]

/-- C1. `gmtmex_get_arg_pos s` is the smallest index `k` with `s[k] = '$'` and an even number
of quote characters (single and double counted together) in `s[0..k-1]`; it is -1 exactly
when there is no such index; a returned index lies in `0 .. strlen s - 1` and holds a `$`;
and on the text `'$literal' $` the result is 11. -/
theorem gmtmex_get_arg_pos_first_unmuted (s : CString) :
    (∀ k : Nat, gmtmex_get_arg_pos s = (k : Int) ↔
        (Unmuted s k ∧ ∀ j, j < k → ¬ Unmuted s j)) ∧
    (gmtmex_get_arg_pos s = -1 ↔ ∀ k, ¬ Unmuted s k) ∧
    (gmtmex_get_arg_pos s = -1 ∨
      ∃ k : Nat, gmtmex_get_arg_pos s = (k : Int) ∧ k < s.length ∧ s[k]? = some '$') ∧
    gmtmex_get_arg_pos "'$literal' $".toList = 11 := by
  have hspec := get_arg_pos_loop_spec s 0 false
  simp only [unmutedFrom_false_iff, Nat.zero_add] at hspec
  refine ⟨?_, ?_, ?_, by decide⟩
  · intro k
    unfold gmtmex_get_arg_pos
    rcases hspec with ⟨hres, hnone⟩ | ⟨j, hres, hj, hmin⟩
    · rw [hres]
      constructor
      · intro h
        omega
      · intro h
        exact absurd h.1 (hnone k)
    · rw [hres]
      constructor
      · intro h
        have hjk : j = k := by exact_mod_cast h
        subst hjk
        exact ⟨hj, hmin⟩
      · intro h
        have hjk : j = k := by
          rcases Nat.lt_trichotomy j k with hlt | heq | hgt
          · exact absurd hj (h.2 j hlt)
          · exact heq
          · exact absurd h.1 (hmin k hgt)
        rw [hjk]
  · unfold gmtmex_get_arg_pos
    rcases hspec with ⟨hres, hnone⟩ | ⟨j, hres, hj, hmin⟩
    · simp [hres, hnone]
    · rw [hres]
      constructor
      · intro h
        omega
      · intro h
        exact absurd hj (h j)
  · unfold gmtmex_get_arg_pos
    rcases hspec with ⟨hres, hnone⟩ | ⟨j, hres, hj, hmin⟩
    · left
      exact hres
    · right
      refine ⟨j, hres, ?_, hj.1⟩
      have := hj.1
      exact (List.getElem?_eq_some.mp this).1

/-! ## Theorems: the error outcome of `GMTMEX_parser` -/

@[simp] theorem advance_lr_pos_head (dir : GMT_io_enum) (st : ParserState) :
    (advance_lr_pos dir st).head = st.head := by
  cases dir <;> rfl

@[simp] theorem advance_lr_pos_PS (dir : GMT_io_enum) (st : ParserState) :
    (advance_lr_pos dir st).PS = st.PS := by
  cases dir <;> rfl

@[simp] theorem advance_lr_pos_key (dir : GMT_io_enum) (st : ParserState) :
    (advance_lr_pos dir st).key = st.key := by
  cases dir <;> rfl

@[simp] theorem advance_lr_pos_unique_ID (dir : GMT_io_enum) (st : ParserState) :
    (advance_lr_pos dir st).unique_ID = st.unique_ID := by
  cases dir <;> rfl

theorem flags_update_option (option : Char) (arg : CString) (head : List GMT_OPTION) :
    flags (GMT_Update_Option option arg head) = flags head := by
  induction head with
  | nil => rfl
  | cons o rest ih =>
    unfold GMT_Update_Option
    by_cases h : o.option = option ∧ gmtmex_get_arg_pos o.arg ≠ -1
    · rw [if_pos h]
      simp [flags]
    · rw [if_neg h]
      simp only [flags, List.map_cons] at ih ⊢
      rw [ih]

theorem parser_bind_node_flags_PS (encode : Int → Int × CString) (opt : GMT_OPTION)
    (st st1 : ParserState) (h : parser_bind_node encode opt st = some st1) :
    flags st1.head = flags st.head ∧
    st1.PS = (if st.PS ≠ 0 ∧ opt.option = GMTAPI_OPT_OUTFILE then st.PS + 1 else st.PS) := by
  unfold parser_bind_node at h
  by_cases hpos : gmtmex_get_arg_pos opt.arg = -1
  · simp only [hpos, if_true, Option.some.injEq] at h
    subst h
    by_cases hps : st.PS ≠ 0 ∧ opt.option = GMTAPI_OPT_OUTFILE
    · simp [hps]
    · simp [hps]
  · simp only [hpos, if_false] at h
    split at h
    · exact absurd h (by simp)
    · rename_i a ha
      simp only [Option.some.injEq] at h
      subst h
      by_cases hps : st.PS ≠ 0 ∧ opt.option = GMTAPI_OPT_OUTFILE
      · simp [hps, flags_update_option]
      · simp [hps, flags_update_option]

theorem flags_getElem? (head : List GMT_OPTION) (i : Nat) (opt : GMT_OPTION)
    (h : head[i]? = some opt) : (flags head)[i]? = some opt.option := by
  simp only [flags, List.getElem?_map] at h ⊢
  rw [h]
  rfl

/-- The tally after the binding loop: unchanged when it was 0, otherwise raised by the number
of output-file flags among the nodes visited. -/
theorem parser_bind_loop_flags_PS (encode : Int → Int × CString) (fuel : Nat) :
    ∀ (i : Nat) (st st1 : ParserState), st.head.length ≤ i + fuel →
      parser_bind_loop encode fuel i st = some st1 →
      flags st1.head = flags st.head ∧
      st1.PS = (if st.PS = 0 then 0
        else st.PS + ((flags st.head).drop i).count GMTAPI_OPT_OUTFILE) := by
  induction fuel with
  | zero =>
    intro i st st1 hlen h
    simp only [parser_bind_loop, Option.some.injEq] at h
    subst h
    have hdrop : (flags st.head).drop i = [] := by
      apply List.drop_eq_nil_of_le
      simp only [flags, List.length_map]
      omega
    rw [hdrop]
    by_cases hz : st.PS = 0
    · simp [hz]
    · simp [hz]
  | succ fuel ih =>
    intro i st st1 hlen h
    unfold parser_bind_loop at h
    split at h
    · rename_i hget
      simp only [Option.some.injEq] at h
      subst h
      have hdrop : (flags st.head).drop i = [] := by
        apply List.drop_eq_nil_of_le
        simp only [flags, List.length_map]
        exact List.getElem?_eq_none_iff.mp hget
      rw [hdrop]
      by_cases hz : st.PS = 0
      · simp [hz]
      · simp [hz]
    · rename_i opt hget
      split at h
      · exact absurd h (by simp)
      · rename_i st2 hnode
        obtain ⟨hfl, hps⟩ := parser_bind_node_flags_PS encode opt st st2 hnode
        have hlen2 : st2.head.length ≤ (i + 1) + fuel := by
          have h1 : (flags st2.head).length = (flags st.head).length := by rw [hfl]
          simp only [flags, List.length_map] at h1
          omega
        obtain ⟨hfl1, hps1⟩ := ih (i + 1) st2 st1 hlen2 h
        refine ⟨hfl1.trans hfl, ?_⟩
        have hfget := flags_getElem? st.head i opt hget
        have hsplit : (flags st.head).drop i = opt.option :: (flags st.head).drop (i + 1) := by
          have hi : i < (flags st.head).length := (List.getElem?_eq_some.mp hfget).1
          have hval : (flags st.head)[i] = opt.option := by
            have := (List.getElem?_eq_some.mp hfget).2
            simpa using this
          rw [← hval]
          exact List.drop_eq_getElem_cons hi
        rw [hps1, hps, hfl, hsplit]
        by_cases hz : st.PS = 0
        · simp [hz]
        · by_cases ho : opt.option = GMTAPI_OPT_OUTFILE
          · simp [hz, ho]
            omega
          · have ho2 : ¬ (opt.option == GMTAPI_OPT_OUTFILE) = true := by simpa using ho
            simp [hz, ho, List.count_cons, ho2]

theorem count_flags_eq_outfile_count (head : List GMT_OPTION) :
    (flags head).count GMTAPI_OPT_OUTFILE = outfile_count head := by
  induction head with
  | nil => rfl
  | cons o rest ih =>
    simp only [flags, List.map_cons, outfile_count] at ih ⊢
    by_cases h : o.option = GMTAPI_OPT_OUTFILE
    · simp [List.count_cons, List.countP_cons, h, ih]
    · have h2 : ¬ (o.option == GMTAPI_OPT_OUTFILE) = true := by simpa using h
      simp [List.count_cons, List.countP_cons, h, h2, ih]

theorem key_pos_key_PS (s : CString) (pos : Nat) (st r : KeyPos)
    (h : key_pos_key s pos st = some r) (hst : st.PS = 0 ∨ st.PS = 1) :
    r.PS = 0 ∨ r.PS = 1 := by
  unfold key_pos_key at h
  split at h
  · exact absurd h (by simp)
  · simp only [Option.some.injEq] at h
    subst h
    dsimp only
    split
    · right; rfl
    · exact hst

theorem key_pos_keys_PS (key : List CString) :
    ∀ (pos : Nat) (st r : KeyPos), key_pos_keys key pos st = some r →
      (st.PS = 0 ∨ st.PS = 1) → (r.PS = 0 ∨ r.PS = 1) := by
  induction key with
  | nil =>
    intro pos st r h hst
    simp only [key_pos_keys, Option.some.injEq] at h
    subst h
    exact hst
  | cons s rest ih =>
    intro pos st r h hst
    unfold key_pos_keys at h
    split at h
    · exact absurd h (by simp)
    · rename_i st1 h1
      exact ih _ _ r h (key_pos_key_PS s pos st st1 h1 hst)

theorem gmtmex_get_key_pos_PS (key : List CString) (head : List GMT_OPTION) (kp : KeyPos)
    (h : gmtmex_get_key_pos key head = some kp) : kp.PS = 0 ∨ kp.PS = 1 := by
  unfold gmtmex_get_key_pos at h
  split at h
  · exact absurd h (by simp)
  · exact key_pos_keys_PS key 0 _ kp h (Or.inl rfl)

theorem parser_add_default_PS (encode : Int → Int × CString) (dir : GMT_io_enum) (d : Int)
    (st st1 : ParserState) (h : parser_add_default encode dir d st = some st1) :
    st1.PS = st.PS := by
  unfold parser_add_default at h
  split at h
  · simp only [Option.some.injEq] at h
    rw [← h]
  · split at h
    · simp only [Option.some.injEq] at h
      rw [← h]
    · split at h
      · exact absurd h (by simp)
      · split at h
        · exact absurd h (by simp)
        · split at h
          · exact absurd h (by simp)
          · split at h
            · exact absurd h (by simp)
            · simp only [Option.some.injEq] at h
              rw [← h]
              simp

theorem parser_add_defaults_PS (encode : Int → Int × CString) (kp : KeyPos)
    (st st1 : ParserState) (h : parser_add_defaults encode kp st = some st1) :
    st1.PS = st.PS := by
  unfold parser_add_defaults at h
  split at h
  · exact absurd h (by simp)
  · rename_i st2 h2
    rw [parser_add_default_PS encode _ _ st2 st1 h, parser_add_default_PS encode _ _ st st2 h2]

/-- C2. On every run of `GMTMEX_parser` that completes, the key-table pass and the default
synthesis have completed, the flags of the final list are those of the list after default
synthesis, and the error returned is: 0 when the key table marks no PostScript producer
(`PS = 0`); for a PostScript producer (`PS = 1`), 1 when the list after default synthesis has
no output-file node, 0 when it has exactly one and 2 when it has two or more, every node with
the output-file flag being counted whatever its argument. -/
theorem GMTMEX_parser_error_outcome (encode : Int → Int × CString) (keys : Option CString)
    (head : List GMT_OPTION) (unique_ID : Nat) (r : ParserResult)
    (h : GMTMEX_parser_run encode keys head unique_ID = some r) :
    ∃ kp st,
      gmtmex_get_key_pos (parser_keys keys) head = some kp ∧
      parser_add_defaults encode kp
        (parser_start (parser_keys keys) head unique_ID kp.PS) = some st ∧
      flags r.state.head = flags st.head ∧
      (kp.PS = 0 ∨ kp.PS = 1) ∧
      (kp.PS = 0 → r.error = 0) ∧
      (kp.PS = 1 → outfile_count st.head = 0 → r.error = 1) ∧
      (kp.PS = 1 → outfile_count st.head = 1 → r.error = 0) ∧
      (kp.PS = 1 → 2 ≤ outfile_count st.head → r.error = 2) := by
  unfold GMTMEX_parser_run at h
  split at h
  · exact absurd h (by simp)
  · rename_i kp hkp
    split at h
    · exact absurd h (by simp)
    · rename_i st hst
      split at h
      · exact absurd h (by simp)
      · rename_i st1 hloop
        simp only [Option.some.injEq] at h
        subst h
        obtain ⟨hfl, hps⟩ :=
          parser_bind_loop_flags_PS encode st.head.length 0 st st1 (by omega) hloop
        have hstPS : st.PS = kp.PS := by
          rw [parser_add_defaults_PS encode kp _ st hst]
          rfl
        rw [List.drop_zero, count_flags_eq_outfile_count, hstPS] at hps
        refine ⟨kp, st, hkp, hst, hfl, gmtmex_get_key_pos_PS _ _ kp hkp, ?_, ?_, ?_, ?_⟩
        · intro h0
          simp [hps, h0, parser_error]
        · intro h1 hc
          simp [hps, h1, hc, parser_error]
        · intro h1 hc
          simp [hps, h1, hc, parser_error]
        · intro h1 hc
          simp only [hps, h1, parser_error]
          simp
          omega

/-- Witness for C2: the PostScript producer `-DI,-XO` with the options `-Jx >a.ps` completes
with outcome 0; the same key table gives 1 with no output-file node and 2 with two. -/
theorem GMTMEX_parser_error_outcome_witness :
    GMTMEX_parser_run sample_encode (some "-DI,-XO".toList)
        [node 'J' "x", node '>' "a.ps"] 0 =
      some { error := 0,
             state := parser_start ["-DI".toList, "-XO".toList]
               [node 'J' "x", node '>' "a.ps"] 0 2 } ∧
    (GMTMEX_parser_run sample_encode (some "-DI,-XO".toList) [node 'J' "x"] 0).map
        (fun r => r.error) = some 1 ∧
    (GMTMEX_parser_run sample_encode (some "-DI,-XO".toList)
        [node '>' "a.ps", node 'J' "x", node '>' "$"] 0).map (fun r => r.error) = none ∧
    (GMTMEX_parser_run sample_encode (some "-DI,-XO,>Xo".toList)
        [node '>' "a.ps", node 'J' "x", node '>' "$"] 0).map (fun r => r.error) = some 2 ∧
    ∃ kp st,
      gmtmex_get_key_pos (parser_keys (some "-DI,-XO".toList))
        [node 'J' "x", node '>' "a.ps"] = some kp ∧
      parser_add_defaults sample_encode kp
        (parser_start (parser_keys (some "-DI,-XO".toList))
          [node 'J' "x", node '>' "a.ps"] 0 kp.PS) = some st ∧
      flags (parser_start ["-DI".toList, "-XO".toList]
               [node 'J' "x", node '>' "a.ps"] 0 2).head = flags st.head ∧
      (kp.PS = 0 ∨ kp.PS = 1) ∧
      (kp.PS = 0 → (0 : Int) = 0) ∧
      (kp.PS = 1 → outfile_count st.head = 0 → (0 : Int) = 1) ∧
      (kp.PS = 1 → outfile_count st.head = 1 → (0 : Int) = 0) ∧
      (kp.PS = 1 → 2 ≤ outfile_count st.head → (0 : Int) = 2) :=
  ⟨by decide, by decide, by decide, by decide,
   GMTMEX_parser_error_outcome sample_encode (some "-DI,-XO".toList)
     [node 'J' "x", node '>' "a.ps"] 0
     { error := 0,
       state := parser_start ["-DI".toList, "-XO".toList] [node 'J' "x", node '>' "a.ps"] 0 2 }
     (by decide)⟩

/-! ## Theorems: `gmtmex_find_option` and `gmtmex_get_arg_dir` -/

theorem find_option_loop_spec (option : Char) (key : List CString) :
    ∀ k0 : Nat,
      (find_option_loop option key k0 = -1 ∧ matching key option = none ∧
        ∀ s, s ∈ key → cfirst s ≠ option) ∨
      (∃ (j : Nat) (s : CString),
        find_option_loop option key k0 = ((k0 + j : Nat) : Int) ∧ key[j]? = some s ∧
        matching key option = some s ∧ cfirst s = option ∧
        ∀ i t, i < j → key[i]? = some t → cfirst t ≠ option) := by
  induction key with
  | nil =>
    intro k0
    left
    simp [find_option_loop, matching]
  | cons s rest ih =>
    intro k0
    by_cases hs : cfirst s = option
    · right
      refine ⟨0, s, ?_, by simp, ?_, hs, ?_⟩
      · simp [find_option_loop, hs]
      · simp [matching, hs]
      · intro i t hi
        omega
    · rcases ih (k0 + 1) with ⟨hres, hm, hall⟩ | ⟨j, t, hres, hget, hm, ht, hmin⟩
      · left
        refine ⟨?_, ?_, ?_⟩
        · simp only [find_option_loop, hs, if_false]
          exact hres
        · simp only [matching] at hm ⊢
          simp [List.find?_cons, hs, hm]
        · intro u hu
          rcases List.mem_cons.mp hu with h1 | h1
          · rw [h1]
            exact hs
          · exact hall u h1
      · right
        refine ⟨j + 1, t, ?_, ?_, ?_, ht, ?_⟩
        · simp only [find_option_loop, hs, if_false]
          rw [hres]
          congr 1
          omega
        · simpa using hget
        · simp only [matching] at hm ⊢
          simp [List.find?_cons, hs, hm]
        · intro i u hi hu
          cases i with
          | zero =>
            simp at hu
            rw [← hu]
            exact hs
          | succ i =>
            exact hmin i u (by omega) (by simpa using hu)

/-- A flag that matches a descriptor is found at the index of its first occurrence. -/
theorem gmtmex_find_option_of_matching (option : Char) (key : List CString) (s : CString)
    (hm : matching key option = some s) :
    ∃ k : Nat, gmtmex_find_option option key = (k : Int) ∧ key[k]? = some s ∧
      cfirst s = option ∧ ∀ i t, i < k → key[i]? = some t → cfirst t ≠ option := by
  rcases find_option_loop_spec option key 0 with ⟨_, hnone, _⟩ | ⟨j, t, hres, hget, hm2, ht, hmin⟩
  · rw [hnone] at hm
    exact absurd hm (by simp)
  · rw [hm] at hm2
    have hst : s = t := by simpa using hm2
    subst hst
    exact ⟨j, by simpa [gmtmex_find_option] using hres, hget, ht, hmin⟩

theorem gmtmex_find_option_of_not_matching (option : Char) (key : List CString)
    (hm : matching key option = none) : gmtmex_find_option option key = -1 := by
  rcases find_option_loop_spec option key 0 with ⟨hres, _, _⟩ | ⟨j, t, _, _, hm2, _, _⟩
  · exact hres
  · rw [hm] at hm2
    exact absurd hm2 (by simp)

theorem cget_of_getElem? (s : CString) (i : Nat) (c : Char) (h : s[i]? = some c) :
    cget s i = some c := by
  simp [cget, h]

theorem cget_isSome (s : CString) (i : Nat) (h : i ≤ s.length) : ∃ c, cget s i = some c := by
  unfold cget
  rcases Nat.lt_or_eq_of_le h with hlt | heq
  · have : s[i]? = some s[i] := List.getElem?_eq_getElem hlt
    exact ⟨s[i], by rw [this]⟩
  · have : s[i]? = none := by
      apply List.getElem?_eq_none
      omega
    exact ⟨NUL, by rw [this]; simp [heq]⟩

/-- The value of `gmtmex_get_arg_dir` when the flag is found at index `k` and the second and
third positions of that key are readable. -/
theorem gmtmex_get_arg_dir_eq (option : Char) (key : List CString)
    (dt : Option GMT_family) (g : Option GMT_geometry) (k : Nat) (s : CString) (c r : Char)
    (hfind : gmtmex_find_option option key = (k : Int)) (hget : key[k]? = some s)
    (hc : cget s 1 = some c) (hr : cget s 2 = some r) :
    gmtmex_get_arg_dir option key dt g =
      some { direction := if r = 'I' ∨ r = 'i' then GMT_io_enum.GMT_IN else GMT_io_enum.GMT_OUT,
             data_type := (arg_dir_switch c dt g).1,
             geometry := (arg_dir_switch c dt g).2,
             key := key.set k
               (if r = 'I' then s.set 2 'i' else if r = 'O' then s.set 2 'o' else s) } := by
  unfold gmtmex_get_arg_dir
  have hne : ¬ ((k : Int) = -1) := by omega
  simp only [hfind, hne, if_false, Int.toNat_ofNat, hget, hc, hr]
  by_cases h1 : r = 'I'
  · subst h1
    simp
  · by_cases h2 : r = 'O'
    · subst h2
      simp
    · by_cases h3 : r = 'i'
      · subst h3
        simp
      · simp [h1, h2, h3]

/-- C7. For every key table and every flag that matches a descriptor with a kind character,
`gmtmex_get_arg_dir` returns and leaves in `*data_type`, `*geometry` the pair of the fixed
table: G -> (grid, surface), P -> (dataset, polygon), L -> (dataset, line),
D -> (dataset, point), C -> (palette, none), T -> (textset, none), I -> (image, surface),
X -> (PostScript, none). -/
theorem gmtmex_get_arg_dir_kind_table (option : Char) (key : List CString)
    (dt : Option GMT_family) (g : Option GMT_geometry) (s : CString) (c : Char)
    (hmatch : matching key option = some s) (hkind : s[1]? = some c) :
    ∃ a, gmtmex_get_arg_dir option key dt g = some a ∧
      (c = 'G' → a.data_type = some GMT_family.GMT_IS_GRID ∧
        a.geometry = some GMT_geometry.GMT_IS_SURFACE) ∧
      (c = 'P' → a.data_type = some GMT_family.GMT_IS_DATASET ∧
        a.geometry = some GMT_geometry.GMT_IS_POLY) ∧
      (c = 'L' → a.data_type = some GMT_family.GMT_IS_DATASET ∧
        a.geometry = some GMT_geometry.GMT_IS_LINE) ∧
      (c = 'D' → a.data_type = some GMT_family.GMT_IS_DATASET ∧
        a.geometry = some GMT_geometry.GMT_IS_POINT) ∧
      (c = 'C' → a.data_type = some GMT_family.GMT_IS_CPT ∧
        a.geometry = some GMT_geometry.GMT_IS_NONE) ∧
      (c = 'T' → a.data_type = some GMT_family.GMT_IS_TEXTSET ∧
        a.geometry = some GMT_geometry.GMT_IS_NONE) ∧
      (c = 'I' → a.data_type = some GMT_family.GMT_IS_IMAGE ∧
        a.geometry = some GMT_geometry.GMT_IS_SURFACE) ∧
      (c = 'X' → a.data_type = some GMT_family.GMT_IS_PS ∧
        a.geometry = some GMT_geometry.GMT_IS_NONE) := by
  obtain ⟨k, hfind, hget, _, _⟩ := gmtmex_find_option_of_matching option key s hmatch
  have hlen : 1 < s.length := (List.getElem?_eq_some.mp hkind).1
  obtain ⟨r, hr⟩ := cget_isSome s 2 (by omega)
  have hc := cget_of_getElem? s 1 c hkind
  refine ⟨_, gmtmex_get_arg_dir_eq option key dt g k s c r hfind hget hc hr, ?_⟩
  refine ⟨?_, ?_, ?_, ?_, ?_, ?_, ?_, ?_⟩ <;> intro h <;> subst h <;>
    simp [arg_dir_switch]

/-- Witness for C7: in the key table `GGI,LDo` the flag `L` matches `LDo`, of kind `D`. -/
theorem gmtmex_get_arg_dir_kind_table_witness :
    matching ["GGI".toList, "LDo".toList] 'L' = some "LDo".toList ∧
    ("LDo".toList)[1]? = some 'D' ∧
    ∃ a, gmtmex_get_arg_dir 'L' ["GGI".toList, "LDo".toList] none none = some a ∧
      (('D' : Char) = 'G' → a.data_type = some GMT_family.GMT_IS_GRID ∧
        a.geometry = some GMT_geometry.GMT_IS_SURFACE) ∧
      (('D' : Char) = 'P' → a.data_type = some GMT_family.GMT_IS_DATASET ∧
        a.geometry = some GMT_geometry.GMT_IS_POLY) ∧
      (('D' : Char) = 'L' → a.data_type = some GMT_family.GMT_IS_DATASET ∧
        a.geometry = some GMT_geometry.GMT_IS_LINE) ∧
      (('D' : Char) = 'D' → a.data_type = some GMT_family.GMT_IS_DATASET ∧
        a.geometry = some GMT_geometry.GMT_IS_POINT) ∧
      (('D' : Char) = 'C' → a.data_type = some GMT_family.GMT_IS_CPT ∧
        a.geometry = some GMT_geometry.GMT_IS_NONE) ∧
      (('D' : Char) = 'T' → a.data_type = some GMT_family.GMT_IS_TEXTSET ∧
        a.geometry = some GMT_geometry.GMT_IS_NONE) ∧
      (('D' : Char) = 'I' → a.data_type = some GMT_family.GMT_IS_IMAGE ∧
        a.geometry = some GMT_geometry.GMT_IS_SURFACE) ∧
      (('D' : Char) = 'X' → a.data_type = some GMT_family.GMT_IS_PS ∧
        a.geometry = some GMT_geometry.GMT_IS_NONE) :=
  ⟨by decide, by decide,
   gmtmex_get_arg_dir_kind_table 'L' ["GGI".toList, "LDo".toList] none none "LDo".toList 'D'
     (by decide) (by decide)⟩

/-- C8. For every key table and every flag that matches a descriptor, `gmtmex_get_arg_dir`
returns `GMT_IN` when the descriptor's role character is `I` or `i` and `GMT_OUT` when it is
`O` or `o`. -/
theorem gmtmex_get_arg_dir_direction (option : Char) (key : List CString)
    (dt : Option GMT_family) (g : Option GMT_geometry) (s : CString)
    (hmatch : matching key option = some s) :
    ((s[2]? = some 'I' ∨ s[2]? = some 'i') →
      ∃ a, gmtmex_get_arg_dir option key dt g = some a ∧ a.direction = GMT_io_enum.GMT_IN) ∧
    ((s[2]? = some 'O' ∨ s[2]? = some 'o') →
      ∃ a, gmtmex_get_arg_dir option key dt g = some a ∧ a.direction = GMT_io_enum.GMT_OUT) := by
  obtain ⟨k, hfind, hget, _, _⟩ := gmtmex_find_option_of_matching option key s hmatch
  have key_fact : ∀ r : Char, s[2]? = some r →
      ∃ a, gmtmex_get_arg_dir option key dt g = some a ∧
        a.direction = (if r = 'I' ∨ r = 'i' then GMT_io_enum.GMT_IN else GMT_io_enum.GMT_OUT) := by
    intro r hr
    have hlen : 2 < s.length := (List.getElem?_eq_some.mp hr).1
    obtain ⟨c, hc⟩ := cget_isSome s 1 (by omega)
    exact ⟨_, gmtmex_get_arg_dir_eq option key dt g k s c r hfind hget hc
      (cget_of_getElem? s 2 r hr), rfl⟩
  constructor
  · intro h
    rcases h with h | h
    · obtain ⟨a, ha, hd⟩ := key_fact 'I' h
      exact ⟨a, ha, by simpa using hd⟩
    · obtain ⟨a, ha, hd⟩ := key_fact 'i' h
      exact ⟨a, ha, by simpa using hd⟩
  · intro h
    rcases h with h | h
    · obtain ⟨a, ha, hd⟩ := key_fact 'O' h
      exact ⟨a, ha, by rw [hd]; decide⟩
    · obtain ⟨a, ha, hd⟩ := key_fact 'o' h
      exact ⟨a, ha, by rw [hd]; decide⟩

/-- Witness for C8: in the key table `GGI,LDo` the flag `G` matches `GGI` (an input role) and
the flag `L` matches `LDo` (an output role). -/
theorem gmtmex_get_arg_dir_direction_witness :
    matching ["GGI".toList, "LDo".toList] 'G' = some "GGI".toList ∧
    ((("GGI".toList)[2]? = some 'I' ∨ ("GGI".toList)[2]? = some 'i') →
      ∃ a, gmtmex_get_arg_dir 'G' ["GGI".toList, "LDo".toList] none none = some a ∧
        a.direction = GMT_io_enum.GMT_IN) ∧
    ((("GGI".toList)[2]? = some 'O' ∨ ("GGI".toList)[2]? = some 'o') →
      ∃ a, gmtmex_get_arg_dir 'G' ["GGI".toList, "LDo".toList] none none = some a ∧
        a.direction = GMT_io_enum.GMT_OUT) ∧
    (gmtmex_get_arg_dir 'G' ["GGI".toList, "LDo".toList] none none).map
      (fun a => a.direction) = some GMT_io_enum.GMT_IN ∧
    (gmtmex_get_arg_dir 'L' ["GGI".toList, "LDo".toList] none none).map
      (fun a => a.direction) = some GMT_io_enum.GMT_OUT :=
  ⟨by decide,
   (gmtmex_get_arg_dir_direction 'G' ["GGI".toList, "LDo".toList] none none "GGI".toList
     (by decide)).1,
   (gmtmex_get_arg_dir_direction 'G' ["GGI".toList, "LDo".toList] none none "GGI".toList
     (by decide)).2,
   by decide, by decide⟩

theorem list_set_same {α : Type} (l : List α) (i : Nat) (a : α) (h : l[i]? = some a) :
    l.set i a = l := by
  apply List.ext_getElem?
  intro n
  by_cases hn : i = n
  · subst hn
    rw [List.getElem?_set_self (List.getElem?_eq_some.mp h).1, h]
  · rw [List.getElem?_set_ne hn]

theorem cget_ne_NUL (s : CString) (i : Nat) (r : Char) (h : cget s i = some r) (hr : r ≠ NUL) :
    s[i]? = some r := by
  unfold cget at h
  split at h
  · rename_i c hc
    rw [hc]
    exact h
  · split at h
    · simp only [Option.some.injEq] at h
      exact absurd h.symm hr
    · exact absurd h (by simp)

/-- C9. Classifying a flag that matches a descriptor `s = key[k]` (with its positions up to
the role readable) changes the key table only at `key[k]`, and there only at the role
position: a role `I` becomes `i`, a role `O` becomes `o`; length, flag, kind and every other
position stay, every other descriptor stays, and with any other role (`i`, `o` included) the
whole key table is left as it was. -/
theorem gmtmex_get_arg_dir_key_frame (option : Char) (key : List CString)
    (dt : Option GMT_family) (g : Option GMT_geometry) (s : CString)
    (hmatch : matching key option = some s) (hlen : 2 ≤ s.length) :
    ∃ (a : ArgDir) (k : Nat) (s1 : CString),
      gmtmex_get_arg_dir option key dt g = some a ∧
      key[k]? = some s ∧
      (∀ i t, i < k → key[i]? = some t → cfirst t ≠ option) ∧
      a.key.length = key.length ∧
      a.key[k]? = some s1 ∧
      (∀ j, j ≠ k → a.key[j]? = key[j]?) ∧
      s1.length = s.length ∧
      (∀ i, i ≠ 2 → s1[i]? = s[i]?) ∧
      (s[2]? = some 'I' → s1[2]? = some 'i') ∧
      (s[2]? = some 'O' → s1[2]? = some 'o') ∧
      (s[2]? ≠ some 'I' → s[2]? ≠ some 'O' → s1 = s ∧ a.key = key) := by
  obtain ⟨k, hfind, hget, _, hmin⟩ := gmtmex_find_option_of_matching option key s hmatch
  obtain ⟨c, hc⟩ := cget_isSome s 1 (by omega)
  obtain ⟨r, hr⟩ := cget_isSome s 2 hlen
  have hk : k < key.length := (List.getElem?_eq_some.mp hget).1
  have hrI : r = 'I' → s[2]? = some 'I' := by
    intro h
    subst h
    exact cget_ne_NUL s 2 'I' hr (by decide)
  have hrO : r = 'O' → s[2]? = some 'O' := by
    intro h
    subst h
    exact cget_ne_NUL s 2 'O' hr (by decide)
  have hIr : s[2]? = some 'I' → r = 'I' := by
    intro h
    have := cget_of_getElem? s 2 'I' h
    rw [hr] at this
    simpa using this
  have hOr : s[2]? = some 'O' → r = 'O' := by
    intro h
    have := cget_of_getElem? s 2 'O' h
    rw [hr] at this
    simpa using this
  refine ⟨_, k, (if r = 'I' then s.set 2 'i' else if r = 'O' then s.set 2 'o' else s),
    gmtmex_get_arg_dir_eq option key dt g k s c r hfind hget hc hr, hget, hmin, ?_, ?_, ?_,
    ?_, ?_, ?_, ?_, ?_⟩
  · simp
  · exact List.getElem?_set_self hk
  · intro j hj
    exact List.getElem?_set_ne (Ne.symm hj)
  · split
    · simp
    · split
      · simp
      · rfl
  · intro i hi
    split
    · exact List.getElem?_set_ne (Ne.symm hi)
    · split
      · exact List.getElem?_set_ne (Ne.symm hi)
      · rfl
  · intro h
    have h2 : 2 < s.length := (List.getElem?_eq_some.mp h).1
    rw [if_pos (hIr h)]
    exact List.getElem?_set_self h2
  · intro h
    have h2 : 2 < s.length := (List.getElem?_eq_some.mp h).1
    have hr2 : r = 'O' := hOr h
    have hne : ¬ r = 'I' := by
      rw [hr2]
      decide
    rw [if_neg hne, if_pos hr2]
    exact List.getElem?_set_self h2
  · intro hnI hnO
    have h1 : ¬ r = 'I' := fun h => hnI (hrI h)
    have h2 : ¬ r = 'O' := fun h => hnO (hrO h)
    simp only [h1, h2, if_false]
    exact ⟨trivial, list_set_same key k s hget⟩

/-- Witness for C9: classifying `G` in the key table `GGI,LDo` turns `GGI` into `GGi` and
leaves `LDo`; classifying `L` leaves the whole table. -/
theorem gmtmex_get_arg_dir_key_frame_witness :
    matching ["GGI".toList, "LDo".toList] 'G' = some "GGI".toList ∧
    2 ≤ ("GGI".toList).length ∧
    (gmtmex_get_arg_dir 'G' ["GGI".toList, "LDo".toList] none none).map (fun a => a.key) =
      some ["GGi".toList, "LDo".toList] ∧
    (gmtmex_get_arg_dir 'L' ["GGI".toList, "LDo".toList] none none).map (fun a => a.key) =
      some ["GGI".toList, "LDo".toList] ∧
    ∃ (a : ArgDir) (k : Nat) (s1 : CString),
      gmtmex_get_arg_dir 'G' ["GGI".toList, "LDo".toList] none none = some a ∧
      ["GGI".toList, "LDo".toList][k]? = some "GGI".toList ∧
      (∀ i t, i < k → ["GGI".toList, "LDo".toList][i]? = some t → cfirst t ≠ 'G') ∧
      a.key.length = ["GGI".toList, "LDo".toList].length ∧
      a.key[k]? = some s1 ∧
      (∀ j, j ≠ k → a.key[j]? = ["GGI".toList, "LDo".toList][j]?) ∧
      s1.length = ("GGI".toList).length ∧
      (∀ i, i ≠ 2 → s1[i]? = ("GGI".toList)[i]?) ∧
      (("GGI".toList)[2]? = some 'I' → s1[2]? = some 'i') ∧
      (("GGI".toList)[2]? = some 'O' → s1[2]? = some 'o') ∧
      (("GGI".toList)[2]? ≠ some 'I' → ("GGI".toList)[2]? ≠ some 'O' →
        s1 = "GGI".toList ∧ a.key = ["GGI".toList, "LDo".toList]) :=
  ⟨by decide, by decide, by decide, by decide,
   gmtmex_get_arg_dir_key_frame 'G' ["GGI".toList, "LDo".toList] none none "GGI".toList
     (by decide) (by decide)⟩

/-! ## Theorems: default synthesis in `GMTMEX_parser` -/

theorem gmtmex_get_arg_dir_inv (option : Char) (key : List CString)
    (dt : Option GMT_family) (g : Option GMT_geometry) (a : ArgDir)
    (h : gmtmex_get_arg_dir option key dt g = some a) :
    ∃ (k : Nat) (s : CString) (c r : Char),
      gmtmex_find_option option key = (k : Int) ∧ key[k]? = some s ∧
      cget s 1 = some c ∧ cget s 2 = some r ∧
      a = { direction := if r = 'I' ∨ r = 'i' then GMT_io_enum.GMT_IN else GMT_io_enum.GMT_OUT,
            data_type := (arg_dir_switch c dt g).1,
            geometry := (arg_dir_switch c dt g).2,
            key := key.set k
              (if r = 'I' then s.set 2 'i' else if r = 'O' then s.set 2 'o' else s) } := by
  rcases find_option_loop_spec option key 0 with ⟨hres, _, _⟩ | ⟨j, t, hres, hget, _, _, _⟩
  · have hf : gmtmex_find_option option key = -1 := hres
    unfold gmtmex_get_arg_dir at h
    simp [hf] at h
  · have hf : gmtmex_find_option option key = (j : Int) := by
      simpa [gmtmex_find_option] using hres
    cases hc : cget t 1 with
    | none =>
      unfold gmtmex_get_arg_dir at h
      have hne : ¬ ((j : Int) = -1) := by omega
      simp [hf, hne, hget, hc] at h
    | some c =>
      cases hr : cget t 2 with
      | none =>
        unfold gmtmex_get_arg_dir at h
        have hne : ¬ ((j : Int) = -1) := by omega
        simp [hf, hne, hget, hc, hr] at h
      | some r =>
        have := gmtmex_get_arg_dir_eq option key dt g j t c r hf hget hc hr
        rw [h] at this
        exact ⟨j, t, c, r, hf, hget, hc, hr, by simpa using this⟩

theorem cfirst_set_two (s : CString) (x : Char) : cfirst (s.set 2 x) = cfirst s := by
  cases s with
  | nil => rfl
  | cons c t => rfl

/-- Classifying a flag never changes the first character of any key. -/
theorem gmtmex_get_arg_dir_cfirst (option : Char) (key : List CString)
    (dt : Option GMT_family) (g : Option GMT_geometry) (a : ArgDir)
    (h : gmtmex_get_arg_dir option key dt g = some a) (j : Nat) :
    (a.key[j]?).map cfirst = (key[j]?).map cfirst := by
  obtain ⟨k, s, c, r, _, hget, _, _, ha⟩ := gmtmex_get_arg_dir_inv option key dt g a h
  subst ha
  dsimp only
  by_cases hj : k = j
  · subst hj
    rw [List.getElem?_set_self (List.getElem?_eq_some.mp hget).1, hget]
    simp only [Option.map_some']
    congr 1
    split
    · exact cfirst_set_two s 'i'
    · split
      · exact cfirst_set_two s 'o'
      · rfl
  · rw [List.getElem?_set_ne hj]

/-- One round of default synthesis that completes: for `GMT_MEX_NONE` and `GMT_MEX_EXPLICIT`
nothing changes; otherwise `d` is the index of a key, one identifier is taken from
`unique_ID`, and the node made of that key's flag and of the encoded identifier is appended
in place (which extends a non-empty list and leaves an empty one empty). -/
theorem parser_add_default_spec (encode : Int → Int × CString) (dir : GMT_io_enum) (d : Int)
    (st st1 : ParserState) (h : parser_add_default encode dir d st = some st1) :
    ((d = GMT_MEX_NONE ∨ d = GMT_MEX_EXPLICIT) ∧ st1 = st) ∨
    (0 ≤ d ∧ ∃ s, st.key[d.toNat]? = some s ∧
      st1.head = append_in_place
        (GMT_Make_Option (cfirst s) (encode (to_int st.unique_ID)).2) st.head ∧
      st1.unique_ID = (st.unique_ID + 1) % 2 ^ 32 ∧
      st1.PS = st.PS ∧ st1.key.length = st.key.length ∧
      ∀ j : Nat, (st1.key[j]?).map cfirst = (st.key[j]?).map cfirst) := by
  unfold parser_add_default at h
  split at h
  · rename_i hd
    left
    exact ⟨Or.inl hd, by simpa using h.symm⟩
  · split at h
    · rename_i hd
      left
      exact ⟨Or.inr hd, by simpa using h.symm⟩
    · split at h
      · exact absurd h (by simp)
      · rename_i hd0
        split at h
        · exact absurd h (by simp)
        · rename_i s hs
          split at h
          · exact absurd h (by simp)
          · rename_i a ha
            split at h
            · exact absurd h (by simp)
            · rename_i s1 hs1
              right
              refine ⟨by omega, s, hs, ?_⟩
              have hcf := gmtmex_get_arg_dir_cfirst _ _ _ _ a ha d.toNat
              rw [hs1, hs] at hcf
              simp only [Option.map_some', Option.some.injEq] at hcf
              have hall := gmtmex_get_arg_dir_cfirst _ _ _ _ a ha
              obtain ⟨k, t, c, r, _, _, _, _, hak⟩ := gmtmex_get_arg_dir_inv _ _ _ _ a ha
              simp only [Option.some.injEq] at h
              subst h
              refine ⟨?_, ?_, ?_, ?_, ?_⟩
              · simp [hcf]
              · simp
              · simp
              · simp [hak]
              · intro j
                simpa using hall j

/-- Default synthesis on a non-empty option list, when it completes: the list is extended by
the node of the input default, if `def[GMT_IN]` is an index, and then by the node of the
output default, if `def[GMT_OUT]` is an index, and by nothing else; the identifiers are taken
from `unique_ID` in this order. -/
theorem parser_add_defaults_nonempty (encode : Int → Int × CString) (kp : KeyPos)
    (st st2 : ParserState) (hne : st.head ≠ [])
    (h : parser_add_defaults encode kp st = some st2) :
    st2.head = st.head
      ++ (if 0 ≤ kp.def_in then
            [GMT_Make_Option (key_flag st.key kp.def_in) (encode (to_int st.unique_ID)).2]
          else [])
      ++ (if 0 ≤ kp.def_out then
            [GMT_Make_Option (key_flag st.key kp.def_out)
              (encode (to_int (if 0 ≤ kp.def_in then (st.unique_ID + 1) % 2 ^ 32
                else st.unique_ID))).2]
          else []) := by
  unfold parser_add_defaults at h
  split at h
  · exact absurd h (by simp)
  · rename_i st1 h1
    have hin := parser_add_default_spec encode _ _ st st1 h1
    have hout := parser_add_default_spec encode _ _ st1 st2 h
    obtain ⟨o, rest, hhead⟩ := List.exists_cons_of_ne_nil hne
    have e1 : st1.head = st.head ++ (if 0 ≤ kp.def_in then
            [GMT_Make_Option (key_flag st.key kp.def_in) (encode (to_int st.unique_ID)).2]
          else []) ∧
        st1.unique_ID = (if 0 ≤ kp.def_in then (st.unique_ID + 1) % 2 ^ 32 else st.unique_ID) ∧
        ∀ j : Nat, (st1.key[j]?).map cfirst = (st.key[j]?).map cfirst := by
      rcases hin with ⟨hd, heq⟩ | ⟨hd, s, hs, hh, hu, _, _, hk⟩
      · have hneg : ¬ (0 ≤ kp.def_in) := by
          rcases hd with hd | hd <;> rw [hd] <;> decide
        subst heq
        simp [hneg]
      · refine ⟨?_, by simp [hd, hu], hk⟩
        rw [hh, hhead]
        simp [hd, append_in_place, GMT_Append_Option, key_flag, hs]
    obtain ⟨e1h, e1u, e1k⟩ := e1
    have hne1 : st1.head ≠ [] := by
      rw [e1h, hhead]
      simp
    obtain ⟨o1, rest1, hhead1⟩ := List.exists_cons_of_ne_nil hne1
    rcases hout with ⟨hd, heq⟩ | ⟨hd, s, hs, hh, _, _, _, _⟩
    · have hneg : ¬ (0 ≤ kp.def_out) := by
        rcases hd with hd | hd <;> rw [hd] <;> decide
      subst heq
      rw [e1h]
      simp [hneg]
    · rw [hh, hhead1, ← e1u]
      have hflag : key_flag st.key kp.def_out = cfirst s := by
        have := e1k kp.def_out.toNat
        rw [hs] at this
        unfold key_flag
        cases hk0 : st.key[kp.def_out.toNat]? with
        | none =>
          rw [hk0] at this
          exact absurd this (by simp)
        | some t =>
          rw [hk0] at this
          simp only [Option.map_some', Option.some.injEq] at this
          simp [this]
      simp only [append_in_place, GMT_Append_Option, hd, if_true, hflag]
      rw [← hhead1, e1h]

/-- C3 (defect). With the key table `<GI,GGO` and an empty option list both directions have
a synthesis target (the descriptors 0 and 1) and `GMTMEX_parser` issues two identifiers and
returns 0, but the list is still empty afterwards: no node was appended.  On the list
holding only `-Fg200k` the nodes `<` and `G` are appended in this order. -/
theorem GMTMEX_parser_empty_list_gets_no_default :
    gmtmex_get_key_pos (parser_keys (some "<GI,GGO".toList)) [] =
      some { def_in := 0, def_out := 1, PS := 0 } ∧
    GMTMEX_parser_run sample_encode (some "<GI,GGO".toList) [] 0 =
      some { error := 0,
             state := { key := ["<Gi".toList, "GGo".toList], head := [], unique_ID := 2,
                        lr_pos_in := 1, lr_pos_out := 1,
                        data_type := some GMT_family.GMT_IS_GRID,
                        geometry := some GMT_geometry.GMT_IS_SURFACE, PS := 0 } } ∧
    (GMTMEX_parser_run sample_encode (some "<GI,GGO".toList) [node 'F' "g200k"] 0).map
        (fun r => r.state.head) =
      some [node 'F' "g200k", node '<' "@GMTAPI@-000000", node 'G' "@GMTAPI@-000001"] := by
  refine ⟨by decide, by decide, by decide⟩

/-! ## Theorems: `gmtmex_get_key_pos` -/

theorem cget_two_eq_iff (s : CString) (r c : Char) (hr : cget s 2 = some r) (hc : c ≠ NUL) :
    r = c ↔ s[2]? = some c := by
  constructor
  · intro h
    subst h
    exact cget_ne_NUL s 2 r hr hc
  · intro h
    have := cget_of_getElem? s 2 c h
    rw [hr] at this
    simpa using this

/-- The body of the second loop completes on a key with a readable third position. -/
theorem key_pos_key_total (s : CString) (pos : Nat) (st : KeyPos) (hlen : 2 ≤ s.length) :
    ∃ st1, key_pos_key s pos st = some st1 := by
  obtain ⟨r, hr⟩ := cget_isSome s 2 hlen
  simp only [key_pos_key, hr]
  exact ⟨_, rfl⟩

/-- The body of the second loop updates `def[GMT_IN]` and `def[GMT_OUT]` as the two
`if ... else if` statements say. -/
theorem key_pos_key_def (s : CString) (pos : Nat) (st st1 : KeyPos)
    (h : key_pos_key s pos st = some st1) :
    st1.def_in =
      (if (s[2]? = some 'I' ∨ s[2]? = some 'i') ∧ cfirst s = '-' then GMT_MEX_NONE
       else if s[2]? = some 'I' ∧ st.def_in = GMT_MEX_IMPLICIT then (pos : Int)
       else st.def_in) ∧
    st1.def_out =
      (if (s[2]? = some 'O' ∨ s[2]? = some 'o') ∧ cfirst s = '-' then GMT_MEX_NONE
       else if s[2]? = some 'O' ∧ st.def_out = GMT_MEX_IMPLICIT then (pos : Int)
       else st.def_out) := by
  unfold key_pos_key at h
  split at h
  · exact absurd h (by simp)
  · rename_i r hr
    have hI := cget_two_eq_iff s r 'I' hr (by decide)
    have hi := cget_two_eq_iff s r 'i' hr (by decide)
    have hO := cget_two_eq_iff s r 'O' hr (by decide)
    have ho := cget_two_eq_iff s r 'o' hr (by decide)
    simp only [Option.some.injEq] at h
    subst h
    refine ⟨?_, ?_⟩
    · simp only [hI, hi]
    · simp only [hO, ho]

/-- The first loop of `gmtmex_get_key_pos` completes on a key table within bounds; it sets
`def[GMT_IN]` (`def[GMT_OUT]`) to `GMT_MEX_EXPLICIT` exactly when some node has a flag whose
matching descriptor has role `I` (`O`), and leaves it as it was otherwise. -/
theorem key_pos_options_spec (key : List CString) (hk : KeysInBounds key)
    (head : List GMT_OPTION) :
    ∀ d : Int × Int, key_pos_options key head d =
      some (if GivenExplicitly key head 'I' then GMT_MEX_EXPLICIT else d.1,
            if GivenExplicitly key head 'O' then GMT_MEX_EXPLICIT else d.2) := by
  induction head with
  | nil =>
    intro d
    simp [key_pos_options, GivenExplicitly]
  | cons opt rest ih =>
    intro d
    have hgiven : ∀ r : Char, GivenExplicitly key (opt :: rest) r ↔
        (matched_role key opt.option = some r ∨ GivenExplicitly key rest r) := by
      intro r
      simp [GivenExplicitly]
    cases hm : matching key opt.option with
    | none =>
      have hf := gmtmex_find_option_of_not_matching opt.option key hm
      have hrole : matched_role key opt.option = none := by simp [matched_role, hm]
      simp only [key_pos_options, hf, if_true]
      rw [ih d]
      simp [hgiven, hrole]
    | some s =>
      obtain ⟨k, hf, hget, _, _⟩ := gmtmex_find_option_of_matching opt.option key s hm
      have hmem : s ∈ key := List.getElem?_mem hget
      obtain ⟨r, hr⟩ := cget_isSome s 2 (hk s hmem)
      have hrole : matched_role key opt.option = s[2]? := by simp [matched_role, hm]
      have hI := cget_two_eq_iff s r 'I' hr (by decide)
      have hO := cget_two_eq_iff s r 'O' hr (by decide)
      have hne : ¬ ((k : Int) = -1) := by omega
      simp only [key_pos_options, hf, hne, if_false, Int.toNat_ofNat, hget, hr]
      rw [ih]
      simp only [hgiven, hrole, hI, hO]
      by_cases h1 : s[2]? = some 'I' <;> by_cases h2 : s[2]? = some 'O' <;>
        by_cases h3 : GivenExplicitly key rest 'I' <;>
        by_cases h4 : GivenExplicitly key rest 'O' <;> simp [h1, h2, h3, h4]

theorem key_pos_keys_total (keys : List CString) (hk : KeysInBounds keys) :
    ∀ (pos : Nat) (st : KeyPos), ∃ r, key_pos_keys keys pos st = some r := by
  induction keys with
  | nil =>
    intro pos st
    exact ⟨st, rfl⟩
  | cons s rest ih =>
    intro pos st
    obtain ⟨st1, h1⟩ := key_pos_key_total s pos st (hk s (List.mem_cons_self s rest))
    obtain ⟨r, hr⟩ := ih (fun t ht => hk t (List.mem_cons_of_mem s ht)) (pos + 1) st1
    exact ⟨r, by simp only [key_pos_keys, h1, hr]⟩

theorem disallowedIn_cons (s : CString) (rest : List CString) :
    DisallowedIn (s :: rest) ↔
      ((cfirst s = '-' ∧ (s[2]? = some 'I' ∨ s[2]? = some 'i')) ∨ DisallowedIn rest) := by
  simp [DisallowedIn]

/-- Second loop, direction in: a disallowing descriptor among the keys still to scan, or a
value `GMT_MEX_NONE` already set, ends in `GMT_MEX_NONE`. -/
theorem key_pos_keys_in_none (keys : List CString) :
    ∀ (pos : Nat) (st r : KeyPos), key_pos_keys keys pos st = some r →
      (DisallowedIn keys ∨ st.def_in = GMT_MEX_NONE) → r.def_in = GMT_MEX_NONE := by
  induction keys with
  | nil =>
    intro pos st r h hyp
    simp only [key_pos_keys, Option.some.injEq] at h
    subst h
    rcases hyp with hyp | hyp
    · simp [DisallowedIn] at hyp
    · exact hyp
  | cons s rest ih =>
    intro pos st r h hyp
    unfold key_pos_keys at h
    split at h
    · exact absurd h (by simp)
    · rename_i st1 h1
      have hdef := (key_pos_key_def s pos st st1 h1).1
      apply ih (pos + 1) st1 r h
      by_cases c1 : (s[2]? = some 'I' ∨ s[2]? = some 'i') ∧ cfirst s = '-'
      · right
        rw [hdef, if_pos c1]
      · rw [if_neg c1] at hdef
        rcases hyp with hyp | hyp
        · rw [disallowedIn_cons] at hyp
          rcases hyp with hyp | hyp
          · exact absurd ⟨hyp.2, hyp.1⟩ c1
          · left
            exact hyp
        · right
          have c2 : ¬ (s[2]? = some 'I' ∧ st.def_in = GMT_MEX_IMPLICIT) := by
            rw [hyp]
            intro hc
            exact absurd hc.2 (by decide)
          rw [hdef, if_neg c2]
          exact hyp

/-- Second loop, direction in: without a disallowing descriptor a value other than
`GMT_MEX_IMPLICIT` is kept. -/
theorem key_pos_keys_in_keep (keys : List CString) :
    ∀ (pos : Nat) (st r : KeyPos), key_pos_keys keys pos st = some r →
      ¬ DisallowedIn keys → st.def_in ≠ GMT_MEX_IMPLICIT → r.def_in = st.def_in := by
  induction keys with
  | nil =>
    intro pos st r h _ _
    simp only [key_pos_keys, Option.some.injEq] at h
    subst h
    rfl
  | cons s rest ih =>
    intro pos st r h hdis hne
    unfold key_pos_keys at h
    split at h
    · exact absurd h (by simp)
    · rename_i st1 h1
      have hdef := (key_pos_key_def s pos st st1 h1).1
      rw [disallowedIn_cons] at hdis
      have c1 : ¬ ((s[2]? = some 'I' ∨ s[2]? = some 'i') ∧ cfirst s = '-') :=
        fun hc => hdis (Or.inl ⟨hc.2, hc.1⟩)
      have c2 : ¬ (s[2]? = some 'I' ∧ st.def_in = GMT_MEX_IMPLICIT) := fun hc => hne hc.2
      rw [if_neg c1, if_neg c2] at hdef
      rw [← hdef]
      apply ih (pos + 1) st1 r h (fun hc => hdis (Or.inr hc))
      rw [hdef]
      exact hne

/-- Second loop, direction in: without a disallowing descriptor and starting from
`GMT_MEX_IMPLICIT`, the result is the index of the first key with the role `I`. -/
theorem key_pos_keys_in_first (keys : List CString) :
    ∀ (pos : Nat) (st r : KeyPos), key_pos_keys keys pos st = some r →
      ¬ DisallowedIn keys → st.def_in = GMT_MEX_IMPLICIT →
      ∀ (j : Nat) (t : CString), keys[j]? = some t → t[2]? = some 'I' →
        (∀ (i : Nat) (u : CString), i < j → keys[i]? = some u → u[2]? ≠ some 'I') →
        r.def_in = ((pos + j : Nat) : Int) := by
  induction keys with
  | nil =>
    intro pos st r _ _ _ j t hj
    simp at hj
  | cons s rest ih =>
    intro pos st r h hdis himp j t hj ht hmin
    unfold key_pos_keys at h
    split at h
    · exact absurd h (by simp)
    · rename_i st1 h1
      have hdef := (key_pos_key_def s pos st st1 h1).1
      rw [disallowedIn_cons] at hdis
      have c1 : ¬ ((s[2]? = some 'I' ∨ s[2]? = some 'i') ∧ cfirst s = '-') :=
        fun hc => hdis (Or.inl ⟨hc.2, hc.1⟩)
      rw [if_neg c1] at hdef
      cases j with
      | zero =>
        have hts : s = t := by simpa using hj
        subst hts
        rw [if_pos ⟨ht, himp⟩] at hdef
        have hkeep := key_pos_keys_in_keep rest (pos + 1) st1 r h (fun hc => hdis (Or.inr hc))
          (by rw [hdef]; unfold GMT_MEX_IMPLICIT; omega)
        rw [hkeep, hdef]
        simp
      | succ j =>
        have hs : s[2]? ≠ some 'I' := hmin 0 s (by omega) (by simp)
        have c2 : ¬ (s[2]? = some 'I' ∧ st.def_in = GMT_MEX_IMPLICIT) := fun hc => hs hc.1
        rw [if_neg c2] at hdef
        have := ih (pos + 1) st1 r h (fun hc => hdis (Or.inr hc)) (by rw [hdef, himp]) j t
          (by simpa using hj) ht
          (fun i u hi hu => hmin (i + 1) u (by omega) (by simpa using hu))
        rw [this]
        congr 1
        omega

/-- Second loop, direction in: without a disallowing descriptor and without a key of role
`I`, `GMT_MEX_IMPLICIT` is left as it is. -/
theorem key_pos_keys_in_implicit (keys : List CString) :
    ∀ (pos : Nat) (st r : KeyPos), key_pos_keys keys pos st = some r →
      ¬ DisallowedIn keys → st.def_in = GMT_MEX_IMPLICIT →
      (∀ t, t ∈ keys → t[2]? ≠ some 'I') → r.def_in = GMT_MEX_IMPLICIT := by
  induction keys with
  | nil =>
    intro pos st r h _ himp _
    simp only [key_pos_keys, Option.some.injEq] at h
    subst h
    exact himp
  | cons s rest ih =>
    intro pos st r h hdis himp hno
    unfold key_pos_keys at h
    split at h
    · exact absurd h (by simp)
    · rename_i st1 h1
      have hdef := (key_pos_key_def s pos st st1 h1).1
      rw [disallowedIn_cons] at hdis
      have c1 : ¬ ((s[2]? = some 'I' ∨ s[2]? = some 'i') ∧ cfirst s = '-') :=
        fun hc => hdis (Or.inl ⟨hc.2, hc.1⟩)
      have c2 : ¬ (s[2]? = some 'I' ∧ st.def_in = GMT_MEX_IMPLICIT) :=
        fun hc => hno s (List.mem_cons_self s rest) hc.1
      rw [if_neg c1, if_neg c2] at hdef
      exact ih (pos + 1) st1 r h (fun hc => hdis (Or.inr hc)) (by rw [hdef, himp])
        (fun t ht => hno t (List.mem_cons_of_mem s ht))

/-- Second loop, direction in: `GMT_MEX_EXPLICIT` is never assigned, it can only be kept. -/
theorem key_pos_keys_in_explicit (keys : List CString) :
    ∀ (pos : Nat) (st r : KeyPos), key_pos_keys keys pos st = some r →
      r.def_in = GMT_MEX_EXPLICIT → st.def_in = GMT_MEX_EXPLICIT := by
  induction keys with
  | nil =>
    intro pos st r h hr
    simp only [key_pos_keys, Option.some.injEq] at h
    subst h
    exact hr
  | cons s rest ih =>
    intro pos st r h hr
    unfold key_pos_keys at h
    split at h
    · exact absurd h (by simp)
    · rename_i st1 h1
      have hdef := (key_pos_key_def s pos st st1 h1).1
      have h1e := ih (pos + 1) st1 r h hr
      rw [h1e] at hdef
      split at hdef
      · exact absurd hdef (by decide)
      · split at hdef
        · unfold GMT_MEX_EXPLICIT at hdef
          omega
        · exact hdef.symm

theorem disallowedOut_cons (s : CString) (rest : List CString) :
    DisallowedOut (s :: rest) ↔
      ((cfirst s = '-' ∧ (s[2]? = some 'O' ∨ s[2]? = some 'o')) ∨ DisallowedOut rest) := by
  simp [DisallowedOut]

/-- Second loop, direction out: a disallowing descriptor among the keys still to scan, or a
value `GMT_MEX_NONE` already set, ends in `GMT_MEX_NONE`. -/
theorem key_pos_keys_out_none (keys : List CString) :
    ∀ (pos : Nat) (st r : KeyPos), key_pos_keys keys pos st = some r →
      (DisallowedOut keys ∨ st.def_out = GMT_MEX_NONE) → r.def_out = GMT_MEX_NONE := by
  induction keys with
  | nil =>
    intro pos st r h hyp
    simp only [key_pos_keys, Option.some.injEq] at h
    subst h
    rcases hyp with hyp | hyp
    · simp [DisallowedOut] at hyp
    · exact hyp
  | cons s rest ih =>
    intro pos st r h hyp
    unfold key_pos_keys at h
    split at h
    · exact absurd h (by simp)
    · rename_i st1 h1
      have hdef := (key_pos_key_def s pos st st1 h1).2
      apply ih (pos + 1) st1 r h
      by_cases c1 : (s[2]? = some 'O' ∨ s[2]? = some 'o') ∧ cfirst s = '-'
      · right
        rw [hdef, if_pos c1]
      · rw [if_neg c1] at hdef
        rcases hyp with hyp | hyp
        · rw [disallowedOut_cons] at hyp
          rcases hyp with hyp | hyp
          · exact absurd ⟨hyp.2, hyp.1⟩ c1
          · left
            exact hyp
        · right
          have c2 : ¬ (s[2]? = some 'O' ∧ st.def_out = GMT_MEX_IMPLICIT) := by
            rw [hyp]
            intro hc
            exact absurd hc.2 (by decide)
          rw [hdef, if_neg c2]
          exact hyp

/-- Second loop, direction out: without a disallowing descriptor a value other than
`GMT_MEX_IMPLICIT` is kept. -/
theorem key_pos_keys_out_keep (keys : List CString) :
    ∀ (pos : Nat) (st r : KeyPos), key_pos_keys keys pos st = some r →
      ¬ DisallowedOut keys → st.def_out ≠ GMT_MEX_IMPLICIT → r.def_out = st.def_out := by
  induction keys with
  | nil =>
    intro pos st r h _ _
    simp only [key_pos_keys, Option.some.injEq] at h
    subst h
    rfl
  | cons s rest ih =>
    intro pos st r h hdis hne
    unfold key_pos_keys at h
    split at h
    · exact absurd h (by simp)
    · rename_i st1 h1
      have hdef := (key_pos_key_def s pos st st1 h1).2
      rw [disallowedOut_cons] at hdis
      have c1 : ¬ ((s[2]? = some 'O' ∨ s[2]? = some 'o') ∧ cfirst s = '-') :=
        fun hc => hdis (Or.inl ⟨hc.2, hc.1⟩)
      have c2 : ¬ (s[2]? = some 'O' ∧ st.def_out = GMT_MEX_IMPLICIT) := fun hc => hne hc.2
      rw [if_neg c1, if_neg c2] at hdef
      rw [← hdef]
      apply ih (pos + 1) st1 r h (fun hc => hdis (Or.inr hc))
      rw [hdef]
      exact hne

/-- Second loop, direction out: without a disallowing descriptor and starting from
`GMT_MEX_IMPLICIT`, the result is the index of the first key with the role `O`. -/
theorem key_pos_keys_out_first (keys : List CString) :
    ∀ (pos : Nat) (st r : KeyPos), key_pos_keys keys pos st = some r →
      ¬ DisallowedOut keys → st.def_out = GMT_MEX_IMPLICIT →
      ∀ (j : Nat) (t : CString), keys[j]? = some t → t[2]? = some 'O' →
        (∀ (i : Nat) (u : CString), i < j → keys[i]? = some u → u[2]? ≠ some 'O') →
        r.def_out = ((pos + j : Nat) : Int) := by
  induction keys with
  | nil =>
    intro pos st r _ _ _ j t hj
    simp at hj
  | cons s rest ih =>
    intro pos st r h hdis himp j t hj ht hmin
    unfold key_pos_keys at h
    split at h
    · exact absurd h (by simp)
    · rename_i st1 h1
      have hdef := (key_pos_key_def s pos st st1 h1).2
      rw [disallowedOut_cons] at hdis
      have c1 : ¬ ((s[2]? = some 'O' ∨ s[2]? = some 'o') ∧ cfirst s = '-') :=
        fun hc => hdis (Or.inl ⟨hc.2, hc.1⟩)
      rw [if_neg c1] at hdef
      cases j with
      | zero =>
        have hts : s = t := by simpa using hj
        subst hts
        rw [if_pos ⟨ht, himp⟩] at hdef
        have hkeep := key_pos_keys_out_keep rest (pos + 1) st1 r h (fun hc => hdis (Or.inr hc))
          (by rw [hdef]; unfold GMT_MEX_IMPLICIT; omega)
        rw [hkeep, hdef]
        simp
      | succ j =>
        have hs : s[2]? ≠ some 'O' := hmin 0 s (by omega) (by simp)
        have c2 : ¬ (s[2]? = some 'O' ∧ st.def_out = GMT_MEX_IMPLICIT) := fun hc => hs hc.1
        rw [if_neg c2] at hdef
        have := ih (pos + 1) st1 r h (fun hc => hdis (Or.inr hc)) (by rw [hdef, himp]) j t
          (by simpa using hj) ht
          (fun i u hi hu => hmin (i + 1) u (by omega) (by simpa using hu))
        rw [this]
        congr 1
        omega

/-- Second loop, direction out: without a disallowing descriptor and without a key of role
`O`, `GMT_MEX_IMPLICIT` is left as it is. -/
theorem key_pos_keys_out_implicit (keys : List CString) :
    ∀ (pos : Nat) (st r : KeyPos), key_pos_keys keys pos st = some r →
      ¬ DisallowedOut keys → st.def_out = GMT_MEX_IMPLICIT →
      (∀ t, t ∈ keys → t[2]? ≠ some 'O') → r.def_out = GMT_MEX_IMPLICIT := by
  induction keys with
  | nil =>
    intro pos st r h _ himp _
    simp only [key_pos_keys, Option.some.injEq] at h
    subst h
    exact himp
  | cons s rest ih =>
    intro pos st r h hdis himp hno
    unfold key_pos_keys at h
    split at h
    · exact absurd h (by simp)
    · rename_i st1 h1
      have hdef := (key_pos_key_def s pos st st1 h1).2
      rw [disallowedOut_cons] at hdis
      have c1 : ¬ ((s[2]? = some 'O' ∨ s[2]? = some 'o') ∧ cfirst s = '-') :=
        fun hc => hdis (Or.inl ⟨hc.2, hc.1⟩)
      have c2 : ¬ (s[2]? = some 'O' ∧ st.def_out = GMT_MEX_IMPLICIT) :=
        fun hc => hno s (List.mem_cons_self s rest) hc.1
      rw [if_neg c1, if_neg c2] at hdef
      exact ih (pos + 1) st1 r h (fun hc => hdis (Or.inr hc)) (by rw [hdef, himp])
        (fun t ht => hno t (List.mem_cons_of_mem s ht))

/-- Second loop, direction out: `GMT_MEX_EXPLICIT` is never assigned, it can only be kept. -/
theorem key_pos_keys_out_explicit (keys : List CString) :
    ∀ (pos : Nat) (st r : KeyPos), key_pos_keys keys pos st = some r →
      r.def_out = GMT_MEX_EXPLICIT → st.def_out = GMT_MEX_EXPLICIT := by
  induction keys with
  | nil =>
    intro pos st r h hr
    simp only [key_pos_keys, Option.some.injEq] at h
    subst h
    exact hr
  | cons s rest ih =>
    intro pos st r h hr
    unfold key_pos_keys at h
    split at h
    · exact absurd h (by simp)
    · rename_i st1 h1
      have hdef := (key_pos_key_def s pos st st1 h1).2
      have h1e := ih (pos + 1) st1 r h hr
      rw [h1e] at hdef
      split at hdef
      · exact absurd hdef (by decide)
      · split at hdef
        · unfold GMT_MEX_EXPLICIT at hdef
          omega
        · exact hdef.symm

/-- On a key table within bounds `gmtmex_get_key_pos` is its second loop started from the
values the first loop leaves. -/
theorem gmtmex_get_key_pos_eq (key : List CString) (head : List GMT_OPTION)
    (hk : KeysInBounds key) :
    gmtmex_get_key_pos key head =
      key_pos_keys key 0
        { def_in := if GivenExplicitly key head 'I' then GMT_MEX_EXPLICIT else GMT_MEX_IMPLICIT,
          def_out := if GivenExplicitly key head 'O' then GMT_MEX_EXPLICIT else GMT_MEX_IMPLICIT,
          PS := 0 } := by
  unfold gmtmex_get_key_pos
  rw [key_pos_options_spec key hk head]

/-- On a key table within bounds `gmtmex_get_key_pos` completes. -/
theorem gmtmex_get_key_pos_total (key : List CString) (head : List GMT_OPTION)
    (hk : KeysInBounds key) : ∃ r, gmtmex_get_key_pos key head = some r := by
  rw [gmtmex_get_key_pos_eq key head hk]
  exact key_pos_keys_total key hk 0 _

theorem exists_first_role (c : Char) (keys : List CString)
    (h : ∃ s ∈ keys, s[2]? = some c) :
    ∃ (j : Nat) (t : CString), keys[j]? = some t ∧ t[2]? = some c ∧
      ∀ (i : Nat) (u : CString), i < j → keys[i]? = some u → u[2]? ≠ some c := by
  induction keys with
  | nil =>
    obtain ⟨s, hs, _⟩ := h
    simp at hs
  | cons s rest ih =>
    by_cases hs : s[2]? = some c
    · exact ⟨0, s, by simp, hs, fun i u hi => by omega⟩
    · obtain ⟨t, ht, htc⟩ := h
      have hrest : ∃ s ∈ rest, s[2]? = some c := by
        rcases List.mem_cons.mp ht with h1 | h1
        · rw [h1] at htc
          exact absurd htc hs
        · exact ⟨t, h1, htc⟩
      obtain ⟨j, u, hj, hu, hmin⟩ := ih hrest
      refine ⟨j + 1, u, by simpa using hj, hu, ?_⟩
      intro i v hi hv
      cases i with
      | zero =>
        have : s = v := by simpa using hv
        rw [← this]
        exact hs
      | succ i => exact hmin i v (by omega) (by simpa using hv)

/-- C4. On every key table (within bounds) and option list `gmtmex_get_key_pos` completes,
and for each direction whose disallowing descriptor (flag `-` with role `I`/`i`, resp.
`O`/`o`) is absent from the key table, it leaves `GMT_MEX_EXPLICIT` in `def[dir]` if and only
if some node of the option list has a flag whose matching descriptor has the uppercase role
of that direction. -/
theorem gmtmex_get_key_pos_explicit_iff (key : List CString) (head : List GMT_OPTION)
    (hk : KeysInBounds key) :
    ∃ r, gmtmex_get_key_pos key head = some r ∧
      (¬ DisallowedIn key →
        (r.def_in = GMT_MEX_EXPLICIT ↔ GivenExplicitly key head 'I')) ∧
      (¬ DisallowedOut key →
        (r.def_out = GMT_MEX_EXPLICIT ↔ GivenExplicitly key head 'O')) := by
  obtain ⟨r, hr⟩ := gmtmex_get_key_pos_total key head hk
  refine ⟨r, hr, ?_, ?_⟩
  · intro hdis
    rw [gmtmex_get_key_pos_eq key head hk] at hr
    constructor
    · intro hexp
      have := key_pos_keys_in_explicit key 0 _ r hr hexp
      by_contra hng
      simp only [hng, if_false] at this
      exact absurd this (by decide)
    · intro hg
      have := key_pos_keys_in_keep key 0 _ r hr hdis (by simp only [hg, if_true]; decide)
      simpa [hg] using this
  · intro hdis
    rw [gmtmex_get_key_pos_eq key head hk] at hr
    constructor
    · intro hexp
      have := key_pos_keys_out_explicit key 0 _ r hr hexp
      by_contra hng
      simp only [hng, if_false] at this
      exact absurd this (by decide)
    · intro hg
      have := key_pos_keys_out_keep key 0 _ r hr hdis (by simp only [hg, if_true]; decide)
      simpa [hg] using this

/-- Witness for C4: with the key table `<GI,GGO` and the options `-Fg200k -G$` the output is
explicit and the input is not. -/
theorem gmtmex_get_key_pos_explicit_iff_witness :
    KeysInBounds ["<GI".toList, "GGO".toList] ∧
    gmtmex_get_key_pos ["<GI".toList, "GGO".toList] [node 'F' "g200k", node 'G' "$"] =
      some { def_in := 0, def_out := GMT_MEX_EXPLICIT, PS := 0 } ∧
    ∃ r, gmtmex_get_key_pos ["<GI".toList, "GGO".toList]
        [node 'F' "g200k", node 'G' "$"] = some r ∧
      (¬ DisallowedIn ["<GI".toList, "GGO".toList] →
        (r.def_in = GMT_MEX_EXPLICIT ↔
          GivenExplicitly ["<GI".toList, "GGO".toList] [node 'F' "g200k", node 'G' "$"] 'I')) ∧
      (¬ DisallowedOut ["<GI".toList, "GGO".toList] →
        (r.def_out = GMT_MEX_EXPLICIT ↔
          GivenExplicitly ["<GI".toList, "GGO".toList] [node 'F' "g200k", node 'G' "$"] 'O')) :=
  ⟨by decide, by decide,
   gmtmex_get_key_pos_explicit_iff ["<GI".toList, "GGO".toList]
     [node 'F' "g200k", node 'G' "$"] (by decide)⟩

/-- C5. On every key table (within bounds) and option list `gmtmex_get_key_pos` completes,
and for each direction: when the key table has no disallowing descriptor of that direction
but has a descriptor with its uppercase role, and no node of the option list has a flag
whose matching descriptor has that role, `def[dir]` is the index of the first descriptor
with that role in key-table order. -/
theorem gmtmex_get_key_pos_first_default (key : List CString) (head : List GMT_OPTION)
    (hk : KeysInBounds key) :
    ∃ r, gmtmex_get_key_pos key head = some r ∧
      (¬ DisallowedIn key → (∃ s ∈ key, s[2]? = some 'I') →
        ¬ GivenExplicitly key head 'I' →
        ∃ (j : Nat) (t : CString), r.def_in = (j : Int) ∧ key[j]? = some t ∧
          t[2]? = some 'I' ∧
          ∀ (i : Nat) (u : CString), i < j → key[i]? = some u → u[2]? ≠ some 'I') ∧
      (¬ DisallowedOut key → (∃ s ∈ key, s[2]? = some 'O') →
        ¬ GivenExplicitly key head 'O' →
        ∃ (j : Nat) (t : CString), r.def_out = (j : Int) ∧ key[j]? = some t ∧
          t[2]? = some 'O' ∧
          ∀ (i : Nat) (u : CString), i < j → key[i]? = some u → u[2]? ≠ some 'O') := by
  obtain ⟨r, hr⟩ := gmtmex_get_key_pos_total key head hk
  refine ⟨r, hr, ?_, ?_⟩
  · intro hdis hex hng
    rw [gmtmex_get_key_pos_eq key head hk] at hr
    obtain ⟨j, t, hj, ht, hmin⟩ := exists_first_role 'I' key hex
    have := key_pos_keys_in_first key 0 _ r hr hdis (by simp only [hng, if_false]) j t hj ht hmin
    exact ⟨j, t, by simpa using this, hj, ht, hmin⟩
  · intro hdis hex hng
    rw [gmtmex_get_key_pos_eq key head hk] at hr
    obtain ⟨j, t, hj, ht, hmin⟩ := exists_first_role 'O' key hex
    have := key_pos_keys_out_first key 0 _ r hr hdis (by simp only [hng, if_false]) j t hj ht hmin
    exact ⟨j, t, by simpa using this, hj, ht, hmin⟩

/-- Witness for C5: in the key table `AGi,BGI,CGI,GGO` with the option `-Fg200k` the input
default is descriptor 1, the first of the two with role `I`, and the output default is 3. -/
theorem gmtmex_get_key_pos_first_default_witness :
    KeysInBounds ["AGi".toList, "BGI".toList, "CGI".toList, "GGO".toList] ∧
    gmtmex_get_key_pos ["AGi".toList, "BGI".toList, "CGI".toList, "GGO".toList]
      [node 'F' "g200k"] = some { def_in := 1, def_out := 3, PS := 0 } ∧
    ∃ r, gmtmex_get_key_pos ["AGi".toList, "BGI".toList, "CGI".toList, "GGO".toList]
        [node 'F' "g200k"] = some r ∧
      (¬ DisallowedIn ["AGi".toList, "BGI".toList, "CGI".toList, "GGO".toList] →
        (∃ s ∈ ["AGi".toList, "BGI".toList, "CGI".toList, "GGO".toList], s[2]? = some 'I') →
        ¬ GivenExplicitly ["AGi".toList, "BGI".toList, "CGI".toList, "GGO".toList]
          [node 'F' "g200k"] 'I' →
        ∃ (j : Nat) (t : CString), r.def_in = (j : Int) ∧
          ["AGi".toList, "BGI".toList, "CGI".toList, "GGO".toList][j]? = some t ∧
          t[2]? = some 'I' ∧
          ∀ (i : Nat) (u : CString), i < j →
            ["AGi".toList, "BGI".toList, "CGI".toList, "GGO".toList][i]? = some u →
            u[2]? ≠ some 'I') ∧
      (¬ DisallowedOut ["AGi".toList, "BGI".toList, "CGI".toList, "GGO".toList] →
        (∃ s ∈ ["AGi".toList, "BGI".toList, "CGI".toList, "GGO".toList], s[2]? = some 'O') →
        ¬ GivenExplicitly ["AGi".toList, "BGI".toList, "CGI".toList, "GGO".toList]
          [node 'F' "g200k"] 'O' →
        ∃ (j : Nat) (t : CString), r.def_out = (j : Int) ∧
          ["AGi".toList, "BGI".toList, "CGI".toList, "GGO".toList][j]? = some t ∧
          t[2]? = some 'O' ∧
          ∀ (i : Nat) (u : CString), i < j →
            ["AGi".toList, "BGI".toList, "CGI".toList, "GGO".toList][i]? = some u →
            u[2]? ≠ some 'O') :=
  ⟨by decide, by decide,
   gmtmex_get_key_pos_first_default
     ["AGi".toList, "BGI".toList, "CGI".toList, "GGO".toList] [node 'F' "g200k"] (by decide)⟩

/-- C6. On every key table (within bounds) and option list `gmtmex_get_key_pos` completes,
and a descriptor with flag `-` and role `I` or `i` anywhere in the key table makes
`def[GMT_IN]` end as `GMT_MEX_NONE`; a descriptor with flag `-` and role `O` or `o` makes
`def[GMT_OUT]` end as `GMT_MEX_NONE`. -/
theorem gmtmex_get_key_pos_disallowed (key : List CString) (head : List GMT_OPTION)
    (hk : KeysInBounds key) :
    ∃ r, gmtmex_get_key_pos key head = some r ∧
      (DisallowedIn key → r.def_in = GMT_MEX_NONE) ∧
      (DisallowedOut key → r.def_out = GMT_MEX_NONE) := by
  obtain ⟨r, hr⟩ := gmtmex_get_key_pos_total key head hk
  refine ⟨r, hr, ?_, ?_⟩
  · intro hdis
    rw [gmtmex_get_key_pos_eq key head hk] at hr
    exact key_pos_keys_in_none key 0 _ r hr (Or.inl hdis)
  · intro hdis
    rw [gmtmex_get_key_pos_eq key head hk] at hr
    exact key_pos_keys_out_none key 0 _ r hr (Or.inl hdis)

/-- Witness for C6: in the key table `GGI,-Di,LDO` the descriptor `-Di` comes after the
default input `GGI`, which the option `-G$` gives explicitly, and `def[GMT_IN]` is
`GMT_MEX_NONE` all the same. -/
theorem gmtmex_get_key_pos_disallowed_witness :
    KeysInBounds ["GGI".toList, "-Di".toList, "LDO".toList] ∧
    DisallowedIn ["GGI".toList, "-Di".toList, "LDO".toList] ∧
    gmtmex_get_key_pos ["GGI".toList, "-Di".toList, "LDO".toList] [node 'G' "$"] =
      some { def_in := GMT_MEX_NONE, def_out := 2, PS := 0 } ∧
    ∃ r, gmtmex_get_key_pos ["GGI".toList, "-Di".toList, "LDO".toList] [node 'G' "$"] =
        some r ∧
      (DisallowedIn ["GGI".toList, "-Di".toList, "LDO".toList] → r.def_in = GMT_MEX_NONE) ∧
      (DisallowedOut ["GGI".toList, "-Di".toList, "LDO".toList] →
        r.def_out = GMT_MEX_NONE) :=
  ⟨by decide, by decide, by decide,
   gmtmex_get_key_pos_disallowed ["GGI".toList, "-Di".toList, "LDO".toList] [node 'G' "$"]
     (by decide)⟩

/-! ## Theorems: `make_char_array` -/

theorem strsep_comma_no_comma (t : CString) (h : ',' ∉ t) : strsep_comma t = (t, none) := by
  induction t with
  | nil => rfl
  | cons c t ih =>
    have hc : ¬ c = ',' := fun hc => h (by simp [hc])
    have ht : ',' ∉ t := fun ht => h (List.mem_cons_of_mem c ht)
    simp only [strsep_comma, hc, if_false, ih ht]

theorem strsep_comma_append (t rest : CString) (h : ',' ∉ t) :
    strsep_comma (t ++ ',' :: rest) = (t, some rest) := by
  induction t with
  | nil => simp [strsep_comma]
  | cons c t ih =>
    have hc : ¬ c = ',' := fun hc => h (by simp [hc])
    have ht : ',' ∉ t := fun ht => h (List.mem_cons_of_mem c ht)
    have ih2 := ih ht
    rw [List.cons_append]
    simp only [strsep_comma, hc, if_false]
    rw [ih2]

theorem strsep_loop_none (fuel : Nat) : strsep_loop fuel none = [] := by
  cases fuel <;> rfl

/-- The `strsep` loop run on comma-free tokens joined by commas stores exactly the tokens,
once it is given at least as many rounds as there are tokens. -/
theorem strsep_loop_join (ts : List CString) :
    ts ≠ [] → (∀ t, t ∈ ts → ',' ∉ t) → ∀ fuel, ts.length ≤ fuel →
      strsep_loop fuel (some (join_keys ts)) = ts := by
  induction ts with
  | nil =>
    intro hne
    exact absurd rfl hne
  | cons t rest ih =>
    intro _ hwf fuel hfuel
    have ht : ',' ∉ t := hwf t (List.mem_cons_self t rest)
    cases fuel with
    | zero => simp at hfuel
    | succ fuel =>
      cases rest with
      | nil =>
        simp only [join_keys, strsep_loop, strsep_comma_no_comma t ht, strsep_loop_none]
      | cons t2 ts =>
        have hrec := ih (by simp) (fun u hu => hwf u (List.mem_cons_of_mem t hu)) fuel
          (by simp only [List.length_cons] at hfuel ⊢; omega)
        simp only [join_keys, strsep_loop, strsep_comma_append t _ ht, hrec]

theorem count_comma_join (ts : List CString) :
    ts ≠ [] → (∀ t, t ∈ ts → ',' ∉ t) → (join_keys ts).count ',' + 1 = ts.length := by
  induction ts with
  | nil =>
    intro hne
    exact absurd rfl hne
  | cons t rest ih =>
    intro _ hwf
    have ht : ',' ∉ t := hwf t (List.mem_cons_self t rest)
    have hct : t.count ',' = 0 := List.count_eq_zero.mpr ht
    cases rest with
    | nil => simp [join_keys, hct]
    | cons t2 ts =>
      have hrec := ih (by simp) (fun u hu => hwf u (List.mem_cons_of_mem t hu))
      simp only [join_keys, List.count_append, List.count_cons_self, hct, List.length_cons]
        at hrec ⊢
      omega

theorem length_le_join (ts : List CString) : ts.length ≤ (join_keys ts).length + 1 := by
  induction ts with
  | nil => simp
  | cons t rest ih =>
    cases rest with
    | nil => simp
    | cons t2 ts =>
      simp only [join_keys, List.length_cons, List.length_append] at ih ⊢
      omega

/-- The function `make_char_array` on comma-free tokens joined by commas, the joined string
being non-empty: the tokens, in order, and their number. -/
theorem make_char_array_join (ts : List CString) (hne : join_keys ts ≠ [])
    (hwf : ∀ t, t ∈ ts → ',' ∉ t) :
    make_char_array (some (join_keys ts)) = some (ts, ts.length) := by
  have hts : ts ≠ [] := by
    intro h
    subst h
    exact hne rfl
  have hlen : ¬ (join_keys ts).length = 0 := by
    intro h
    exact hne (List.length_eq_zero.mp h)
  simp only [make_char_array, hlen, if_false]
  rw [strsep_loop_join ts hts hwf _ (length_le_join ts), count_comma_join ts hts hwf]

/-- C10. For every key string made of one or more tokens of exactly three characters, none
of them a comma, joined by commas, `make_char_array` returns exactly those tokens, in input
order, with `*n_items` equal to their number; joining the result with commas gives the key
string back. -/
theorem make_char_array_round_trip (ts : List CString) (hne : ts ≠ [])
    (hwf : ∀ t, t ∈ ts → t.length = 3 ∧ ',' ∉ t) :
    ∃ r, make_char_array (some (join_keys ts)) = some r ∧
      r.1 = ts ∧ r.2 = ts.length ∧ join_keys r.1 = join_keys ts := by
  have hj : join_keys ts ≠ [] := by
    cases ts with
    | nil => exact absurd rfl hne
    | cons t rest =>
      have h3 := (hwf t (List.mem_cons_self t rest)).1
      intro h
      have hl : (join_keys (t :: rest)).length = 0 := by rw [h]; rfl
      cases rest with
      | nil =>
        simp only [join_keys] at hl
        omega
      | cons t2 ts =>
        simp only [join_keys, List.length_append] at hl
        omega
  exact ⟨(ts, ts.length), make_char_array_join ts hj (fun t ht => (hwf t ht).2), rfl, rfl, rfl⟩

/-- Witness for C10: the key string `GGI,LDo`. -/
theorem make_char_array_round_trip_witness :
    ["GGI".toList, "LDo".toList] ≠ [] ∧
    (∀ t, t ∈ ["GGI".toList, "LDo".toList] → t.length = 3 ∧ ',' ∉ t) ∧
    join_keys ["GGI".toList, "LDo".toList] = "GGI,LDo".toList ∧
    make_char_array (some "GGI,LDo".toList) = some (["GGI".toList, "LDo".toList], 2) ∧
    ∃ r, make_char_array (some (join_keys ["GGI".toList, "LDo".toList])) = some r ∧
      r.1 = ["GGI".toList, "LDo".toList] ∧ r.2 = ["GGI".toList, "LDo".toList].length ∧
      join_keys r.1 = join_keys ["GGI".toList, "LDo".toList] :=
  ⟨by decide, by decide, by decide, by decide,
   make_char_array_round_trip ["GGI".toList, "LDo".toList] (by decide) (by decide)⟩

/-! ## Theorems: the binding pass of `GMTMEX_parser` -/

/-- Updating by a flag leaves a node with another flag as it is. -/
theorem update_option_getElem?_ne (o : Char) (a : CString) :
    ∀ (l : List GMT_OPTION) (i : Nat) (n : GMT_OPTION), l[i]? = some n → n.option ≠ o →
      (GMT_Update_Option o a l)[i]? = some n := by
  intro l
  induction l with
  | nil =>
    intro i n h
    simp at h
  | cons x rest ih =>
    intro i n h hne
    unfold GMT_Update_Option
    by_cases hx : x.option = o ∧ gmtmex_get_arg_pos x.arg ≠ -1
    · rw [if_pos hx]
      cases i with
      | zero =>
        have : x = n := by simpa using h
        subst this
        exact absurd hx.1 hne
      | succ i => simpa using h
    · rw [if_neg hx]
      cases i with
      | zero => simpa using h
      | succ i =>
        have h2 : rest[i]? = some n := by simpa using h
        simpa using ih i n h2 hne

/-- Updating leaves a node whose argument holds no unmuted `$` as it is. -/
theorem update_option_getElem?_skip (o : Char) (a : CString) :
    ∀ (l : List GMT_OPTION) (i : Nat) (n : GMT_OPTION), l[i]? = some n →
      gmtmex_get_arg_pos n.arg = -1 → (GMT_Update_Option o a l)[i]? = some n := by
  intro l
  induction l with
  | nil =>
    intro i n h
    simp at h
  | cons x rest ih =>
    intro i n h hpos
    unfold GMT_Update_Option
    by_cases hx : x.option = o ∧ gmtmex_get_arg_pos x.arg ≠ -1
    · rw [if_pos hx]
      cases i with
      | zero =>
        have : x = n := by simpa using h
        subst this
        exact absurd hpos hx.2
      | succ i => simpa using h
    · rw [if_neg hx]
      cases i with
      | zero => simpa using h
      | succ i =>
        have h2 : rest[i]? = some n := by simpa using h
        simpa using ih i n h2 hpos

/-- Updating by the flag of a node that holds an unmuted `$`, when no earlier node with this
flag holds one: the identifier is substituted for the marker of this node, and nothing else
in the list changes. -/
theorem update_option_eq_set (o : Char) (a : CString) :
    ∀ (l : List GMT_OPTION) (i : Nat) (n : GMT_OPTION), l[i]? = some n → n.option = o →
      gmtmex_get_arg_pos n.arg ≠ -1 →
      (∀ (k : Nat) (m : GMT_OPTION), k < i → l[k]? = some m → m.option = o →
        gmtmex_get_arg_pos m.arg = -1) →
      GMT_Update_Option o a l =
        l.set i { option := o, arg := substitute_marker n.arg a } := by
  intro l
  induction l with
  | nil =>
    intro i n h
    simp at h
  | cons x rest ih =>
    intro i n h hno hpos hmin
    unfold GMT_Update_Option
    cases i with
    | zero =>
      have : x = n := by simpa using h
      subst this
      rw [if_pos ⟨hno, hpos⟩]
      simp [hno]
    | succ i =>
      have hx : ¬ (x.option = o ∧ gmtmex_get_arg_pos x.arg ≠ -1) := by
        intro hc
        exact hc.2 (hmin 0 x (by omega) (by simp) hc.1)
      rw [if_neg hx]
      have h2 : rest[i]? = some n := by simpa using h
      rw [ih i n h2 hno hpos
        (fun k m hk hm => hmin (k + 1) m (by omega) (by simpa using hm))]
      simp

/-- Updating by a flag keeps every node, or substitutes the identifier for the marker of a
node that carries the flag and holds an unmuted `$`. -/
theorem update_option_getElem?_cases (o : Char) (a : CString) :
    ∀ (l : List GMT_OPTION) (i : Nat) (n : GMT_OPTION), l[i]? = some n →
      (GMT_Update_Option o a l)[i]? = some n ∨
      (n.option = o ∧ gmtmex_get_arg_pos n.arg ≠ -1 ∧
        (GMT_Update_Option o a l)[i]? =
          some { option := n.option, arg := substitute_marker n.arg a }) := by
  intro l
  induction l with
  | nil =>
    intro i n h
    simp at h
  | cons x rest ih =>
    intro i n h
    unfold GMT_Update_Option
    by_cases hx : x.option = o ∧ gmtmex_get_arg_pos x.arg ≠ -1
    · rw [if_pos hx]
      cases i with
      | zero =>
        have : x = n := by simpa using h
        subst this
        right
        exact ⟨hx.1, hx.2, by simp⟩
      | succ i =>
        left
        simpa using h
    · rw [if_neg hx]
      cases i with
      | zero =>
        left
        simpa using h
      | succ i =>
        have h2 : rest[i]? = some n := by simpa using h
        simpa using ih i n h2

/-- One round of the binding loop: a node without an unmuted `$` leaves the list and the
counter; a node with one takes the identifier `unique_ID` and updates the list by the
node's flag with the encoded identifier. -/
theorem parser_bind_node_head (encode : Int → Int × CString) (opt : GMT_OPTION)
    (st st1 : ParserState) (h : parser_bind_node encode opt st = some st1) :
    (gmtmex_get_arg_pos opt.arg = -1 ∧ st1.head = st.head ∧ st1.unique_ID = st.unique_ID) ∨
    (gmtmex_get_arg_pos opt.arg ≠ -1 ∧
      st1.head = GMT_Update_Option opt.option (encode (to_int st.unique_ID)).2 st.head ∧
      st1.unique_ID = (st.unique_ID + 1) % 2 ^ 32) := by
  unfold parser_bind_node at h
  by_cases hpos : gmtmex_get_arg_pos opt.arg = -1
  · left
    simp only [hpos, if_true, Option.some.injEq] at h
    subst h
    refine ⟨hpos, ?_, ?_⟩
    · split <;> rfl
    · split <;> rfl
  · right
    simp only [hpos, if_false] at h
    split at h
    · exact absurd h (by simp)
    · simp only [Option.some.injEq] at h
      subst h
      refine ⟨hpos, ?_, ?_⟩
      · simp only [advance_lr_pos_head]
        split <;> rfl
      · simp only [advance_lr_pos_unique_ID]
        split <;> rfl

theorem flags_eq_getElem? (l1 l2 : List GMT_OPTION) (h : flags l1 = flags l2) (k : Nat)
    (n : GMT_OPTION) (hn : l1[k]? = some n) :
    ∃ m, l2[k]? = some m ∧ m.option = n.option := by
  have h1 : (flags l1)[k]? = some n.option := flags_getElem? l1 k n hn
  rw [h] at h1
  simp only [flags, List.getElem?_map] at h1
  cases h2 : l2[k]? with
  | none =>
    rw [h2] at h1
    exact absurd h1 (by simp)
  | some m =>
    rw [h2] at h1
    exact ⟨m, rfl, by simpa using h1⟩

theorem flags_eq_length (l1 l2 : List GMT_OPTION) (h : flags l1 = flags l2) :
    l1.length = l2.length := by
  have := congrArg List.length h
  simpa [flags] using this

theorem append_in_place_extends (new_opt : GMT_OPTION) (head : List GMT_OPTION) :
    ∃ extra, append_in_place new_opt head = head ++ extra := by
  cases head with
  | nil => exact ⟨[], rfl⟩
  | cons o rest => exact ⟨[new_opt], rfl⟩

/-- Default synthesis, when it completes, only extends the option list at its end. -/
theorem parser_add_defaults_extends (encode : Int → Int × CString) (kp : KeyPos)
    (st st2 : ParserState) (h : parser_add_defaults encode kp st = some st2) :
    ∃ extra, st2.head = st.head ++ extra := by
  unfold parser_add_defaults at h
  split at h
  · exact absurd h (by simp)
  · rename_i st1 h1
    have e1 : ∃ extra, st1.head = st.head ++ extra := by
      rcases parser_add_default_spec encode _ _ st st1 h1 with ⟨_, heq⟩ | ⟨_, s, _, hh, _⟩
      · exact ⟨[], by rw [heq]; simp⟩
      · rw [hh]
        exact append_in_place_extends _ _
    have e2 : ∃ extra, st2.head = st1.head ++ extra := by
      rcases parser_add_default_spec encode _ _ st1 st2 h with ⟨_, heq⟩ | ⟨_, s, _, hh, _⟩
      · exact ⟨[], by rw [heq]; simp⟩
      · rw [hh]
        exact append_in_place_extends _ _
    obtain ⟨x1, hx1⟩ := e1
    obtain ⟨x2, hx2⟩ := e2
    exact ⟨x1 ++ x2, by rw [hx2, hx1, List.append_assoc]⟩

/-- A completed run of `GMTMEX_parser` is made of a completed key-table pass, a completed
default synthesis and a completed binding loop. -/
theorem GMTMEX_parser_run_inv (encode : Int → Int × CString) (keys : Option CString)
    (head : List GMT_OPTION) (unique_ID : Nat) (r : ParserResult)
    (h : GMTMEX_parser_run encode keys head unique_ID = some r) :
    ∃ kp st,
      gmtmex_get_key_pos (parser_keys keys) head = some kp ∧
      parser_add_defaults encode kp
        (parser_start (parser_keys keys) head unique_ID kp.PS) = some st ∧
      parser_bind_loop encode st.head.length 0 st = some r.state ∧
      r.error = parser_error r.state.PS := by
  unfold GMTMEX_parser_run at h
  split at h
  · exact absurd h (by simp)
  · rename_i kp hkp
    split at h
    · exact absurd h (by simp)
    · rename_i st hst
      split at h
      · exact absurd h (by simp)
      · rename_i st1 hloop
        simp only [Option.some.injEq] at h
        subst h
        exact ⟨kp, st, hkp, hst, hloop, rfl⟩

/-- The key-table pass on an empty key table leaves both directions at
`GMT_MEX_IMPLICIT`. -/
theorem gmtmex_get_key_pos_nil (head : List GMT_OPTION) :
    gmtmex_get_key_pos [] head =
      some { def_in := GMT_MEX_IMPLICIT, def_out := GMT_MEX_IMPLICIT, PS := 0 } := by
  have hk : KeysInBounds [] := by
    intro s hs
    simp at hs
  have hg : ∀ r : Char, ¬ GivenExplicitly [] head r := by
    intro r hgiven
    obtain ⟨opt, _, hrole⟩ := hgiven
    simp [matched_role, matching] at hrole
  rw [gmtmex_get_key_pos_eq [] head hk]
  simp [hg, key_pos_keys]

/-- A direction left at `GMT_MEX_IMPLICIT` makes the default synthesis read `key[-1]`. -/
theorem parser_add_default_implicit (encode : Int → Int × CString) (dir : GMT_io_enum)
    (st : ParserState) : parser_add_default encode dir GMT_MEX_IMPLICIT st = none := by
  unfold parser_add_default
  simp [GMT_MEX_IMPLICIT, GMT_MEX_NONE, GMT_MEX_EXPLICIT]

/-- C15 (defect). When `make_char_array` returns `NULL` (absent or empty key string), the
key-table pass leaves both directions at `GMT_MEX_IMPLICIT` and `GMTMEX_parser` goes on to
index the key table at -1: for every option list the run does not complete and returns no
outcome at all. -/
theorem GMTMEX_parser_null_keys (encode : Int → Int × CString) (head : List GMT_OPTION)
    (unique_ID : Nat) :
    make_char_array none = none ∧ make_char_array (some []) = none ∧
    gmtmex_get_key_pos (parser_keys none) head =
      some { def_in := GMT_MEX_IMPLICIT, def_out := GMT_MEX_IMPLICIT, PS := 0 } ∧
    GMTMEX_parser_run encode none head unique_ID = none ∧
    GMTMEX_parser_run encode (some []) head unique_ID = none := by
  have hk1 : parser_keys none = [] := rfl
  have hk2 : parser_keys (some []) = [] := rfl
  refine ⟨rfl, rfl, ?_, ?_, ?_⟩
  · rw [hk1]
    exact gmtmex_get_key_pos_nil head
  · unfold GMTMEX_parser_run
    rw [hk1, gmtmex_get_key_pos_nil head]
    simp [parser_add_defaults, parser_add_default_implicit]
  · unfold GMTMEX_parser_run
    rw [hk2, gmtmex_get_key_pos_nil head]
    simp [parser_add_defaults, parser_add_default_implicit]

/-- A flag that matches no descriptor makes `gmtmex_get_arg_dir` read `key[-1]`. -/
theorem gmtmex_get_arg_dir_of_not_matching (option : Char) (key : List CString)
    (dt : Option GMT_family) (g : Option GMT_geometry) (hm : matching key option = none) :
    gmtmex_get_arg_dir option key dt g = none := by
  unfold gmtmex_get_arg_dir
  simp [gmtmex_find_option_of_not_matching option key hm]

/-- C16 (defect). In the key table `GGI,LDo` no descriptor has the flag `Z`:
`gmtmex_find_option` returns -1 and `gmtmex_get_arg_dir` does not stop there but reads the
descriptor `key[-1]`, out of bounds, so that the call has no defined result. -/
theorem gmtmex_get_arg_dir_unknown_option :
    matching ["GGI".toList, "LDo".toList] 'Z' = none ∧
    gmtmex_find_option 'Z' ["GGI".toList, "LDo".toList] = -1 ∧
    gmtmex_get_arg_dir 'Z' ["GGI".toList, "LDo".toList] none none = none := by
  refine ⟨by decide, by decide, by decide⟩

theorem parser_add_default_status (encode : Int → Int × CString) (dir : GMT_io_enum)
    (d : Int) (st : ParserState) :
    parser_add_default (fun ID => (0, (encode ID).2)) dir d st =
      parser_add_default encode dir d st := by
  unfold parser_add_default
  rfl

theorem parser_bind_node_status (encode : Int → Int × CString) (opt : GMT_OPTION)
    (st : ParserState) :
    parser_bind_node (fun ID => (0, (encode ID).2)) opt st = parser_bind_node encode opt st := by
  unfold parser_bind_node
  rfl

theorem parser_bind_loop_status (encode : Int → Int × CString) (fuel : Nat) :
    ∀ (i : Nat) (st : ParserState),
      parser_bind_loop (fun ID => (0, (encode ID).2)) fuel i st =
        parser_bind_loop encode fuel i st := by
  induction fuel with
  | zero =>
    intro i st
    rfl
  | succ fuel ih =>
    intro i st
    simp only [parser_bind_loop, parser_bind_node_status, ih]

/-- The status returned by `GMT_Encode_ID` has no influence on what `GMTMEX_parser` does
and returns: a failing encoder gives the run of the encoder that writes the same text and
succeeds. -/
theorem GMTMEX_parser_ignores_encode_status (encode : Int → Int × CString)
    (keys : Option CString) (head : List GMT_OPTION) (unique_ID : Nat) :
    GMTMEX_parser_run (fun ID => (0, (encode ID).2)) keys head unique_ID =
      GMTMEX_parser_run encode keys head unique_ID := by
  simp only [GMTMEX_parser_run, parser_add_defaults, parser_add_default_status,
    parser_bind_loop_status]

/-- C17 (defect). With an encoder that fails on every call, the key table `<GI,GGO` and the
options `-Fg200k -G$`, `GMTMEX_parser` does not abort: it goes on to bind the `G` node and
to synthesize the input default, issues both identifiers, and returns the outcome 0. -/
theorem GMTMEX_parser_encode_failure_not_reported :
    (failing_encode 0).1 ≠ 0 ∧ (failing_encode 1).1 ≠ 0 ∧
    GMTMEX_parser_run failing_encode (some "<GI,GGO".toList)
        [node 'F' "g200k", node 'G' "$"] 0 =
      some { error := 0,
             state := { key := ["<Gi".toList, "GGo".toList],
                        head := [node 'F' "g200k", node 'G' "", node '<' ""],
                        unique_ID := 2, lr_pos_in := 1, lr_pos_out := 1,
                        data_type := some GMT_family.GMT_IS_GRID,
                        geometry := some GMT_geometry.GMT_IS_SURFACE, PS := 0 } } := by
  refine ⟨by decide, by decide, by decide⟩

/-- C20 (defect). Scenario 3: with the key table `-DI` and the option `-Jx` the key-table
pass gives `GMT_MEX_NONE` for input, but leaves the output direction at
`GMT_MEX_IMPLICIT` (-1), and the default synthesis then reads `key[-1]`: the run does not
complete and returns no outcome. -/
theorem GMTMEX_parser_scenario_3 :
    gmtmex_get_key_pos (parser_keys (some "-DI".toList)) [node 'J' "x"] =
      some { def_in := GMT_MEX_NONE, def_out := GMT_MEX_IMPLICIT, PS := 0 } ∧
    parser_add_default sample_encode GMT_io_enum.GMT_IN GMT_MEX_NONE
        (parser_start ["-DI".toList] [node 'J' "x"] 0 0) =
      some (parser_start ["-DI".toList] [node 'J' "x"] 0 0) ∧
    parser_add_default sample_encode GMT_io_enum.GMT_OUT GMT_MEX_IMPLICIT
        (parser_start ["-DI".toList] [node 'J' "x"] 0 0) = none ∧
    GMTMEX_parser_run sample_encode (some "-DI".toList) [node 'J' "x"] 0 = none := by
  refine ⟨by decide, by decide, by decide, by decide⟩

/-! ## Theorems: explicit defaults and malformed key strings -/

theorem givenExplicitly_of_node (key : List CString) (head : List GMT_OPTION) (s : CString)
    (r : Char) (hm : matching key (cfirst s) = some s) (hr : s[2]? = some r)
    (hg : ∃ n ∈ head, n.option = cfirst s) : GivenExplicitly key head r := by
  obtain ⟨n, hn, hno⟩ := hg
  refine ⟨n, hn, ?_⟩
  simp [matched_role, hno, hm, hr]

theorem parser_add_defaults_explicit (encode : Int → Int × CString) (kp : KeyPos)
    (st : ParserState) (hin : kp.def_in = GMT_MEX_EXPLICIT)
    (hout : kp.def_out = GMT_MEX_EXPLICIT) : parser_add_defaults encode kp st = some st := by
  simp [parser_add_defaults, parser_add_default, hin, hout, GMT_MEX_EXPLICIT, GMT_MEX_NONE]

/-- Counterexample to C13: the key table `GGI,LDO,-Xo` has exactly one default input and one
default output descriptor, with the flags `G` and `L`, and the option list holds nodes
with both flags; the descriptor `-Xo` all the same makes the output direction end as
`GMT_MEX_NONE`, not `GMT_MEX_EXPLICIT`. -/
theorem gmtmex_get_key_pos_explicit_overridden :
    gmtmex_get_key_pos ["GGI".toList, "LDO".toList, "-Xo".toList]
        [node 'G' "in.nc", node 'L' "out.txt"] =
      some { def_in := GMT_MEX_EXPLICIT, def_out := GMT_MEX_NONE, PS := 1 } ∧
    GMT_MEX_NONE ≠ GMT_MEX_EXPLICIT := by
  refine ⟨by decide, by decide⟩

/-- C13 (as amended). For every key table (within bounds) that has no disallowing descriptor
of either direction and has a default input descriptor `sI` and a default output descriptor
`sO`, each the first descriptor carrying its flag, and every option list with nodes of both
flags: `gmtmex_get_key_pos`, a function of the key table and the option list that changes
neither, gives `GMT_MEX_EXPLICIT` for both directions; the default synthesis then leaves the
state as it is, and every completed run of `GMTMEX_parser` ends with the flags of the
original list, no node appended. -/
theorem GMTMEX_parser_explicit_defaults (encode : Int → Int × CString) (key : List CString)
    (head : List GMT_OPTION) (sI sO : CString)
    (hk : KeysInBounds key) (hnI : ¬ DisallowedIn key) (hnO : ¬ DisallowedOut key)
    (hI : matching key (cfirst sI) = some sI) (hIr : sI[2]? = some 'I')
    (hO : matching key (cfirst sO) = some sO) (hOr : sO[2]? = some 'O')
    (hgI : ∃ n ∈ head, n.option = cfirst sI) (hgO : ∃ n ∈ head, n.option = cfirst sO) :
    ∃ kp, gmtmex_get_key_pos key head = some kp ∧
      kp.def_in = GMT_MEX_EXPLICIT ∧ kp.def_out = GMT_MEX_EXPLICIT ∧
      (∀ st, parser_add_defaults encode kp st = some st) ∧
      (∀ (keys : Option CString) (unique_ID : Nat) (r : ParserResult),
        parser_keys keys = key → GMTMEX_parser_run encode keys head unique_ID = some r →
        flags r.state.head = flags head ∧ r.state.head.length = head.length) := by
  obtain ⟨kp, hkp⟩ := gmtmex_get_key_pos_total key head hk
  have hkp2 := hkp
  rw [gmtmex_get_key_pos_eq key head hk] at hkp2
  have gI := givenExplicitly_of_node key head sI 'I' hI hIr hgI
  have gO := givenExplicitly_of_node key head sO 'O' hO hOr hgO
  have hin : kp.def_in = GMT_MEX_EXPLICIT := by
    have := key_pos_keys_in_keep key 0 _ kp hkp2 hnI (by simp only [gI, if_true]; decide)
    simpa [gI] using this
  have hout : kp.def_out = GMT_MEX_EXPLICIT := by
    have := key_pos_keys_out_keep key 0 _ kp hkp2 hnO (by simp only [gO, if_true]; decide)
    simpa [gO] using this
  refine ⟨kp, hkp, hin, hout, fun st => parser_add_defaults_explicit encode kp st hin hout, ?_⟩
  intro keys unique_ID r hkeys hrun
  obtain ⟨kp1, st, hkp1, hst, hloop, _⟩ :=
    GMTMEX_parser_run_inv encode keys head unique_ID r hrun
  rw [hkeys, hkp] at hkp1
  have hkk : kp = kp1 := by simpa using hkp1
  subst hkk
  rw [parser_add_defaults_explicit encode kp _ hin hout] at hst
  have hst2 : parser_start (parser_keys keys) head unique_ID kp.PS = st := by simpa using hst
  subst hst2
  have hfl := (parser_bind_loop_flags_PS encode _ 0 _ r.state (by omega) hloop).1
  have hfl2 : flags r.state.head = flags head := hfl
  exact ⟨hfl2, flags_eq_length _ _ hfl2⟩

/-- Witness for C13 (as amended): the key table `GGI,LDO` with the options
`-Gin.nc -Lout.txt`. -/
theorem GMTMEX_parser_explicit_defaults_witness :
    KeysInBounds ["GGI".toList, "LDO".toList] ∧
    ¬ DisallowedIn ["GGI".toList, "LDO".toList] ∧
    ¬ DisallowedOut ["GGI".toList, "LDO".toList] ∧
    matching ["GGI".toList, "LDO".toList] (cfirst "GGI".toList) = some "GGI".toList ∧
    matching ["GGI".toList, "LDO".toList] (cfirst "LDO".toList) = some "LDO".toList ∧
    gmtmex_get_key_pos ["GGI".toList, "LDO".toList] [node 'G' "in.nc", node 'L' "out.txt"] =
      some { def_in := GMT_MEX_EXPLICIT, def_out := GMT_MEX_EXPLICIT, PS := 0 } ∧
    (GMTMEX_parser_run sample_encode (some "GGI,LDO".toList)
        [node 'G' "in.nc", node 'L' "out.txt"] 0).map (fun r => r.state.head) =
      some [node 'G' "in.nc", node 'L' "out.txt"] ∧
    ∃ kp, gmtmex_get_key_pos ["GGI".toList, "LDO".toList]
        [node 'G' "in.nc", node 'L' "out.txt"] = some kp ∧
      kp.def_in = GMT_MEX_EXPLICIT ∧ kp.def_out = GMT_MEX_EXPLICIT ∧
      (∀ st, parser_add_defaults sample_encode kp st = some st) ∧
      (∀ (keys : Option CString) (unique_ID : Nat) (r : ParserResult),
        parser_keys keys = ["GGI".toList, "LDO".toList] →
        GMTMEX_parser_run sample_encode keys [node 'G' "in.nc", node 'L' "out.txt"]
          unique_ID = some r →
        flags r.state.head = flags [node 'G' "in.nc", node 'L' "out.txt"] ∧
        r.state.head.length = [node 'G' "in.nc", node 'L' "out.txt"].length) :=
  ⟨by decide, by decide, by decide, by decide, by decide, by decide, by decide,
   GMTMEX_parser_explicit_defaults sample_encode ["GGI".toList, "LDO".toList]
     [node 'G' "in.nc", node 'L' "out.txt"] "GGI".toList "LDO".toList
     (by decide) (by decide) (by decide) (by decide) (by decide) (by decide) (by decide)
     (by decide) (by decide)⟩

/-- Every string is the comma-join of comma-free segments. -/
theorem exists_segments (str : CString) :
    ∃ ts : List CString, ts ≠ [] ∧ (∀ t, t ∈ ts → ',' ∉ t) ∧ join_keys ts = str := by
  induction str with
  | nil =>
    refine ⟨[[]], by simp, ?_, rfl⟩
    intro t ht
    have : t = [] := by simpa using ht
    rw [this]
    simp
  | cons c rest ih =>
    obtain ⟨ts, hne, hwf, hjoin⟩ := ih
    obtain ⟨t, ts1, hts⟩ := List.exists_cons_of_ne_nil hne
    subst hts
    by_cases hc : c = ','
    · refine ⟨[] :: t :: ts1, by simp, ?_, ?_⟩
      · intro u hu
        rcases List.mem_cons.mp hu with h1 | h1
        · rw [h1]
          simp
        · exact hwf u h1
      · simp only [join_keys, List.nil_append, hjoin, hc]
    · refine ⟨(c :: t) :: ts1, by simp, ?_, ?_⟩
      · intro u hu
        rcases List.mem_cons.mp hu with h1 | h1
        · rw [h1]
          intro hmem
          rcases List.mem_cons.mp hmem with h2 | h2
          · exact hc h2.symm
          · exact hwf t (List.mem_cons_self t ts1) h2
        · exact hwf u (List.mem_cons_of_mem t h1)
      · cases ts1 with
        | nil =>
          simp only [join_keys] at hjoin ⊢
          rw [hjoin]
        | cons t2 ts2 =>
          simp only [join_keys, List.cons_append] at hjoin ⊢
          rw [hjoin]

/-- Counterexample to C14: the key strings `GG`, `GGIX` and `GGI,,LDo` each have a segment
whose length is not 3, and `make_char_array` returns their segments all the same. -/
theorem make_char_array_accepts_malformed :
    make_char_array (some "GG".toList) = some (["GG".toList], 1) ∧
    make_char_array (some "GGIX".toList) = some (["GGIX".toList], 1) ∧
    make_char_array (some "GGI,,LDo".toList) =
      some (["GGI".toList, [], "LDo".toList], 3) := by
  refine ⟨by decide, by decide, by decide⟩

/-- C14 (as amended). The function `make_char_array` checks no segment length: for every
non-empty key string it returns the comma-separated segments as they are, in order, and
their number; it returns `NULL` only for an absent or an empty key string. -/
theorem make_char_array_any_segments (str : CString) (hne : str ≠ []) :
    (∃ ts : List CString, make_char_array (some str) = some (ts, ts.length) ∧
      ts ≠ [] ∧ (∀ t, t ∈ ts → ',' ∉ t) ∧ join_keys ts = str) ∧
    make_char_array none = none ∧ make_char_array (some []) = none := by
  obtain ⟨ts, htne, hwf, hjoin⟩ := exists_segments str
  have hj : join_keys ts ≠ [] := by
    rw [hjoin]
    exact hne
  have := make_char_array_join ts hj hwf
  rw [hjoin] at this
  exact ⟨⟨ts, this, htne, hwf, hjoin⟩, rfl, rfl⟩

/-- Witness for C14 (as amended): the key string `GGI,,LDo`. -/
theorem make_char_array_any_segments_witness :
    "GGI,,LDo".toList ≠ [] ∧
    (∃ ts : List CString, make_char_array (some "GGI,,LDo".toList) = some (ts, ts.length) ∧
      ts ≠ [] ∧ (∀ t, t ∈ ts → ',' ∉ t) ∧ join_keys ts = "GGI,,LDo".toList) ∧
    make_char_array none = none ∧ make_char_array (some []) = none :=
  ⟨by decide, make_char_array_any_segments "GGI,,LDo".toList (by decide)⟩

/-! ## Theorems: the remaining properties of `gmtmex_find_option` and `gmtmex_get_key_pos` -/

/-- C28. For every key table and character `c`, `gmtmex_find_option` returns the smallest
index whose key has `c` as its first character, and -1 if and only if no key has; a value
other than -1 is an index below `n_keys`. -/
theorem gmtmex_find_option_first (c : Char) (key : List CString) :
    (∀ k : Nat, gmtmex_find_option c key = (k : Int) ↔
      ((∃ s, key[k]? = some s ∧ cfirst s = c) ∧
        ∀ (i : Nat) (t : CString), i < k → key[i]? = some t → cfirst t ≠ c)) ∧
    (gmtmex_find_option c key = -1 ↔ ∀ s, s ∈ key → cfirst s ≠ c) ∧
    (gmtmex_find_option c key = -1 ∨
      ∃ k : Nat, gmtmex_find_option c key = (k : Int) ∧ k < key.length) := by
  unfold gmtmex_find_option
  rcases find_option_loop_spec c key 0 with ⟨hres, _, hall⟩ | ⟨j, t, hres, hget, _, ht, hmin⟩
  · refine ⟨?_, ?_, Or.inl hres⟩
    · intro k
      rw [hres]
      constructor
      · intro h
        omega
      · intro h
        obtain ⟨⟨s, hs, hsc⟩, _⟩ := h
        exact absurd hsc (hall s (List.getElem?_mem hs))
    · rw [hres]
      simp only [true_iff]
      exact hall
  · have hres2 : find_option_loop c key 0 = (j : Int) := by simpa using hres
    refine ⟨?_, ?_, Or.inr ⟨j, hres2, (List.getElem?_eq_some.mp hget).1⟩⟩
    · intro k
      rw [hres2]
      constructor
      · intro h
        have hjk : j = k := by exact_mod_cast h
        subst hjk
        exact ⟨⟨t, hget, ht⟩, hmin⟩
      · intro h
        obtain ⟨⟨s, hs, hsc⟩, hmink⟩ := h
        have hjk : j = k := by
          rcases Nat.lt_trichotomy j k with hlt | heq | hgt
          · exact absurd ht (hmink j t hlt hget)
          · exact heq
          · exact absurd hsc (hmin k s hgt hs)
        rw [hjk]
    · rw [hres2]
      constructor
      · intro h
        omega
      · intro h
        exact absurd ht (h t (List.getElem?_mem hget))

/-- Second loop, direction in: a result that is not negative is either the value on entry
or, when that was `GMT_MEX_IMPLICIT`, the index of a key with role `I` whose flag is not
`-`. -/
theorem key_pos_keys_in_index (keys : List CString) :
    ∀ (pos : Nat) (st r : KeyPos), key_pos_keys keys pos st = some r → 0 ≤ r.def_in →
      r.def_in = st.def_in ∨
      (st.def_in = GMT_MEX_IMPLICIT ∧ ∃ (j : Nat) (s : CString),
        r.def_in = ((pos + j : Nat) : Int) ∧ keys[j]? = some s ∧ s[2]? = some 'I' ∧
        cfirst s ≠ '-') := by
  induction keys with
  | nil =>
    intro pos st r h _
    simp only [key_pos_keys, Option.some.injEq] at h
    subst h
    exact Or.inl rfl
  | cons s rest ih =>
    intro pos st r h hr
    unfold key_pos_keys at h
    split at h
    · exact absurd h (by simp)
    · rename_i st1 h1
      have hdef := (key_pos_key_def s pos st st1 h1).1
      rcases ih (pos + 1) st1 r h hr with hkeep | ⟨himp, j, t, hj, ht, hrole, hflag⟩
      · by_cases c1 : (s[2]? = some 'I' ∨ s[2]? = some 'i') ∧ cfirst s = '-'
        · rw [if_pos c1] at hdef
          rw [hkeep, hdef] at hr
          exact absurd hr (by decide)
        · rw [if_neg c1] at hdef
          by_cases c2 : s[2]? = some 'I' ∧ st.def_in = GMT_MEX_IMPLICIT
          · rw [if_pos c2] at hdef
            right
            refine ⟨c2.2, 0, s, ?_, by simp, c2.1, ?_⟩
            · rw [hkeep, hdef]
              simp
            · intro hflag
              exact c1 ⟨Or.inl c2.1, hflag⟩
          · rw [if_neg c2] at hdef
            left
            rw [hkeep, hdef]
      · have hst : st.def_in = GMT_MEX_IMPLICIT := by
          by_cases c1 : (s[2]? = some 'I' ∨ s[2]? = some 'i') ∧ cfirst s = '-'
          · rw [if_pos c1] at hdef
            rw [hdef] at himp
            exact absurd himp (by decide)
          · rw [if_neg c1] at hdef
            by_cases c2 : s[2]? = some 'I' ∧ st.def_in = GMT_MEX_IMPLICIT
            · exact c2.2
            · rw [if_neg c2] at hdef
              rw [← hdef]
              exact himp
        right
        refine ⟨hst, j + 1, t, ?_, by simpa using ht, hrole, hflag⟩
        rw [hj]
        congr 1
        omega

/-- Second loop, direction out: a result that is not negative is either the value on entry
or, when that was `GMT_MEX_IMPLICIT`, the index of a key with role `O` whose flag is not
`-`. -/
theorem key_pos_keys_out_index (keys : List CString) :
    ∀ (pos : Nat) (st r : KeyPos), key_pos_keys keys pos st = some r → 0 ≤ r.def_out →
      r.def_out = st.def_out ∨
      (st.def_out = GMT_MEX_IMPLICIT ∧ ∃ (j : Nat) (s : CString),
        r.def_out = ((pos + j : Nat) : Int) ∧ keys[j]? = some s ∧ s[2]? = some 'O' ∧
        cfirst s ≠ '-') := by
  induction keys with
  | nil =>
    intro pos st r h _
    simp only [key_pos_keys, Option.some.injEq] at h
    subst h
    exact Or.inl rfl
  | cons s rest ih =>
    intro pos st r h hr
    unfold key_pos_keys at h
    split at h
    · exact absurd h (by simp)
    · rename_i st1 h1
      have hdef := (key_pos_key_def s pos st st1 h1).2
      rcases ih (pos + 1) st1 r h hr with hkeep | ⟨himp, j, t, hj, ht, hrole, hflag⟩
      · by_cases c1 : (s[2]? = some 'O' ∨ s[2]? = some 'o') ∧ cfirst s = '-'
        · rw [if_pos c1] at hdef
          rw [hkeep, hdef] at hr
          exact absurd hr (by decide)
        · rw [if_neg c1] at hdef
          by_cases c2 : s[2]? = some 'O' ∧ st.def_out = GMT_MEX_IMPLICIT
          · rw [if_pos c2] at hdef
            right
            refine ⟨c2.2, 0, s, ?_, by simp, c2.1, ?_⟩
            · rw [hkeep, hdef]
              simp
            · intro hflag
              exact c1 ⟨Or.inl c2.1, hflag⟩
          · rw [if_neg c2] at hdef
            left
            rw [hkeep, hdef]
      · have hst : st.def_out = GMT_MEX_IMPLICIT := by
          by_cases c1 : (s[2]? = some 'O' ∨ s[2]? = some 'o') ∧ cfirst s = '-'
          · rw [if_pos c1] at hdef
            rw [hdef] at himp
            exact absurd himp (by decide)
          · rw [if_neg c1] at hdef
            by_cases c2 : s[2]? = some 'O' ∧ st.def_out = GMT_MEX_IMPLICIT
            · exact c2.2
            · rw [if_neg c2] at hdef
              rw [← hdef]
              exact himp
        right
        refine ⟨hst, j + 1, t, ?_, by simpa using ht, hrole, hflag⟩
        rw [hj]
        congr 1
        omega

/-- C26. On every key table (within bounds) and option list `gmtmex_get_key_pos` completes,
and whenever it leaves a value that is not negative in `def[GMT_IN]` (resp.
`def[GMT_OUT]`), this value is the index of a key of the table with role `I` (resp. `O`)
whose flag is not `-`, and no node of the option list has a flag whose first matching
descriptor has role `I` (resp. `O`). -/
theorem gmtmex_get_key_pos_index_valid (key : List CString) (head : List GMT_OPTION)
    (hk : KeysInBounds key) :
    ∃ r, gmtmex_get_key_pos key head = some r ∧
      (0 ≤ r.def_in → ∃ (p : Nat) (s : CString), r.def_in = (p : Int) ∧ p < key.length ∧
        key[p]? = some s ∧ s[2]? = some 'I' ∧ cfirst s ≠ '-' ∧
        ¬ GivenExplicitly key head 'I') ∧
      (0 ≤ r.def_out → ∃ (p : Nat) (s : CString), r.def_out = (p : Int) ∧ p < key.length ∧
        key[p]? = some s ∧ s[2]? = some 'O' ∧ cfirst s ≠ '-' ∧
        ¬ GivenExplicitly key head 'O') := by
  obtain ⟨r, hr⟩ := gmtmex_get_key_pos_total key head hk
  have hr2 := hr
  rw [gmtmex_get_key_pos_eq key head hk] at hr2
  refine ⟨r, hr, ?_, ?_⟩
  · intro h0
    rcases key_pos_keys_in_index key 0 _ r hr2 h0 with hkeep | ⟨himp, j, s, hj, hs, hrole, hflag⟩
    · exfalso
      dsimp only at hkeep
      rw [hkeep] at h0
      split at h0
      · exact absurd h0 (by decide)
      · exact absurd h0 (by decide)
    · refine ⟨j, s, by simpa using hj, (List.getElem?_eq_some.mp hs).1, hs, hrole, hflag, ?_⟩
      intro hg
      dsimp only at himp
      rw [if_pos hg] at himp
      exact absurd himp (by decide)
  · intro h0
    rcases key_pos_keys_out_index key 0 _ r hr2 h0 with hkeep | ⟨himp, j, s, hj, hs, hrole, hflag⟩
    · exfalso
      dsimp only at hkeep
      rw [hkeep] at h0
      split at h0
      · exact absurd h0 (by decide)
      · exact absurd h0 (by decide)
    · refine ⟨j, s, by simpa using hj, (List.getElem?_eq_some.mp hs).1, hs, hrole, hflag, ?_⟩
      intro hg
      dsimp only at himp
      rw [if_pos hg] at himp
      exact absurd himp (by decide)

/-- Witness for C26: the key table `<GI,GGO` with the option `-Fg200k` leaves the indices 0
and 1. -/
theorem gmtmex_get_key_pos_index_valid_witness :
    KeysInBounds ["<GI".toList, "GGO".toList] ∧
    gmtmex_get_key_pos ["<GI".toList, "GGO".toList] [node 'F' "g200k"] =
      some { def_in := 0, def_out := 1, PS := 0 } ∧
    ∃ r, gmtmex_get_key_pos ["<GI".toList, "GGO".toList] [node 'F' "g200k"] = some r ∧
      (0 ≤ r.def_in → ∃ (p : Nat) (s : CString), r.def_in = (p : Int) ∧
        p < ["<GI".toList, "GGO".toList].length ∧
        ["<GI".toList, "GGO".toList][p]? = some s ∧ s[2]? = some 'I' ∧ cfirst s ≠ '-' ∧
        ¬ GivenExplicitly ["<GI".toList, "GGO".toList] [node 'F' "g200k"] 'I') ∧
      (0 ≤ r.def_out → ∃ (p : Nat) (s : CString), r.def_out = (p : Int) ∧
        p < ["<GI".toList, "GGO".toList].length ∧
        ["<GI".toList, "GGO".toList][p]? = some s ∧ s[2]? = some 'O' ∧ cfirst s ≠ '-' ∧
        ¬ GivenExplicitly ["<GI".toList, "GGO".toList] [node 'F' "g200k"] 'O') :=
  ⟨by decide, by decide,
   gmtmex_get_key_pos_index_valid ["<GI".toList, "GGO".toList] [node 'F' "g200k"]
     (by decide)⟩

theorem cget_one_eq_X (s : CString) : cget s 1 = some 'X' ↔ s[1]? = some 'X' := by
  constructor
  · intro h
    exact cget_ne_NUL s 1 'X' h (by decide)
  · intro h
    exact cget_of_getElem? s 1 'X' h

/-- The body of the second loop sets `PS` to 1 on a key that marks a PostScript producer and
leaves it otherwise. -/
theorem key_pos_key_PS_eq (s : CString) (pos : Nat) (st st1 : KeyPos)
    (h : key_pos_key s pos st = some st1) :
    st1.PS = if PostScriptKey s then 1 else st.PS := by
  unfold key_pos_key at h
  split at h
  · exact absurd h (by simp)
  · rename_i r hr
    have hO := cget_two_eq_iff s r 'O' hr (by decide)
    have ho := cget_two_eq_iff s r 'o' hr (by decide)
    simp only [Option.some.injEq] at h
    subst h
    simp only [hO, ho, cget_one_eq_X, PostScriptKey]
    by_cases h1 : s[2]? = some 'O' ∨ s[2]? = some 'o' <;>
      by_cases h2 : s[1]? = some 'X' <;> by_cases h3 : cfirst s = '-' <;>
      simp [h1, h2, h3]

/-- The second loop ends with `PS` equal to 1 when some key still to scan marks a PostScript
producer, and with the value on entry otherwise. -/
theorem key_pos_keys_PS_eq (keys : List CString) :
    ∀ (pos : Nat) (st r : KeyPos), key_pos_keys keys pos st = some r →
      r.PS = if (∃ s ∈ keys, PostScriptKey s) then 1 else st.PS := by
  induction keys with
  | nil =>
    intro pos st r h
    simp only [key_pos_keys, Option.some.injEq] at h
    subst h
    simp
  | cons s rest ih =>
    intro pos st r h
    unfold key_pos_keys at h
    split at h
    · exact absurd h (by simp)
    · rename_i st1 h1
      rw [ih (pos + 1) st1 r h, key_pos_key_PS_eq s pos st st1 h1]
      by_cases hs : PostScriptKey s <;> by_cases hrest : ∃ t ∈ rest, PostScriptKey t <;>
        simp [hs, hrest]

/-- Counterexample to C22: the key table `-XO,-Xo` has two descriptors of kind `X` with an
output role and the flag `-`, and the tally returned is 1, not 2. -/
theorem gmtmex_get_key_pos_tally_not_a_count :
    ["-XO".toList, "-Xo".toList].countP (fun s => decide (PostScriptKey s)) = 2 ∧
    (gmtmex_get_key_pos ["-XO".toList, "-Xo".toList] []).map (fun r => r.PS) = some 1 := by
  refine ⟨by decide, by decide⟩

/-- C22 (as amended). On every key table (within bounds) and option list the value `PS`
returned by `gmtmex_get_key_pos` is a mark, not a count: it is 1 when the key table has at
least one descriptor of kind `X` with an output role (`O` or `o`) and the flag `-`, and 0
when it has none. -/
theorem gmtmex_get_key_pos_tally (key : List CString) (head : List GMT_OPTION)
    (hk : KeysInBounds key) :
    ∃ r, gmtmex_get_key_pos key head = some r ∧
      r.PS = if (∃ s ∈ key, PostScriptKey s) then 1 else 0 := by
  obtain ⟨r, hr⟩ := gmtmex_get_key_pos_total key head hk
  have hr2 := hr
  rw [gmtmex_get_key_pos_eq key head hk] at hr2
  exact ⟨r, hr, key_pos_keys_PS_eq key 0 _ r hr2⟩

/-- Witness for C22 (as amended): the key table `-XO,-Xo` gives the tally 1. -/
theorem gmtmex_get_key_pos_tally_witness :
    KeysInBounds ["-XO".toList, "-Xo".toList] ∧
    ∃ r, gmtmex_get_key_pos ["-XO".toList, "-Xo".toList] [] = some r ∧
      r.PS = if (∃ s ∈ ["-XO".toList, "-Xo".toList], PostScriptKey s) then 1 else 0 :=
  ⟨by decide, gmtmex_get_key_pos_tally ["-XO".toList, "-Xo".toList] [] (by decide)⟩

/-- Counterexample to C23: in the key table `GGI,-Di,LDO` with the option `-G$` the first
loop sets `def[GMT_IN]` to `GMT_MEX_EXPLICIT`, and the descriptor `-Di` does not leave it:
the result is `GMT_MEX_NONE`. -/
theorem gmtmex_get_key_pos_explicit_not_kept :
    key_pos_options ["GGI".toList, "-Di".toList, "LDO".toList] [node 'G' "$"]
        (GMT_MEX_IMPLICIT, GMT_MEX_IMPLICIT) =
      some (GMT_MEX_EXPLICIT, GMT_MEX_IMPLICIT) ∧
    (gmtmex_get_key_pos ["GGI".toList, "-Di".toList, "LDO".toList] [node 'G' "$"]).map
        (fun r => r.def_in) = some GMT_MEX_NONE ∧
    GMT_MEX_NONE ≠ GMT_MEX_EXPLICIT := by
  refine ⟨by decide, by decide, by decide⟩

/-- C23 (as amended). In `gmtmex_get_key_pos` a disallowing descriptor overrides the result
of the first loop whatever it is: on every key table (within bounds) with a descriptor of
flag `-` and role `I` or `i`, and every option list with a node whose matching descriptor
has role `I`, the first loop sets `def[GMT_IN]` to `GMT_MEX_EXPLICIT` and the function
returns with `def[GMT_IN] = GMT_MEX_NONE`; symmetrically for output. -/
theorem gmtmex_get_key_pos_disallowed_overrides (key : List CString)
    (head : List GMT_OPTION) (hk : KeysInBounds key) :
    ∃ d r, key_pos_options key head (GMT_MEX_IMPLICIT, GMT_MEX_IMPLICIT) = some d ∧
      gmtmex_get_key_pos key head = some r ∧
      (DisallowedIn key → GivenExplicitly key head 'I' →
        d.1 = GMT_MEX_EXPLICIT ∧ r.def_in = GMT_MEX_NONE) ∧
      (DisallowedOut key → GivenExplicitly key head 'O' →
        d.2 = GMT_MEX_EXPLICIT ∧ r.def_out = GMT_MEX_NONE) := by
  obtain ⟨r, hr⟩ := gmtmex_get_key_pos_total key head hk
  have hr2 := hr
  rw [gmtmex_get_key_pos_eq key head hk] at hr2
  refine ⟨_, r, key_pos_options_spec key hk head _, hr, ?_, ?_⟩
  · intro hdis hg
    exact ⟨by simp only [hg, if_true], key_pos_keys_in_none key 0 _ r hr2 (Or.inl hdis)⟩
  · intro hdis hg
    exact ⟨by simp only [hg, if_true], key_pos_keys_out_none key 0 _ r hr2 (Or.inl hdis)⟩

/-- Witness for C23 (as amended): the key table `GGI,-Di,LDO` with the option `-G$`. -/
theorem gmtmex_get_key_pos_disallowed_overrides_witness :
    KeysInBounds ["GGI".toList, "-Di".toList, "LDO".toList] ∧
    DisallowedIn ["GGI".toList, "-Di".toList, "LDO".toList] ∧
    GivenExplicitly ["GGI".toList, "-Di".toList, "LDO".toList] [node 'G' "$"] 'I' ∧
    ∃ d r, key_pos_options ["GGI".toList, "-Di".toList, "LDO".toList] [node 'G' "$"]
        (GMT_MEX_IMPLICIT, GMT_MEX_IMPLICIT) = some d ∧
      gmtmex_get_key_pos ["GGI".toList, "-Di".toList, "LDO".toList] [node 'G' "$"] =
        some r ∧
      (DisallowedIn ["GGI".toList, "-Di".toList, "LDO".toList] →
        GivenExplicitly ["GGI".toList, "-Di".toList, "LDO".toList] [node 'G' "$"] 'I' →
        d.1 = GMT_MEX_EXPLICIT ∧ r.def_in = GMT_MEX_NONE) ∧
      (DisallowedOut ["GGI".toList, "-Di".toList, "LDO".toList] →
        GivenExplicitly ["GGI".toList, "-Di".toList, "LDO".toList] [node 'G' "$"] 'O' →
        d.2 = GMT_MEX_EXPLICIT ∧ r.def_out = GMT_MEX_NONE) :=
  ⟨by decide, by decide, by decide,
   gmtmex_get_key_pos_disallowed_overrides ["GGI".toList, "-Di".toList, "LDO".toList]
     [node 'G' "$"] (by decide)⟩

/-- A key table (within bounds) with no disallowing descriptor for input and no descriptor
of role `I` leaves `def[GMT_IN]` at `GMT_MEX_IMPLICIT`, and the run of `GMTMEX_parser` then
reads `key[-1]`: it does not complete, for any option list. -/
theorem GMTMEX_parser_run_unresolved_in (encode : Int → Int × CString)
    (keys : Option CString) (head : List GMT_OPTION) (unique_ID : Nat)
    (hk : KeysInBounds (parser_keys keys)) (hnd : ¬ DisallowedIn (parser_keys keys))
    (hno : ∀ t, t ∈ parser_keys keys → t[2]? ≠ some 'I') :
    (∃ kp, gmtmex_get_key_pos (parser_keys keys) head = some kp ∧
      kp.def_in = GMT_MEX_IMPLICIT) ∧
    GMTMEX_parser_run encode keys head unique_ID = none := by
  obtain ⟨kp, hkp⟩ := gmtmex_get_key_pos_total (parser_keys keys) head hk
  have hkp2 := hkp
  rw [gmtmex_get_key_pos_eq (parser_keys keys) head hk] at hkp2
  have hng : ¬ GivenExplicitly (parser_keys keys) head 'I' := by
    intro hg
    obtain ⟨opt, _, hrole⟩ := hg
    unfold matched_role at hrole
    split at hrole
    · rename_i s hs
      have hmem : s ∈ parser_keys keys := List.mem_of_find?_eq_some hs
      exact hno s hmem hrole
    · exact absurd hrole (by simp)
  have hin : kp.def_in = GMT_MEX_IMPLICIT :=
    key_pos_keys_in_implicit (parser_keys keys) 0 _ kp hkp2 hnd
      (by simp only [hng, if_false]) hno
  refine ⟨⟨kp, hkp, hin⟩, ?_⟩
  unfold GMTMEX_parser_run
  rw [hkp]
  simp [parser_add_defaults, hin, parser_add_default_implicit]

/-- C25 (defect). The key tables `LGi` and `GGI,LDo` declare no uppercase default and no
disallowing descriptor for a direction: `gmtmex_get_key_pos` leaves that direction at
`GMT_MEX_IMPLICIT` (-1), the default synthesis takes it for an index and reads `key[-1]`,
and the run does not complete. -/
theorem GMTMEX_parser_unresolved_default :
    gmtmex_get_key_pos (parser_keys (some "LGi".toList)) [node 'L' "$"] =
      some { def_in := GMT_MEX_IMPLICIT, def_out := GMT_MEX_IMPLICIT, PS := 0 } ∧
    GMTMEX_parser_run sample_encode (some "LGi".toList) [node 'L' "$"] 0 = none ∧
    gmtmex_get_key_pos (parser_keys (some "GGI,LDo".toList))
        [node 'F' "g200k", node 'G' "$"] =
      some { def_in := GMT_MEX_EXPLICIT, def_out := GMT_MEX_IMPLICIT, PS := 0 } ∧
    parser_add_default sample_encode GMT_io_enum.GMT_OUT GMT_MEX_IMPLICIT
        (parser_start ["GGI".toList, "LDo".toList]
          [node 'F' "g200k", node 'G' "$"] 0 0) = none ∧
    GMTMEX_parser_run sample_encode (some "GGI,LDo".toList)
      [node 'F' "g200k", node 'G' "$"] 0 = none := by
  refine ⟨by decide, by decide, by decide, by decide, by decide⟩

/-! ## Theorems: the `psconvert` step of `mexFunction` -/

/-- C29 (defect). For the module `psconvert` with one output requested and the option
string `-A -F`, which contains `-F` (at offset 3), `mexFunction` adds a second ` -F`: the
test calls `strstr ("-F", opt_args)`, which looks for the option string inside `-F` and
finds nothing.  With the option string `F`, which does not contain `-F`, nothing is
added. -/
theorem mexFunction_adds_second_F :
    strstr "-A -F".toList "-F".toList = some 3 ∧
    strstr "-F".toList "-A -F".toList = none ∧
    mexFunction_add_F "psconvert".toList 1 (some "-A -F".toList) =
      some "-A -F -F".toList ∧
    strstr "F".toList "-F".toList = none ∧
    mexFunction_add_F "psconvert".toList 1 (some "F".toList) = some "F".toList ∧
    mexFunction_add_F "psconvert".toList 1 none = some "-F".toList ∧
    mexFunction_add_F "psconvert".toList 1 (some "-A".toList) = some "-A -F".toList := by
  refine ⟨by decide, by decide, by decide, by decide, by decide, by decide, by decide⟩

/-! ## Theorems: identifiers and array handles consumed by `GMTMEX_parser` -/

/-- One round of the binding loop on a node without an unmuted `$`: nothing but `PS` can
change. -/
theorem parser_bind_node_skip (encode : Int → Int × CString) (opt : GMT_OPTION)
    (st st1 : ParserState) (h : parser_bind_node encode opt st = some st1)
    (hpos : gmtmex_get_arg_pos opt.arg = -1) :
    st1.key = st.key ∧ st1.head = st.head ∧ st1.unique_ID = st.unique_ID ∧
    st1.lr_pos_in = st.lr_pos_in ∧ st1.lr_pos_out = st.lr_pos_out := by
  unfold parser_bind_node at h
  simp only [hpos, if_true, Option.some.injEq] at h
  subst h
  refine ⟨?_, ?_, ?_, ?_, ?_⟩ <;> split <;> rfl

theorem ite_PS_key (st : ParserState) (c : Prop) [Decidable c] (n : Nat) :
    (if c then { st with PS := n } else st).key = st.key := by
  split <;> rfl

theorem ite_PS_head (st : ParserState) (c : Prop) [Decidable c] (n : Nat) :
    (if c then { st with PS := n } else st).head = st.head := by
  split <;> rfl

theorem ite_PS_unique_ID (st : ParserState) (c : Prop) [Decidable c] (n : Nat) :
    (if c then { st with PS := n } else st).unique_ID = st.unique_ID := by
  split <;> rfl

theorem ite_PS_lr_pos_in (st : ParserState) (c : Prop) [Decidable c] (n : Nat) :
    (if c then { st with PS := n } else st).lr_pos_in = st.lr_pos_in := by
  split <;> rfl

theorem ite_PS_lr_pos_out (st : ParserState) (c : Prop) [Decidable c] (n : Nat) :
    (if c then { st with PS := n } else st).lr_pos_out = st.lr_pos_out := by
  split <;> rfl

theorem ite_PS_data_type (st : ParserState) (c : Prop) [Decidable c] (n : Nat) :
    (if c then { st with PS := n } else st).data_type = st.data_type := by
  split <;> rfl

theorem ite_PS_geometry (st : ParserState) (c : Prop) [Decidable c] (n : Nat) :
    (if c then { st with PS := n } else st).geometry = st.geometry := by
  split <;> rfl

/-- One round of the binding loop on a node with an unmuted `$`: the flag is classified on
the current key table, one identifier is taken, the cursor of the direction returned
advances by one, and the list is updated by the flag. -/
theorem parser_bind_node_bound (encode : Int → Int × CString) (opt : GMT_OPTION)
    (st st1 : ParserState) (h : parser_bind_node encode opt st = some st1)
    (hpos : gmtmex_get_arg_pos opt.arg ≠ -1) :
    ∃ a, gmtmex_get_arg_dir opt.option st.key st.data_type st.geometry = some a ∧
      st1.key = a.key ∧
      st1.head = GMT_Update_Option opt.option (encode (to_int st.unique_ID)).2 st.head ∧
      st1.unique_ID = (st.unique_ID + 1) % 2 ^ 32 ∧
      st1.lr_pos_in =
        (if a.direction = GMT_io_enum.GMT_IN then st.lr_pos_in + 1 else st.lr_pos_in) ∧
      st1.lr_pos_out =
        (if a.direction = GMT_io_enum.GMT_IN then st.lr_pos_out else st.lr_pos_out + 1) := by
  unfold parser_bind_node at h
  simp only [hpos, if_false] at h
  split at h
  · exact absurd h (by simp)
  · rename_i a ha
    simp only [ite_PS_key, ite_PS_data_type, ite_PS_geometry] at ha
    simp only [Option.some.injEq] at h
    subst h
    refine ⟨a, ha, ?_, ?_, ?_, ?_, ?_⟩
    · simp
    · simp [ite_PS_head, ite_PS_unique_ID]
    · simp [ite_PS_unique_ID]
    · cases hd : a.direction <;> simp [advance_lr_pos, ite_PS_lr_pos_in]
    · cases hd : a.direction <;> simp [advance_lr_pos, ite_PS_lr_pos_out]

/-- Updating by the flag of the `j`-th node, which holds an unmuted `$`, leaves the nodes
after it as they are. -/
theorem update_option_drop (a : CString) :
    ∀ (l : List GMT_OPTION) (j : Nat) (o : GMT_OPTION), l[j]? = some o →
      gmtmex_get_arg_pos o.arg ≠ -1 →
      (GMT_Update_Option o.option a l).drop (j + 1) = l.drop (j + 1) := by
  intro l
  induction l with
  | nil =>
    intro j o h
    simp at h
  | cons x rest ih =>
    intro j o h hpos
    unfold GMT_Update_Option
    by_cases hx : x.option = o.option ∧ gmtmex_get_arg_pos x.arg ≠ -1
    · rw [if_pos hx]
      simp only [List.drop_succ_cons]
    · rw [if_neg hx]
      simp only [List.drop_succ_cons]
      cases j with
      | zero =>
        have : x = o := by simpa using h
        subst this
        exact absurd ⟨rfl, hpos⟩ hx
      | succ j =>
        have h2 : rest[j]? = some o := by simpa using h
        exact ih j o h2 hpos

theorem drop_eq_cons_of_getElem? {α : Type} (l : List α) (j : Nat) (o : α)
    (h : l[j]? = some o) : l.drop j = o :: l.drop (j + 1) := by
  have hj : j < l.length := (List.getElem?_eq_some.mp h).1
  have hval : l[j] = o := (List.getElem?_eq_some.mp h).2
  rw [← hval]
  exact List.drop_eq_getElem_cons hj

/-- One round of the binding loop leaves the nodes after the node visited as they are. -/
theorem parser_bind_node_drop (encode : Int → Int × CString) (opt : GMT_OPTION)
    (st st1 : ParserState) (j : Nat) (h : parser_bind_node encode opt st = some st1)
    (hget : st.head[j]? = some opt) : st1.head.drop (j + 1) = st.head.drop (j + 1) := by
  rcases parser_bind_node_head encode opt st st1 h with ⟨_, hh, _⟩ | ⟨hpos, hh, _⟩
  · rw [hh]
  · rw [hh]
    exact update_option_drop _ st.head j opt hget hpos

/-- The counter after the binding loop: one identifier for each node visited that holds an
unmuted `$`. -/
theorem parser_bind_loop_unique_ID (encode : Int → Int × CString) (fuel : Nat) :
    ∀ (j : Nat) (st st1 : ParserState), parser_bind_loop encode fuel j st = some st1 →
      st.head.length ≤ j + fuel → st.unique_ID < 2 ^ 32 →
      st1.unique_ID =
        (st.unique_ID + (st.head.drop j).countP has_placeholder) % 2 ^ 32 := by
  induction fuel with
  | zero =>
    intro j st st1 h hlen huid
    simp only [parser_bind_loop, Option.some.injEq] at h
    subst h
    have hdrop : st.head.drop j = [] := List.drop_eq_nil_of_le (by omega)
    rw [hdrop]
    simp only [List.countP_nil, Nat.add_zero]
    exact (Nat.mod_eq_of_lt huid).symm
  | succ fuel ih =>
    intro j st st1 h hlen huid
    unfold parser_bind_loop at h
    split at h
    · rename_i hnone
      simp only [Option.some.injEq] at h
      subst h
      have hdrop : st.head.drop j = [] :=
        List.drop_eq_nil_of_le (List.getElem?_eq_none_iff.mp hnone)
      rw [hdrop]
      simp only [List.countP_nil, Nat.add_zero]
      exact (Nat.mod_eq_of_lt huid).symm
    · rename_i opt hget
      split at h
      · exact absurd h (by simp)
      · rename_i st2 hnode
        have hfl := (parser_bind_node_flags_PS encode opt st st2 hnode).1
        have hlen2 := flags_eq_length st2.head st.head hfl
        have hdrop := parser_bind_node_drop encode opt st st2 j hnode hget
        have hsplit := drop_eq_cons_of_getElem? st.head j opt hget
        have h2lt : st2.unique_ID < 2 ^ 32 := by
          rcases parser_bind_node_head encode opt st st2 hnode with ⟨_, _, hu⟩ | ⟨_, _, hu⟩
          · rw [hu]
            exact huid
          · rw [hu]
            exact Nat.mod_lt _ (by norm_num)
        rw [ih (j + 1) st2 st1 h (by omega) h2lt, hdrop, hsplit, List.countP_cons]
        by_cases hpos : gmtmex_get_arg_pos opt.arg = -1
        · have hu := (parser_bind_node_skip encode opt st st2 hnode hpos).2.2.1
          simp [has_placeholder, hpos, hu]
        · rcases parser_bind_node_head encode opt st st2 hnode with ⟨h1, _, _⟩ | ⟨_, _, hu⟩
          · exact absurd h1 hpos
          · rw [hu]
            simp only [has_placeholder, hpos, ne_eq, not_false_eq_true, decide_True, if_true]
            omega

theorem range_map_shift (u n : Nat) (hu : u < 2 ^ 32) :
    u :: (List.range n).map (fun k => ((u + 1) % 2 ^ 32 + k) % 2 ^ 32) =
      (List.range (n + 1)).map (fun k => (u + k) % 2 ^ 32) := by
  rw [List.range_succ_eq_map, List.map_cons, List.map_map]
  congr 1
  · simp only [Nat.add_zero]
    exact (Nat.mod_eq_of_lt hu).symm
  · apply List.map_congr_left
    intro k _
    simp only [Function.comp]
    omega

/-- The identifiers taken by the binding loop are consecutive, starting from the counter on
entry: one for each node visited that holds an unmuted `$`. -/
theorem bind_issued_eq (encode : Int → Int × CString) (fuel : Nat) :
    ∀ (j : Nat) (st st1 : ParserState), parser_bind_loop encode fuel j st = some st1 →
      st.head.length ≤ j + fuel → st.unique_ID < 2 ^ 32 →
      bind_issued encode fuel j st =
        (List.range ((st.head.drop j).countP has_placeholder)).map
          (fun k => (st.unique_ID + k) % 2 ^ 32) := by
  induction fuel with
  | zero =>
    intro j st st1 _ hlen _
    have hdrop : st.head.drop j = [] := List.drop_eq_nil_of_le (by omega)
    rw [hdrop]
    simp [bind_issued]
  | succ fuel ih =>
    intro j st st1 h hlen huid
    unfold parser_bind_loop at h
    unfold bind_issued
    split at h
    · rename_i hnone
      have hdrop : st.head.drop j = [] :=
        List.drop_eq_nil_of_le (List.getElem?_eq_none_iff.mp hnone)
      rw [hdrop]
      simp [hnone]
    · rename_i opt hget
      split at h
      · exact absurd h (by simp)
      · rename_i st2 hnode
        have hfl := (parser_bind_node_flags_PS encode opt st st2 hnode).1
        have hlen2 := flags_eq_length st2.head st.head hfl
        have hdrop := parser_bind_node_drop encode opt st st2 j hnode hget
        have hsplit := drop_eq_cons_of_getElem? st.head j opt hget
        have h2lt : st2.unique_ID < 2 ^ 32 := by
          rcases parser_bind_node_head encode opt st st2 hnode with ⟨_, _, hu⟩ | ⟨_, _, hu⟩
          · rw [hu]
            exact huid
          · rw [hu]
            exact Nat.mod_lt _ (by norm_num)
        rw [ih (j + 1) st2 st1 h (by omega) h2lt, hdrop, hsplit, List.countP_cons]
        by_cases hpos : gmtmex_get_arg_pos opt.arg = -1
        · have hu := (parser_bind_node_skip encode opt st st2 hnode hpos).2.2.1
          simp [has_placeholder, hpos, hu]
        · rcases parser_bind_node_head encode opt st st2 hnode with ⟨h1, _, _⟩ | ⟨_, _, hu⟩
          · exact absurd h1 hpos
          · rw [hu]
            simp only [has_placeholder, hpos, ne_eq, not_false_eq_true, decide_True, if_true,
              if_false, List.singleton_append]
            exact range_map_shift st.unique_ID _ huid

/-- One round of the default synthesis that completes takes the identifier `unique_ID`
exactly when `def[direction]` is a key index, and advances the cursor of its direction by
one in that case. -/
theorem parser_add_default_counters (encode : Int → Int × CString) (dir : GMT_io_enum)
    (d : Int) (st st1 : ParserState) (h : parser_add_default encode dir d st = some st1) :
    st1.unique_ID = (if 0 ≤ d then (st.unique_ID + 1) % 2 ^ 32 else st.unique_ID) ∧
    default_issued d st = (if 0 ≤ d then [st.unique_ID] else []) ∧
    st1.lr_pos_in =
      (if 0 ≤ d ∧ dir = GMT_io_enum.GMT_IN then st.lr_pos_in + 1 else st.lr_pos_in) ∧
    st1.lr_pos_out =
      (if 0 ≤ d ∧ dir = GMT_io_enum.GMT_OUT then st.lr_pos_out + 1 else st.lr_pos_out) := by
  unfold parser_add_default at h
  unfold default_issued
  split at h
  · rename_i hd
    simp only [Option.some.injEq] at h
    subst h
    subst hd
    simp [GMT_MEX_NONE]
  · rename_i hd1
    split at h
    · rename_i hd
      simp only [Option.some.injEq] at h
      subst h
      subst hd
      simp [GMT_MEX_NONE, GMT_MEX_EXPLICIT]
    · rename_i hd2
      split at h
      · exact absurd h (by simp)
      · rename_i hd0
        have hpos : 0 ≤ d := by omega
        split at h
        · exact absurd h (by simp)
        · split at h
          · exact absurd h (by simp)
          · split at h
            · exact absurd h (by simp)
            · simp only [Option.some.injEq] at h
              subst h
              cases dir <;> simp [hd1, hd2, hpos, advance_lr_pos]

/-- The nodes of the list after the default synthesis are the nodes of the list before it,
followed by nodes whose argument is an encoded identifier. -/
theorem parser_add_defaults_extra (encode : Int → Int × CString) (kp : KeyPos)
    (st st2 : ParserState) (h : parser_add_defaults encode kp st = some st2) :
    ∃ extra, st2.head = st.head ++ extra ∧
      ∀ o, o ∈ extra → ∃ u : Nat, o.arg = (encode (to_int u)).2 := by
  have one : ∀ (dir : GMT_io_enum) (d : Int) (sa sb : ParserState),
      parser_add_default encode dir d sa = some sb →
      ∃ extra, sb.head = sa.head ++ extra ∧
        ∀ o, o ∈ extra → ∃ u : Nat, o.arg = (encode (to_int u)).2 := by
    intro dir d sa sb hab
    rcases parser_add_default_spec encode dir d sa sb hab with ⟨_, heq⟩ | ⟨_, s, _, hh, _⟩
    · exact ⟨[], by rw [heq]; simp, fun o ho => by simp at ho⟩
    · rw [hh]
      cases hsa : sa.head with
      | nil => exact ⟨[], rfl, fun o ho => by simp at ho⟩
      | cons x rest =>
        refine ⟨[GMT_Make_Option (cfirst s) (encode (to_int sa.unique_ID)).2], rfl, ?_⟩
        intro o ho
        have : o = GMT_Make_Option (cfirst s) (encode (to_int sa.unique_ID)).2 := by
          simpa using ho
        exact ⟨sa.unique_ID, by rw [this]; rfl⟩
  unfold parser_add_defaults at h
  split at h
  · exact absurd h (by simp)
  · rename_i st1 h1
    obtain ⟨x1, hx1, hw1⟩ := one _ _ st st1 h1
    obtain ⟨x2, hx2, hw2⟩ := one _ _ st1 st2 h
    refine ⟨x1 ++ x2, by rw [hx2, hx1, List.append_assoc], ?_⟩
    intro o ho
    rcases List.mem_append.mp ho with h3 | h3
    · exact hw1 o h3
    · exact hw2 o h3

theorem countP_placeholder_extra (encode : Int → Int × CString)
    (henc : ∀ ID, gmtmex_get_arg_pos (encode ID).2 = -1) (head extra : List GMT_OPTION)
    (hextra : ∀ o, o ∈ extra → ∃ u : Nat, o.arg = (encode (to_int u)).2) :
    (head ++ extra).countP has_placeholder = head.countP has_placeholder := by
  rw [List.countP_append]
  have : extra.countP has_placeholder = 0 := by
    rw [List.countP_eq_zero]
    intro o ho
    obtain ⟨u, hu⟩ := hextra o ho
    simp [has_placeholder, hu, henc]
  omega

theorem nodup_range_map (u n : Nat) (hn : n ≤ 2 ^ 32) :
    ((List.range n).map (fun k => (u + k) % 2 ^ 32)).Nodup := by
  apply List.Nodup.map_on _ (List.nodup_range n)
  intro a ha b hb hab
  have ha2 := List.mem_range.mp ha
  have hb2 := List.mem_range.mp hb
  simp only at hab
  omega

theorem nodup_range_map_to_int (u n : Nat) (hn : n ≤ 2 ^ 32) :
    (((List.range n).map (fun k => (u + k) % 2 ^ 32)).map to_int).Nodup := by
  apply List.Nodup.map_on _ (nodup_range_map u n hn)
  intro a ha b hb hab
  obtain ⟨ka, _, hka⟩ := List.mem_map.mp ha
  obtain ⟨kb, _, hkb⟩ := List.mem_map.mp hb
  have ha2 : a < 2 ^ 32 := by
    rw [← hka]
    exact Nat.mod_lt _ (by norm_num)
  have hb2 : b < 2 ^ 32 := by
    rw [← hkb]
    exact Nat.mod_lt _ (by norm_num)
  unfold to_int at hab
  split at hab <;> split at hab <;> omega

/-- C24. In a completed call of `GMTMEX_parser` with a counter `unique_ID` that is a valid
`unsigned int` and an encoder whose names hold no unmuted `$`, whatever the error code
returned: the counter advances (modulo `2^32`) by the number of default nodes made by the
synthesis plus the number of original nodes whose argument holds an unmuted `$`; the
identifiers taken, in the order synthesized input, synthesized output, placeholder nodes in
list order, are the consecutive values from `unique_ID` on; and they are pairwise distinct,
also as the `int` values given to the encoder, unless there are more than `2^32` of them. -/
theorem GMTMEX_parser_identifiers (encode : Int → Int × CString) (keys : Option CString)
    (head : List GMT_OPTION) (unique_ID : Nat) (r : ParserResult)
    (hrun : GMTMEX_parser_run encode keys head unique_ID = some r)
    (henc : ∀ ID, gmtmex_get_arg_pos (encode ID).2 = -1)
    (huid : unique_ID < 2 ^ 32) :
    ∃ kp, gmtmex_get_key_pos (parser_keys keys) head = some kp ∧
      r.state.unique_ID =
        (unique_ID + (default_count kp + head.countP has_placeholder)) % 2 ^ 32 ∧
      GMTMEX_parser_issued encode keys head unique_ID =
        (List.range (default_count kp + head.countP has_placeholder)).map
          (fun k => (unique_ID + k) % 2 ^ 32) ∧
      (default_count kp + head.countP has_placeholder ≤ 2 ^ 32 →
        (GMTMEX_parser_issued encode keys head unique_ID).Nodup ∧
        ((GMTMEX_parser_issued encode keys head unique_ID).map to_int).Nodup) := by
  obtain ⟨kp, st, hkp, hst, hloop, _⟩ :=
    GMTMEX_parser_run_inv encode keys head unique_ID r hrun
  obtain ⟨extra, hext, hwf⟩ := parser_add_defaults_extra encode kp _ st hst
  have hhead : st.head = head ++ extra := hext
  have hcount : st.head.countP has_placeholder = head.countP has_placeholder := by
    rw [hhead]
    exact countP_placeholder_extra encode henc head extra hwf
  unfold parser_add_defaults at hst
  split at hst
  · exact absurd hst (by simp)
  · rename_i st1 h1
    obtain ⟨hu1, hi1, _, _⟩ := parser_add_default_counters encode _ _ _ st1 h1
    obtain ⟨hu2, hi2, _, _⟩ := parser_add_default_counters encode _ _ st1 st hst
    have hu0 : (parser_start (parser_keys keys) head unique_ID kp.PS).unique_ID = unique_ID :=
      rfl
    rw [hu0] at hu1 hi1
    have h1lt : st1.unique_ID < 2 ^ 32 := by
      rw [hu1]
      split
      · exact Nat.mod_lt _ (by norm_num)
      · exact huid
    have h2lt : st.unique_ID < 2 ^ 32 := by
      rw [hu2]
      split
      · exact Nat.mod_lt _ (by norm_num)
      · exact h1lt
    have hfin := parser_bind_loop_unique_ID encode st.head.length 0 st r.state hloop
      (by omega) h2lt
    have hiss := bind_issued_eq encode st.head.length 0 st r.state hloop (by omega) h2lt
    rw [List.drop_zero, hcount] at hfin hiss
    have hissued : GMTMEX_parser_issued encode keys head unique_ID =
        (List.range (default_count kp + head.countP has_placeholder)).map
          (fun k => (unique_ID + k) % 2 ^ 32) := by
      unfold GMTMEX_parser_issued
      simp only [hkp, h1, hst, hi1, hi2, hiss]
      by_cases hin : 0 ≤ kp.def_in
      · by_cases hout : 0 ≤ kp.def_out
        · have hN : default_count kp + head.countP has_placeholder =
              head.countP has_placeholder + 1 + 1 := by
            simp only [default_count, hin, hout, if_true]
            omega
          rw [hN]
          simp only [hin, hout, if_true, List.singleton_append] at hu1 hu2 ⊢
          rw [hu2, range_map_shift st1.unique_ID _ h1lt, hu1,
            range_map_shift unique_ID _ huid]
        · have hN : default_count kp + head.countP has_placeholder =
              head.countP has_placeholder + 1 := by
            simp only [default_count, hin, hout, if_true, if_false]
            omega
          rw [hN]
          simp only [hin, hout, if_true, if_false, List.singleton_append,
            List.nil_append] at hu1 hu2 ⊢
          rw [hu2, hu1, range_map_shift unique_ID _ huid]
      · by_cases hout : 0 ≤ kp.def_out
        · have hN : default_count kp + head.countP has_placeholder =
              head.countP has_placeholder + 1 := by
            simp only [default_count, hin, hout, if_true, if_false]
            omega
          rw [hN]
          simp only [hin, hout, if_true, if_false, List.singleton_append,
            List.nil_append] at hu1 hu2 ⊢
          rw [hu2, range_map_shift st1.unique_ID _ h1lt, hu1]
        · have hN : default_count kp + head.countP has_placeholder =
              head.countP has_placeholder := by
            simp only [default_count, hin, hout, if_false]
            omega
          rw [hN]
          simp only [hin, hout, if_false, List.nil_append] at hu1 hu2 ⊢
          rw [hu2, hu1]
    refine ⟨kp, hkp, ?_, hissued, ?_⟩
    · rw [hfin, hu2, hu1]
      simp only [default_count]
      by_cases hin : 0 ≤ kp.def_in <;> by_cases hout : 0 ≤ kp.def_out <;>
        simp only [hin, hout, if_true, if_false] <;> omega
    · intro hN
      rw [hissued]
      exact ⟨nodup_range_map _ _ hN, nodup_range_map_to_int _ _ hN⟩

theorem get_arg_pos_loop_no_dollar (s : CString) (h : '$' ∉ s) :
    ∀ (k : Nat) (m : Bool), get_arg_pos_loop s k m = -1 := by
  induction s with
  | nil =>
    intro k m
    rfl
  | cons c rest ih =>
    intro k m
    have hc : ¬ c = '$' := fun e => h (by simp [e])
    have hrest : '$' ∉ rest := fun e => h (List.mem_cons_of_mem c e)
    simp only [get_arg_pos_loop, hc, and_false, if_false]
    exact ih hrest _ _

theorem digit_char_ne_dollar (d : Nat) (h : d < 10) : Char.ofNat (48 + d) ≠ '$' := by
  interval_cases d <;> decide

/-- The names written by the sample encoder hold no `$`. -/
theorem sample_encode_no_placeholder (ID : Int) :
    gmtmex_get_arg_pos (sample_encode ID).2 = -1 := by
  apply get_arg_pos_loop_no_dollar
  unfold sample_encode
  intro hmem
  simp only [List.mem_append, List.mem_cons, List.mem_singleton] at hmem
  rcases hmem with h | h | h | h | h | h | h | h
  · exact absurd h (by decide)
  · exact digit_char_ne_dollar _ (Nat.mod_lt _ (by norm_num)) h.symm
  · exact digit_char_ne_dollar _ (Nat.mod_lt _ (by norm_num)) h.symm
  · exact digit_char_ne_dollar _ (Nat.mod_lt _ (by norm_num)) h.symm
  · exact digit_char_ne_dollar _ (Nat.mod_lt _ (by norm_num)) h.symm
  · exact digit_char_ne_dollar _ (Nat.mod_lt _ (by norm_num)) h.symm
  · exact digit_char_ne_dollar _ (Nat.mod_lt _ (by norm_num)) h.symm
  · simp at h

/-- The run used for C24: key table `<GI,GGO,LDi`, options `-Fg200k -L$`, counter 5. -/
theorem run_with_two_defaults :
    GMTMEX_parser_run sample_encode (some "<GI,GGO,LDi".toList)
        [node 'F' "g200k", node 'L' "$"] 5 =
      some { error := 0,
             state := { key := ["<Gi".toList, "GGo".toList, "LDi".toList],
                        head := [node 'F' "g200k", node 'L' "@GMTAPI@-000007",
                                 node '<' "@GMTAPI@-000005", node 'G' "@GMTAPI@-000006"],
                        unique_ID := 8, lr_pos_in := 2, lr_pos_out := 1,
                        data_type := some GMT_family.GMT_IS_DATASET,
                        geometry := some GMT_geometry.GMT_IS_POINT, PS := 0 } } := by
  decide

/-- Witness for C24: the run above takes the identifiers 5, 6, 7 and leaves the counter
at 8. -/
theorem GMTMEX_parser_identifiers_witness :
    GMTMEX_parser_run sample_encode (some "<GI,GGO,LDi".toList)
        [node 'F' "g200k", node 'L' "$"] 5 =
      some { error := 0,
             state := { key := ["<Gi".toList, "GGo".toList, "LDi".toList],
                        head := [node 'F' "g200k", node 'L' "@GMTAPI@-000007",
                                 node '<' "@GMTAPI@-000005", node 'G' "@GMTAPI@-000006"],
                        unique_ID := 8, lr_pos_in := 2, lr_pos_out := 1,
                        data_type := some GMT_family.GMT_IS_DATASET,
                        geometry := some GMT_geometry.GMT_IS_POINT, PS := 0 } } ∧
    (∀ ID, gmtmex_get_arg_pos (sample_encode ID).2 = -1) ∧
    5 < 2 ^ 32 ∧
    GMTMEX_parser_issued sample_encode (some "<GI,GGO,LDi".toList)
      [node 'F' "g200k", node 'L' "$"] 5 = [5, 6, 7] ∧
    ∃ kp, gmtmex_get_key_pos (parser_keys (some "<GI,GGO,LDi".toList))
        [node 'F' "g200k", node 'L' "$"] = some kp ∧
      (8 : Nat) =
        (5 + (default_count kp +
          [node 'F' "g200k", node 'L' "$"].countP has_placeholder)) % 2 ^ 32 ∧
      GMTMEX_parser_issued sample_encode (some "<GI,GGO,LDi".toList)
          [node 'F' "g200k", node 'L' "$"] 5 =
        (List.range (default_count kp +
          [node 'F' "g200k", node 'L' "$"].countP has_placeholder)).map
          (fun k => (5 + k) % 2 ^ 32) ∧
      (default_count kp + [node 'F' "g200k", node 'L' "$"].countP has_placeholder ≤ 2 ^ 32 →
        (GMTMEX_parser_issued sample_encode (some "<GI,GGO,LDi".toList)
          [node 'F' "g200k", node 'L' "$"] 5).Nodup ∧
        ((GMTMEX_parser_issued sample_encode (some "<GI,GGO,LDi".toList)
          [node 'F' "g200k", node 'L' "$"] 5).map to_int).Nodup) :=
  ⟨run_with_two_defaults, sample_encode_no_placeholder, by norm_num, by decide,
   GMTMEX_parser_identifiers sample_encode (some "<GI,GGO,LDi".toList)
     [node 'F' "g200k", node 'L' "$"] 5 _ run_with_two_defaults
     sample_encode_no_placeholder (by norm_num)⟩

theorem getElem?_of_drop_eq {α : Type} (l1 l2 : List α) (j i : Nat)
    (h : l1.drop (j + 1) = l2.drop (j + 1)) (hi : j < i) : l1[i]? = l2[i]? := by
  have e1 : (l1.drop (j + 1))[i - (j + 1)]? = l1[i]? := by
    rw [List.getElem?_drop]
    congr 1
    omega
  have e2 : (l2.drop (j + 1))[i - (j + 1)]? = l2[i]? := by
    rw [List.getElem?_drop]
    congr 1
    omega
  rw [← e1, ← e2, h]

/-- When the nodes from index `n0` on hold no unmuted `$`, the binding loop leaves them as
they are. -/
theorem parser_bind_loop_tail_kept (encode : Int → Int × CString) (n0 : Nat) (fuel : Nat) :
    ∀ (j : Nat) (st st1 : ParserState), parser_bind_loop encode fuel j st = some st1 →
      (∀ (i : Nat) (o : GMT_OPTION), n0 ≤ i → st.head[i]? = some o →
        gmtmex_get_arg_pos o.arg = -1) →
      ∀ i : Nat, n0 ≤ i → st1.head[i]? = st.head[i]? := by
  induction fuel with
  | zero =>
    intro j st st1 h _ i _
    simp only [parser_bind_loop, Option.some.injEq] at h
    subst h
    rfl
  | succ fuel ih =>
    intro j st st1 h htail i hi
    unfold parser_bind_loop at h
    split at h
    · simp only [Option.some.injEq] at h
      subst h
      rfl
    · rename_i opt hget
      split at h
      · exact absurd h (by simp)
      · rename_i st2 hnode
        have hstep : ∀ i : Nat, n0 ≤ i → st2.head[i]? = st.head[i]? := by
          intro i hi
          by_cases hpos : gmtmex_get_arg_pos opt.arg = -1
          · rw [(parser_bind_node_skip encode opt st st2 hnode hpos).2.1]
          · have hj : j < n0 := by
              by_contra hge
              exact hpos (htail j opt (by omega) hget)
            exact getElem?_of_drop_eq _ _ j i
              (parser_bind_node_drop encode opt st st2 j hnode hget) (by omega)
        rw [ih (j + 1) st2 st1 h (fun i o hi ho => htail i o hi (by rw [← hstep i hi]; exact ho))
          i hi]
        exact hstep i hi

/-- The array cursors after the binding loop: together they advance by one for each node
visited that holds an unmuted `$`. -/
theorem parser_bind_loop_cursors (encode : Int → Int × CString) (fuel : Nat) :
    ∀ (j : Nat) (st st1 : ParserState), parser_bind_loop encode fuel j st = some st1 →
      st.head.length ≤ j + fuel →
      st1.lr_pos_in + st1.lr_pos_out =
        st.lr_pos_in + st.lr_pos_out + ((st.head.drop j).countP has_placeholder : Nat) := by
  induction fuel with
  | zero =>
    intro j st st1 h hlen
    simp only [parser_bind_loop, Option.some.injEq] at h
    subst h
    have hdrop : st.head.drop j = [] := List.drop_eq_nil_of_le (by omega)
    rw [hdrop]
    simp
  | succ fuel ih =>
    intro j st st1 h hlen
    unfold parser_bind_loop at h
    split at h
    · rename_i hnone
      simp only [Option.some.injEq] at h
      subst h
      have hdrop : st.head.drop j = [] :=
        List.drop_eq_nil_of_le (List.getElem?_eq_none_iff.mp hnone)
      rw [hdrop]
      simp
    · rename_i opt hget
      split at h
      · exact absurd h (by simp)
      · rename_i st2 hnode
        have hfl := (parser_bind_node_flags_PS encode opt st st2 hnode).1
        have hlen2 := flags_eq_length st2.head st.head hfl
        have hdrop := parser_bind_node_drop encode opt st st2 j hnode hget
        have hsplit := drop_eq_cons_of_getElem? st.head j opt hget
        rw [ih (j + 1) st2 st1 h (by omega), hdrop, hsplit, List.countP_cons]
        by_cases hpos : gmtmex_get_arg_pos opt.arg = -1
        · obtain ⟨_, _, _, h4, h5⟩ := parser_bind_node_skip encode opt st st2 hnode hpos
          simp [has_placeholder, hpos, h4, h5]
        · obtain ⟨a, _, _, _, _, h4, h5⟩ := parser_bind_node_bound encode opt st st2 hnode hpos
          rw [h4, h5]
          simp only [has_placeholder, hpos, ne_eq, not_false_eq_true, decide_True, if_true]
          split <;> push_cast <;> omega

/-- C27. In a completed call of `GMTMEX_parser` with a counter `unique_ID` that is a valid
`unsigned int` and an encoder whose names hold no unmuted `$`: the default synthesis
advances the cursor of a direction by one exactly when it makes the default node of that
direction, and extends the list by nodes whose argument is an encoded identifier; the
binding loop leaves every node behind the original ones as it is, takes identifiers only
for the original nodes that hold an unmuted `$`, and advances the two cursors together by
their number: no default node is bound a second time. -/
theorem GMTMEX_parser_default_node_kept (encode : Int → Int × CString)
    (keys : Option CString) (head : List GMT_OPTION) (unique_ID : Nat) (r : ParserResult)
    (hrun : GMTMEX_parser_run encode keys head unique_ID = some r)
    (henc : ∀ ID, gmtmex_get_arg_pos (encode ID).2 = -1)
    (huid : unique_ID < 2 ^ 32) :
    ∃ kp st extra,
      gmtmex_get_key_pos (parser_keys keys) head = some kp ∧
      parser_add_defaults encode kp
        (parser_start (parser_keys keys) head unique_ID kp.PS) = some st ∧
      st.head = head ++ extra ∧
      (∀ o, o ∈ extra → ∃ u : Nat, o.arg = (encode (to_int u)).2) ∧
      st.lr_pos_in = (if 0 ≤ kp.def_in then 1 else 0) ∧
      st.lr_pos_out = (if 0 ≤ kp.def_out then 1 else 0) ∧
      (∀ i : Nat, head.length ≤ i → r.state.head[i]? = st.head[i]?) ∧
      r.state.unique_ID = (st.unique_ID + head.countP has_placeholder) % 2 ^ 32 ∧
      r.state.lr_pos_in + r.state.lr_pos_out =
        st.lr_pos_in + st.lr_pos_out + (head.countP has_placeholder : Nat) := by
  obtain ⟨kp, st, hkp, hst, hloop, _⟩ :=
    GMTMEX_parser_run_inv encode keys head unique_ID r hrun
  obtain ⟨extra, hext, hwf⟩ := parser_add_defaults_extra encode kp _ st hst
  have hhead : st.head = head ++ extra := hext
  have hcount : st.head.countP has_placeholder = head.countP has_placeholder := by
    rw [hhead]
    exact countP_placeholder_extra encode henc head extra hwf
  have htail : ∀ (i : Nat) (o : GMT_OPTION), head.length ≤ i → st.head[i]? = some o →
      gmtmex_get_arg_pos o.arg = -1 := by
    intro i o hi ho
    rw [hhead, List.getElem?_append_right hi] at ho
    obtain ⟨u, hu⟩ := hwf o (List.getElem?_mem ho)
    rw [hu]
    exact henc _
  have hst0 := hst
  unfold parser_add_defaults at hst
  split at hst
  · exact absurd hst (by simp)
  · rename_i st1 h1
    obtain ⟨hu1, _, hin1, hout1⟩ := parser_add_default_counters encode _ _ _ st1 h1
    obtain ⟨hu2, _, hin2, hout2⟩ := parser_add_default_counters encode _ _ st1 st hst
    have hu0 : (parser_start (parser_keys keys) head unique_ID kp.PS).unique_ID = unique_ID :=
      rfl
    have hl0 : (parser_start (parser_keys keys) head unique_ID kp.PS).lr_pos_in = 0 := rfl
    have hl1 : (parser_start (parser_keys keys) head unique_ID kp.PS).lr_pos_out = 0 := rfl
    rw [hu0] at hu1
    rw [hl0] at hin1
    rw [hl1] at hout1
    have h1lt : st1.unique_ID < 2 ^ 32 := by
      rw [hu1]
      split
      · exact Nat.mod_lt _ (by norm_num)
      · exact huid
    have h2lt : st.unique_ID < 2 ^ 32 := by
      rw [hu2]
      split
      · exact Nat.mod_lt _ (by norm_num)
      · exact h1lt
    have hfin := parser_bind_loop_unique_ID encode st.head.length 0 st r.state hloop
      (by omega) h2lt
    have hcur := parser_bind_loop_cursors encode st.head.length 0 st r.state hloop (by omega)
    rw [List.drop_zero, hcount] at hfin hcur
    refine ⟨kp, st, extra, hkp, hst0, hhead, hwf, ?_, ?_,
      parser_bind_loop_tail_kept encode head.length st.head.length 0 st r.state hloop htail,
      hfin, hcur⟩
    · rw [hin2, hin1]
      simp
    · rw [hout2, hout1]
      simp

/-- Witness for C27: in the run with the key table `<GI,GGO,LDi` and the options
`-Fg200k -L$` the two default nodes come last and keep their identifiers 5 and 6. -/
theorem GMTMEX_parser_default_node_kept_witness :
    GMTMEX_parser_run sample_encode (some "<GI,GGO,LDi".toList)
        [node 'F' "g200k", node 'L' "$"] 5 = some two_defaults_result ∧
    (∀ ID, gmtmex_get_arg_pos (sample_encode ID).2 = -1) ∧
    5 < 2 ^ 32 ∧
    ∃ kp st extra,
      gmtmex_get_key_pos (parser_keys (some "<GI,GGO,LDi".toList))
        [node 'F' "g200k", node 'L' "$"] = some kp ∧
      parser_add_defaults sample_encode kp
        (parser_start (parser_keys (some "<GI,GGO,LDi".toList))
          [node 'F' "g200k", node 'L' "$"] 5 kp.PS) = some st ∧
      st.head = [node 'F' "g200k", node 'L' "$"] ++ extra ∧
      (∀ o, o ∈ extra → ∃ u : Nat, o.arg = (sample_encode (to_int u)).2) ∧
      st.lr_pos_in = (if 0 ≤ kp.def_in then 1 else 0) ∧
      st.lr_pos_out = (if 0 ≤ kp.def_out then 1 else 0) ∧
      (∀ i : Nat, [node 'F' "g200k", node 'L' "$"].length ≤ i →
        two_defaults_result.state.head[i]? = st.head[i]?) ∧
      two_defaults_result.state.unique_ID =
        (st.unique_ID + [node 'F' "g200k", node 'L' "$"].countP has_placeholder) % 2 ^ 32 ∧
      two_defaults_result.state.lr_pos_in + two_defaults_result.state.lr_pos_out =
        st.lr_pos_in + st.lr_pos_out +
          ([node 'F' "g200k", node 'L' "$"].countP has_placeholder : Nat) :=
  ⟨by decide, sample_encode_no_placeholder, by norm_num,
   GMTMEX_parser_default_node_kept sample_encode (some "<GI,GGO,LDi".toList)
     [node 'F' "g200k", node 'L' "$"] 5 two_defaults_result (by decide)
     sample_encode_no_placeholder (by norm_num)⟩

/-! ## Theorems: the input cursor of a module without input -/

theorem input_governed_cons (s : CString) (rest : List CString) (flag : Char) :
    input_governed (s :: rest) flag =
      if cfirst s = flag then decide (s[2]? = some 'I' ∨ s[2]? = some 'i')
      else input_governed rest flag := by
  unfold input_governed matching
  by_cases h : cfirst s = flag
  · simp [List.find?_cons, h]
  · simp [List.find?_cons, h]

/-- Key tables with the same flags and direction classes govern every flag alike. -/
theorem input_governed_of_key_roles (flag : Char) :
    ∀ (k1 k2 : List CString), key_roles k1 = key_roles k2 →
      input_governed k1 flag = input_governed k2 flag := by
  intro k1
  induction k1 with
  | nil =>
    intro k2 h
    cases k2 with
    | nil => rfl
    | cons t rest => simp [key_roles] at h
  | cons s rest ih =>
    intro k2 h
    cases k2 with
    | nil => simp [key_roles] at h
    | cons t rest2 =>
      simp only [key_roles, List.map_cons, List.cons.injEq, Prod.mk.injEq] at h
      obtain ⟨⟨hf, hb⟩, hrest⟩ := h
      rw [input_governed_cons, input_governed_cons, hf, hb, ih rest2 hrest]

/-- Classifying a flag returns the input direction exactly when the matching descriptor has
an input role, and keeps the flags and direction classes of the key table. -/
theorem gmtmex_get_arg_dir_roles (option : Char) (key : List CString)
    (dt : Option GMT_family) (g : Option GMT_geometry) (a : ArgDir)
    (h : gmtmex_get_arg_dir option key dt g = some a) :
    (a.direction = GMT_io_enum.GMT_IN ↔ input_governed key option = true) ∧
    key_roles a.key = key_roles key := by
  obtain ⟨k, s, c, r, hfind, hget, _, hr, ha⟩ := gmtmex_get_arg_dir_inv option key dt g a h
  have hI := cget_two_eq_iff s r 'I' hr (by decide)
  have hi := cget_two_eq_iff s r 'i' hr (by decide)
  have hO := cget_two_eq_iff s r 'O' hr (by decide)
  have hmatch : matching key option = some s := by
    rcases find_option_loop_spec option key 0 with ⟨hres, _, _⟩ | ⟨j, t, hres, hgetj, hm, _, _⟩
    · have hf : gmtmex_find_option option key = -1 := hres
      rw [hf] at hfind
      omega
    · have hf : gmtmex_find_option option key = (j : Int) := by
        simpa [gmtmex_find_option] using hres
      rw [hf] at hfind
      have hjk : j = k := by exact_mod_cast hfind
      subst hjk
      rw [hgetj] at hget
      have hts : t = s := by simpa using hget
      rw [← hts]
      exact hm
  subst ha
  constructor
  · simp only [input_governed, hmatch, hI, hi]
    by_cases hrole : s[2]? = some 'I' ∨ s[2]? = some 'i'
    · simp [hrole]
    · simp [hrole]
  · dsimp only
    unfold key_roles
    rw [List.map_set]
    apply list_set_same
    rw [List.getElem?_map, hget]
    simp only [Option.map_some', Option.some.injEq, Prod.mk.injEq]
    by_cases h1 : r = 'I'
    · have hs := hI.mp h1
      have h2 : 2 < s.length := (List.getElem?_eq_some.mp hs).1
      rw [if_pos h1]
      refine ⟨(cfirst_set_two s 'i').symm, ?_⟩
      rw [List.getElem?_set_self h2, hs]
      decide
    · rw [if_neg h1]
      by_cases h2 : r = 'O'
      · have hs := hO.mp h2
        have h3 : 2 < s.length := (List.getElem?_eq_some.mp hs).1
        rw [if_pos h2]
        refine ⟨(cfirst_set_two s 'o').symm, ?_⟩
        rw [List.getElem?_set_self h3, hs]
        decide
      · rw [if_neg h2]
        exact ⟨rfl, rfl⟩

/-- One round of the default synthesis keeps the flags and direction classes of the key
table. -/
theorem parser_add_default_key_roles (encode : Int → Int × CString) (dir : GMT_io_enum)
    (d : Int) (st st1 : ParserState) (h : parser_add_default encode dir d st = some st1) :
    key_roles st1.key = key_roles st.key := by
  unfold parser_add_default at h
  split at h
  · simp only [Option.some.injEq] at h
    rw [← h]
  · split at h
    · simp only [Option.some.injEq] at h
      rw [← h]
    · split at h
      · exact absurd h (by simp)
      · split at h
        · exact absurd h (by simp)
        · split at h
          · exact absurd h (by simp)
          · rename_i a ha
            split at h
            · exact absurd h (by simp)
            · simp only [Option.some.injEq] at h
              subst h
              simp only [advance_lr_pos_key]
              exact (gmtmex_get_arg_dir_roles _ _ _ _ a ha).2

theorem gmtmex_get_key_pos_inv (key : List CString) (head : List GMT_OPTION) (kp : KeyPos)
    (h : gmtmex_get_key_pos key head = some kp) :
    ∃ d : Int × Int, key_pos_keys key 0 { def_in := d.1, def_out := d.2, PS := 0 } = some kp := by
  unfold gmtmex_get_key_pos at h
  split at h
  · exact absurd h (by simp)
  · rename_i d _
    exact ⟨d, h⟩

/-- When no node still to visit that holds an unmuted `$` has a flag governed by an input
descriptor, the binding loop leaves the input cursor as it is. -/
theorem parser_bind_loop_no_input (encode : Int → Int × CString) (key0 : List CString)
    (fuel : Nat) :
    ∀ (j : Nat) (st st1 : ParserState), parser_bind_loop encode fuel j st = some st1 →
      key_roles st.key = key_roles key0 →
      (∀ (i : Nat) (o : GMT_OPTION), j ≤ i → st.head[i]? = some o →
        gmtmex_get_arg_pos o.arg ≠ -1 → input_governed key0 o.option = false) →
      st1.lr_pos_in = st.lr_pos_in := by
  induction fuel with
  | zero =>
    intro j st st1 h _ _
    simp only [parser_bind_loop, Option.some.injEq] at h
    subst h
    rfl
  | succ fuel ih =>
    intro j st st1 h hroles hnodes
    unfold parser_bind_loop at h
    split at h
    · simp only [Option.some.injEq] at h
      subst h
      rfl
    · rename_i opt hget
      split at h
      · exact absurd h (by simp)
      · rename_i st2 hnode
        have hdrop := parser_bind_node_drop encode opt st st2 j hnode hget
        have hnodes2 : ∀ (i : Nat) (o : GMT_OPTION), j + 1 ≤ i → st2.head[i]? = some o →
            gmtmex_get_arg_pos o.arg ≠ -1 → input_governed key0 o.option = false := by
          intro i o hi ho
          rw [getElem?_of_drop_eq _ _ j i hdrop (by omega)] at ho
          exact hnodes i o (by omega) ho
        by_cases hpos : gmtmex_get_arg_pos opt.arg = -1
        · obtain ⟨hkey, _, _, hin, _⟩ := parser_bind_node_skip encode opt st st2 hnode hpos
          rw [ih (j + 1) st2 st1 h (by rw [hkey]; exact hroles) hnodes2, hin]
        · obtain ⟨a, ha, hkey, _, _, hin, _⟩ :=
            parser_bind_node_bound encode opt st st2 hnode hpos
          obtain ⟨hdir, hr2⟩ := gmtmex_get_arg_dir_roles _ _ _ _ a ha
          have hgov : input_governed st.key opt.option = false := by
            rw [input_governed_of_key_roles opt.option st.key key0 hroles]
            exact hnodes j opt (le_refl j) hget hpos
          have hnot : ¬ a.direction = GMT_io_enum.GMT_IN := by
            intro hd
            rw [hdir.mp hd] at hgov
            exact absurd hgov (by decide)
          rw [ih (j + 1) st2 st1 h (by rw [hkey, hr2]; exact hroles) hnodes2, hin, if_neg hnot]

/-- Counterexample to C21: the key table `-DI,LGi,-XO` disallows input, and the option list
`-L$ >x.ps` has a `$` on the flag `L`, governed by the optional-input descriptor `LGi`; the
completed run has bound the `L` node as input and returns with the input cursor at 1. -/
theorem GMTMEX_parser_consumes_input_handle :
    DisallowedIn ["-DI".toList, "LGi".toList, "-XO".toList] ∧
    (gmtmex_get_key_pos (parser_keys (some "-DI,LGi,-XO".toList))
        [node 'L' "$", node '>' "x.ps"]).map (fun kp => kp.def_in) = some GMT_MEX_NONE ∧
    (GMTMEX_parser_run sample_encode (some "-DI,LGi,-XO".toList)
        [node 'L' "$", node '>' "x.ps"] 0).map (fun r => (r.error, r.state.lr_pos_in)) =
      some (0, 1) := by
  refine ⟨by decide, by decide, by decide⟩

/-- C21 (as amended). For every key table with a disallowing descriptor for input, every
option list in which no node that holds an unmuted `$` has a flag whose matching descriptor
has an input role (`I` or `i`), and every encoder whose names hold no unmuted `$`: in a
completed run of `GMTMEX_parser`, `def[GMT_IN]` is `GMT_MEX_NONE`, the default synthesis
leaves the input cursor at 0, and the input cursor is still 0 on return. -/
theorem GMTMEX_parser_input_cursor (encode : Int → Int × CString) (keys : Option CString)
    (head : List GMT_OPTION) (unique_ID : Nat) (r : ParserResult)
    (hrun : GMTMEX_parser_run encode keys head unique_ID = some r)
    (henc : ∀ ID, gmtmex_get_arg_pos (encode ID).2 = -1)
    (hdis : DisallowedIn (parser_keys keys))
    (hnodes : ∀ o, o ∈ head → gmtmex_get_arg_pos o.arg ≠ -1 →
      input_governed (parser_keys keys) o.option = false) :
    ∃ kp st,
      gmtmex_get_key_pos (parser_keys keys) head = some kp ∧
      kp.def_in = GMT_MEX_NONE ∧
      parser_add_defaults encode kp
        (parser_start (parser_keys keys) head unique_ID kp.PS) = some st ∧
      st.lr_pos_in = 0 ∧ r.state.lr_pos_in = 0 := by
  obtain ⟨kp, st, hkp, hst, hloop, _⟩ :=
    GMTMEX_parser_run_inv encode keys head unique_ID r hrun
  obtain ⟨d, hd⟩ := gmtmex_get_key_pos_inv _ _ kp hkp
  have hnone : kp.def_in = GMT_MEX_NONE :=
    key_pos_keys_in_none (parser_keys keys) 0 _ kp hd (Or.inl hdis)
  obtain ⟨extra, hext, hwf⟩ := parser_add_defaults_extra encode kp _ st hst
  have hhead : st.head = head ++ extra := hext
  have hst0 := hst
  unfold parser_add_defaults at hst
  split at hst
  · exact absurd hst (by simp)
  · rename_i st1 h1
    obtain ⟨_, _, hin1, _⟩ := parser_add_default_counters encode _ _ _ st1 h1
    obtain ⟨_, _, hin2, _⟩ := parser_add_default_counters encode _ _ st1 st hst
    have hr1 := parser_add_default_key_roles encode _ _ _ st1 h1
    have hr2 := parser_add_default_key_roles encode _ _ st1 st hst
    have hl0 : (parser_start (parser_keys keys) head unique_ID kp.PS).lr_pos_in = 0 := rfl
    have hk0 : (parser_start (parser_keys keys) head unique_ID kp.PS).key = parser_keys keys :=
      rfl
    have hneg : ¬ (0 ≤ kp.def_in) := by
      rw [hnone]
      decide
    have hst_in : st.lr_pos_in = 0 := by
      rw [hin2, hin1, hl0]
      simp [hneg]
    have hroles : key_roles st.key = key_roles (parser_keys keys) := by
      rw [hr2, hr1, hk0]
    have hall : ∀ (i : Nat) (o : GMT_OPTION), 0 ≤ i → st.head[i]? = some o →
        gmtmex_get_arg_pos o.arg ≠ -1 → input_governed (parser_keys keys) o.option = false := by
      intro i o _ ho hpos
      have hmem : o ∈ head ++ extra := by
        rw [← hhead]
        exact List.getElem?_mem ho
      rcases List.mem_append.mp hmem with h3 | h3
      · exact hnodes o h3 hpos
      · obtain ⟨u, hu⟩ := hwf o h3
        rw [hu] at hpos
        exact absurd (henc _) hpos
    have hfin := parser_bind_loop_no_input encode (parser_keys keys) st.head.length 0 st
      r.state hloop hroles hall
    exact ⟨kp, st, hkp, hnone, hst0, hst_in, by rw [hfin, hst_in]⟩

/-- Witness for C21 (as amended): the key table `-DI,LGo,-XO` with the options
`-L$ >x.ps`, whose `$` sits on a flag governed by the output descriptor `LGo`. -/
theorem GMTMEX_parser_input_cursor_witness :
    GMTMEX_parser_run sample_encode (some "-DI,LGo,-XO".toList)
        [node 'L' "$", node '>' "x.ps"] 0 =
      some { error := 0,
             state := { key := ["-DI".toList, "LGo".toList, "-XO".toList],
                        head := [node 'L' "@GMTAPI@-000000", node '>' "x.ps"],
                        unique_ID := 1, lr_pos_in := 0, lr_pos_out := 1,
                        data_type := some GMT_family.GMT_IS_GRID,
                        geometry := some GMT_geometry.GMT_IS_SURFACE, PS := 2 } } ∧
    (∀ ID, gmtmex_get_arg_pos (sample_encode ID).2 = -1) ∧
    DisallowedIn (parser_keys (some "-DI,LGo,-XO".toList)) ∧
    (∀ o, o ∈ [node 'L' "$", node '>' "x.ps"] → gmtmex_get_arg_pos o.arg ≠ -1 →
      input_governed (parser_keys (some "-DI,LGo,-XO".toList)) o.option = false) ∧
    ∃ kp st,
      gmtmex_get_key_pos (parser_keys (some "-DI,LGo,-XO".toList))
        [node 'L' "$", node '>' "x.ps"] = some kp ∧
      kp.def_in = GMT_MEX_NONE ∧
      parser_add_defaults sample_encode kp
        (parser_start (parser_keys (some "-DI,LGo,-XO".toList))
          [node 'L' "$", node '>' "x.ps"] 0 kp.PS) = some st ∧
      st.lr_pos_in = 0 ∧ (0 : Int) = 0 :=
  ⟨by decide, sample_encode_no_placeholder, by decide, by decide,
   GMTMEX_parser_input_cursor sample_encode (some "-DI,LGo,-XO".toList)
     [node 'L' "$", node '>' "x.ps"] 0
     { error := 0,
       state := { key := ["-DI".toList, "LGo".toList, "-XO".toList],
                  head := [node 'L' "@GMTAPI@-000000", node '>' "x.ps"],
                  unique_ID := 1, lr_pos_in := 0, lr_pos_out := 1,
                  data_type := some GMT_family.GMT_IS_GRID,
                  geometry := some GMT_geometry.GMT_IS_SURFACE, PS := 2 } }
     (by decide) sample_encode_no_placeholder (by decide) (by decide)⟩

/-! ## Theorems: substitution of the identifier for the marker -/

/-- The scan finds no unmuted `$` exactly when the text holds none. -/
theorem get_arg_pos_loop_eq_neg_one_iff (s : CString) :
    ∀ (k : Nat) (m : Bool), get_arg_pos_loop s k m = -1 ↔ placeholder_count_loop s m = 0 := by
  induction s with
  | nil =>
    intro k m
    simp [get_arg_pos_loop, placeholder_count_loop]
  | cons c rest ih =>
    intro k m
    by_cases hfound : (if c = DQUOTE ∨ c = SQUOTE then !m else m) = false ∧ c = '$'
    · simp only [get_arg_pos_loop, placeholder_count_loop]
      rw [if_pos hfound, if_pos hfound]
      constructor
      · intro h
        omega
      · intro h
        omega
    · simp only [get_arg_pos_loop, placeholder_count_loop]
      rw [if_neg hfound, if_neg hfound, Nat.zero_add]
      exact ih _ _

theorem gmtmex_get_arg_pos_eq_neg_one_iff (s : CString) :
    gmtmex_get_arg_pos s = -1 ↔ placeholder_count s = 0 :=
  get_arg_pos_loop_eq_neg_one_iff s 0 false

/-- A text without `$` in front of another adds no unmuted `$`; it toggles the quote state
once for each of its quote characters. -/
theorem placeholder_count_loop_name (name rest : CString) :
    '$' ∉ name → ∀ m : Bool,
      placeholder_count_loop (name ++ rest) m =
        placeholder_count_loop rest (decide ((quoteCount name + m.toNat) % 2 = 1)) := by
  induction name with
  | nil =>
    intro _ m
    cases m <;> simp [quoteCount]
  | cons c name ih =>
    intro h m
    have hc : ¬ c = '$' := fun e => h (by simp [e])
    have h2 : '$' ∉ name := fun e => h (List.mem_cons_of_mem c e)
    simp only [List.cons_append, placeholder_count_loop, hc, and_false, if_false,
      Nat.zero_add]
    refine (ih h2 (if c = DQUOTE ∨ c = SQUOTE then !m else m)).trans ?_
    congr 1
    by_cases hq : c = DQUOTE ∨ c = SQUOTE
    · cases m
      · simp only [quoteCount, List.countP_cons, hq, if_true, decide_True, Bool.not_false,
          Bool.toNat_true, Bool.toNat_false]
      · simp only [quoteCount, List.countP_cons, hq, if_true, decide_True, Bool.not_true,
          Bool.toNat_true, Bool.toNat_false]
        congr 1
        apply propext
        constructor <;> intro hx <;> omega
    · simp only [quoteCount, List.countP_cons, hq, if_false, decide_False, Nat.add_zero]
      simp

/-- A plain name in front of a text adds no unmuted `$` and leaves the quote toggle. -/
theorem placeholder_count_loop_plain (name : CString) (rest : CString) (hp : PlainName name) :
    placeholder_count_loop (name ++ rest) false = placeholder_count_loop rest false := by
  obtain ⟨h1, h2⟩ := hp
  rw [placeholder_count_loop_name name rest h1 false]
  congr 1
  simp only [Bool.toNat_false, Nat.add_zero, h2]
  decide

/-- Substituting a plain name for the unmuted `$` found at offset `j` takes one unmuted `$`
away. -/
theorem placeholder_count_loop_substitute (name : CString) (hp : PlainName name)
    (s : CString) :
    ∀ (k : Nat) (m : Bool) (j : Nat), get_arg_pos_loop s k m = ((k + j : Nat) : Int) →
      placeholder_count_loop (s.take j ++ name ++ s.drop (j + 1)) m + 1 =
        placeholder_count_loop s m := by
  induction s with
  | nil =>
    intro k m j h
    simp only [get_arg_pos_loop] at h
    omega
  | cons c rest ih =>
    intro k m j h
    by_cases hfound : (if c = DQUOTE ∨ c = SQUOTE then !m else m) = false ∧ c = '$'
    · simp only [get_arg_pos_loop] at h
      rw [if_pos hfound] at h
      have hj : j = 0 := by omega
      subst hj
      obtain ⟨hm, hc⟩ := hfound
      subst hc
      simp only [dollar_ne_quotes, if_false] at hm
      subst hm
      simp only [List.take_zero, List.nil_append, List.drop_succ_cons, List.drop_zero]
      rw [placeholder_count_loop_plain name rest hp]
      simp only [placeholder_count_loop, dollar_ne_quotes, if_false, and_self, if_true]
      omega
    · simp only [get_arg_pos_loop] at h
      rw [if_neg hfound] at h
      rcases get_arg_pos_loop_spec rest (k + 1)
          (if c = DQUOTE ∨ c = SQUOTE then !m else m) with ⟨hres, _⟩ | ⟨j1, hres, _, _⟩
      · rw [hres] at h
        omega
      · rw [hres] at h
        have hj : j = j1 + 1 := by omega
        subst hj
        have hih := ih (k + 1) (if c = DQUOTE ∨ c = SQUOTE then !m else m) j1 hres
        simp only [List.take_succ_cons, List.drop_succ_cons, List.cons_append,
          placeholder_count_loop]
        rw [if_neg hfound]
        simp only [Nat.zero_add]
        exact hih

/-- The position returned by `gmtmex_get_arg_pos`, when it is not -1, is an offset. -/
theorem gmtmex_get_arg_pos_offset (s : CString) (h : gmtmex_get_arg_pos s ≠ -1) :
    gmtmex_get_arg_pos s = (((gmtmex_get_arg_pos s).toNat : Nat) : Int) := by
  rcases get_arg_pos_loop_spec s 0 false with ⟨hres, _⟩ | ⟨j, hres, _, _⟩
  · exact absurd hres h
  · unfold gmtmex_get_arg_pos
    rw [hres]
    simp

/-- Substituting a plain name for the marker of an argument takes one unmuted `$` away. -/
theorem placeholder_count_substitute (arg name : CString) (hp : PlainName name)
    (h : gmtmex_get_arg_pos arg ≠ -1) :
    placeholder_count (substitute_marker arg name) + 1 = placeholder_count arg := by
  have hoff := gmtmex_get_arg_pos_offset arg h
  unfold placeholder_count substitute_marker
  apply placeholder_count_loop_substitute name hp arg 0 false
  rw [Nat.zero_add]
  exact hoff

/-- After the substitution of a plain name in an argument with one unmuted `$`, the scan
finds no unmuted `$`. -/
theorem substitute_marker_no_placeholder (arg name : CString) (hp : PlainName name)
    (h : gmtmex_get_arg_pos arg ≠ -1) (hone : placeholder_count arg ≤ 1) :
    gmtmex_get_arg_pos (substitute_marker arg name) = -1 := by
  rw [gmtmex_get_arg_pos_eq_neg_one_iff]
  have := placeholder_count_substitute arg name hp h
  omega

/-- The substitution at the marker keeps the text before and after it. -/
theorem substitute_marker_eq (pre suf name : CString)
    (h : gmtmex_get_arg_pos (pre ++ '$' :: suf) = (pre.length : Int)) :
    substitute_marker (pre ++ '$' :: suf) name = pre ++ name ++ suf := by
  unfold substitute_marker
  rw [h]
  simp

/-- The names written by the sample encoder are plain. -/
theorem sample_encode_plain (ID : Int) : PlainName (sample_encode ID).2 := by
  have hd : ∀ d : Nat, d < 10 → Char.ofNat (48 + d) ≠ '$' ∧ Char.ofNat (48 + d) ≠ DQUOTE ∧
      Char.ofNat (48 + d) ≠ SQUOTE := by
    intro d h
    interval_cases d <;> decide
  have hall : ∀ c ∈ (sample_encode ID).2, c ≠ '$' ∧ c ≠ DQUOTE ∧ c ≠ SQUOTE := by
    intro c hmem
    unfold sample_encode at hmem
    simp only [List.mem_append, List.mem_cons, List.mem_singleton] at hmem
    rcases hmem with h | h | h | h | h | h | h | h
    · revert c
      decide
    · rw [h]; exact hd _ (Nat.mod_lt _ (by norm_num))
    · rw [h]; exact hd _ (Nat.mod_lt _ (by norm_num))
    · rw [h]; exact hd _ (Nat.mod_lt _ (by norm_num))
    · rw [h]; exact hd _ (Nat.mod_lt _ (by norm_num))
    · rw [h]; exact hd _ (Nat.mod_lt _ (by norm_num))
    · rw [h]; exact hd _ (Nat.mod_lt _ (by norm_num))
    · simp at h
  refine ⟨fun e => (hall _ e).1 rfl, ?_⟩
  have hzero : quoteCount (sample_encode ID).2 = 0 := by
    unfold quoteCount
    rw [List.countP_eq_zero]
    intro c hc
    have := hall c hc
    simp [this.2.1, this.2.2]
  rw [hzero]

/-! ## Theorems: which node the binding loop rewrites -/

/-- A node whose argument holds no unmuted `$` is the same after any rounds of the binding
loop. -/
theorem parser_bind_loop_keeps_plain (encode : Int → Int × CString) (i : Nat)
    (n : GMT_OPTION) (hn : gmtmex_get_arg_pos n.arg = -1) (fuel : Nat) :
    ∀ (j : Nat) (st st1 : ParserState), parser_bind_loop encode fuel j st = some st1 →
      st.head[i]? = some n → st1.head[i]? = some n := by
  induction fuel with
  | zero =>
    intro j st st1 h hget
    simp only [parser_bind_loop, Option.some.injEq] at h
    subst h
    exact hget
  | succ fuel ih =>
    intro j st st1 h hget
    unfold parser_bind_loop at h
    split at h
    · simp only [Option.some.injEq] at h
      subst h
      exact hget
    · rename_i opt hgetj
      split at h
      · exact absurd h (by simp)
      · rename_i st2 hnode
        apply ih (j + 1) st2 st1 h
        rcases parser_bind_node_head encode opt st st2 hnode with ⟨_, hh, _⟩ | ⟨_, hh, _⟩
        · rw [hh]
          exact hget
        · rw [hh]
          exact update_option_getElem?_skip _ _ st.head i n hget hn

/-- One round of the binding loop at the `j`-th node, for the nodes whose flag is in `F`:
when each of them holds at most one unmuted `$` and those before the `j`-th hold none, the
same is true after the round, with the `j`-th node included. -/
theorem parser_bind_node_clears (encode : Int → Int × CString) (F : Char → Prop)
    (hplain : ∀ ID, PlainName (encode ID).2) (opt : GMT_OPTION) (st st1 : ParserState)
    (j : Nat) (h : parser_bind_node encode opt st = some st1)
    (hget : st.head[j]? = some opt)
    (hone : ∀ n, n ∈ st.head → F n.option → placeholder_count n.arg ≤ 1)
    (hinv : ∀ (k : Nat) (n : GMT_OPTION), k < j → st.head[k]? = some n → F n.option →
      gmtmex_get_arg_pos n.arg = -1) :
    (∀ n, n ∈ st1.head → F n.option → placeholder_count n.arg ≤ 1) ∧
    (∀ (k : Nat) (n : GMT_OPTION), k < j + 1 → st1.head[k]? = some n → F n.option →
      gmtmex_get_arg_pos n.arg = -1) := by
  rcases parser_bind_node_head encode opt st st1 h with ⟨hp, hh, _⟩ | ⟨hp, hh, _⟩
  · rw [hh]
    refine ⟨hone, ?_⟩
    intro k n hk hn hF
    rcases Nat.lt_or_eq_of_le (Nat.lt_succ_iff.mp hk) with hlt | heq
    · exact hinv k n hlt hn hF
    · subst heq
      rw [hget] at hn
      have : opt = n := by simpa using hn
      subst this
      exact hp
  · have hfl : flags st1.head = flags st.head := by
      rw [hh]
      exact flags_update_option _ _ _
    have hcases : ∀ (k : Nat) (n : GMT_OPTION), st1.head[k]? = some n →
        ∃ m, st.head[k]? = some m ∧ m.option = n.option ∧
          (n = m ∨ (gmtmex_get_arg_pos m.arg ≠ -1 ∧
            n.arg = substitute_marker m.arg (encode (to_int st.unique_ID)).2)) := by
      intro k n hn
      obtain ⟨m, hm, hmo⟩ := flags_eq_getElem? st1.head st.head hfl k n hn
      refine ⟨m, hm, hmo, ?_⟩
      rw [hh] at hn
      rcases update_option_getElem?_cases opt.option (encode (to_int st.unique_ID)).2
          st.head k m hm with h1 | ⟨_, h2, h3⟩
      · left
        rw [h1] at hn
        exact (Option.some.inj hn).symm
      · right
        rw [h3] at hn
        have hnm := Option.some.inj hn
        exact ⟨h2, by rw [← hnm]⟩
    constructor
    · intro n hmem hF
      obtain ⟨k, hk⟩ := List.mem_iff_getElem?.mp hmem
      obtain ⟨m, hm, hmo, hor⟩ := hcases k n hk
      have hmF : F m.option := by
        rw [hmo]
        exact hF
      have hm1 := hone m (List.getElem?_mem hm) hmF
      rcases hor with h1 | ⟨h2, h3⟩
      · rw [h1]
        exact hm1
      · have := placeholder_count_substitute m.arg (encode (to_int st.unique_ID)).2
          (hplain _) h2
        rw [h3]
        omega
    · intro k n hk hn hF
      obtain ⟨m, hm, hmo, hor⟩ := hcases k n hn
      have hmF : F m.option := by
        rw [hmo]
        exact hF
      rcases Nat.lt_or_eq_of_le (Nat.lt_succ_iff.mp hk) with hlt | heq
      · have hm0 := hinv k m hlt hm hmF
        rcases hor with h1 | ⟨h2, _⟩
        · rw [h1]
          exact hm0
        · exact absurd hm0 h2
      · subst heq
        rw [hget] at hm
        have : opt = m := by simpa using hm
        subst this
        have hset := update_option_eq_set opt.option (encode (to_int st.unique_ID)).2
          st.head k opt hget rfl hp
          (fun i m hi hmi hmo2 => hinv i m hi hmi (by rw [hmo2]; exact hmF))
        have hklt : k < st.head.length := (List.getElem?_eq_some.mp hget).1
        rw [hh, hset, List.getElem?_set_self hklt] at hn
        have hnv := Option.some.inj hn
        rw [← hnv]
        exact substitute_marker_no_placeholder opt.arg _ (hplain _) hp
          (hone opt (List.getElem?_mem hget) hmF)

/-- The binding loop, for the nodes whose flag is in `F`: when each of them holds at most
one unmuted `$`, none of them holds one when the loop has completed. -/
theorem parser_bind_loop_clears (encode : Int → Int × CString) (F : Char → Prop)
    (hplain : ∀ ID, PlainName (encode ID).2) (fuel : Nat) :
    ∀ (j : Nat) (st st1 : ParserState), parser_bind_loop encode fuel j st = some st1 →
      st.head.length ≤ j + fuel →
      (∀ n, n ∈ st.head → F n.option → placeholder_count n.arg ≤ 1) →
      (∀ (k : Nat) (n : GMT_OPTION), k < j → st.head[k]? = some n → F n.option →
        gmtmex_get_arg_pos n.arg = -1) →
      ∀ n, n ∈ st1.head → F n.option → gmtmex_get_arg_pos n.arg = -1 := by
  have done : ∀ (j : Nat) (st : ParserState), st.head.length ≤ j →
      (∀ (k : Nat) (n : GMT_OPTION), k < j → st.head[k]? = some n → F n.option →
        gmtmex_get_arg_pos n.arg = -1) →
      ∀ n, n ∈ st.head → F n.option → gmtmex_get_arg_pos n.arg = -1 := by
    intro j st hlen hinv n hmem hF
    obtain ⟨k, hk⟩ := List.mem_iff_getElem?.mp hmem
    have hklt : k < st.head.length := (List.getElem?_eq_some.mp hk).1
    exact hinv k n (by omega) hk hF
  induction fuel with
  | zero =>
    intro j st st1 h hlen _ hinv
    simp only [parser_bind_loop, Option.some.injEq] at h
    subst h
    exact done j st (by omega) hinv
  | succ fuel ih =>
    intro j st st1 h hlen hone hinv
    unfold parser_bind_loop at h
    split at h
    · rename_i hnone
      simp only [Option.some.injEq] at h
      subst h
      exact done j st (List.getElem?_eq_none_iff.mp hnone) hinv
    · rename_i opt hget
      split at h
      · exact absurd h (by simp)
      · rename_i st2 hnode
        obtain ⟨hone2, hinv2⟩ :=
          parser_bind_node_clears encode F hplain opt st st2 j hnode hget hone hinv
        have hfl := (parser_bind_node_flags_PS encode opt st st2 hnode).1
        have hlen2 := flags_eq_length st2.head st.head hfl
        exact ih (j + 1) st2 st1 h (by omega) hone2 hinv2

/-- The binding loop started at or before the `i`-th node, which holds an unmuted `$`: when
the nodes with the flag of this node hold at most one unmuted `$` each, and those before
the current node hold none, the loop leaves the `i`-th node with an identifier that it
issued substituted for its marker. -/
theorem parser_bind_loop_substitutes (encode : Int → Int × CString)
    (hplain : ∀ ID, PlainName (encode ID).2) (i : Nat) (opt : GMT_OPTION)
    (hpos : gmtmex_get_arg_pos opt.arg ≠ -1) (fuel : Nat) :
    ∀ (j : Nat) (st st1 : ParserState), parser_bind_loop encode fuel j st = some st1 →
      j ≤ i → st.head.length ≤ j + fuel → st.head[i]? = some opt →
      (∀ n, n ∈ st.head → n.option = opt.option → placeholder_count n.arg ≤ 1) →
      (∀ (k : Nat) (n : GMT_OPTION), k < j → st.head[k]? = some n → n.option = opt.option →
        gmtmex_get_arg_pos n.arg = -1) →
      ∃ u : Nat, u ∈ bind_issued encode fuel j st ∧
        st1.head[i]? = some { option := opt.option,
                              arg := substitute_marker opt.arg (encode (to_int u)).2 } := by
  induction fuel with
  | zero =>
    intro j st st1 _ hj hlen hget _ _
    have := (List.getElem?_eq_some.mp hget).1
    omega
  | succ fuel ih =>
    intro j st st1 h hj hlen hget hone hinv
    have hi : i < st.head.length := (List.getElem?_eq_some.mp hget).1
    unfold parser_bind_loop at h
    split at h
    · rename_i hnone
      have := List.getElem?_eq_none_iff.mp hnone
      omega
    · rename_i o hgetj
      split at h
      · exact absurd h (by simp)
      · rename_i st2 hnode
        obtain ⟨hone2, hinv2⟩ := parser_bind_node_clears encode (fun c => c = opt.option)
          hplain o st st2 j hnode hgetj hone hinv
        have hfl := (parser_bind_node_flags_PS encode o st st2 hnode).1
        have hlen2 := flags_eq_length st2.head st.head hfl
        have hiss : bind_issued encode (fuel + 1) j st =
            (if gmtmex_get_arg_pos o.arg = -1 then [] else [st.unique_ID]) ++
              bind_issued encode fuel (j + 1) st2 := by
          simp only [bind_issued, hgetj, hnode]
        rcases Nat.lt_or_eq_of_le hj with hlt | heq
        · have hget2 : st2.head[i]? = some opt := by
            rcases parser_bind_node_head encode o st st2 hnode with ⟨_, hh, _⟩ | ⟨hp, hh, _⟩
            · rw [hh]
              exact hget
            · rw [hh]
              by_cases hflag : o.option = opt.option
              · have hset := update_option_eq_set o.option (encode (to_int st.unique_ID)).2
                  st.head j o hgetj rfl hp
                  (fun k m hk hm hmo => hinv k m hk hm (by rw [hmo, hflag]))
                rw [hset, List.getElem?_set_ne (by omega)]
                exact hget
              · exact update_option_getElem?_ne _ _ st.head i opt hget
                  (fun e => hflag e.symm)
          obtain ⟨u, hu, hres⟩ := ih (j + 1) st2 st1 h (by omega) (by omega) hget2
            (fun n hn => hone2 n hn) (fun k n hk hn => hinv2 k n hk hn)
          exact ⟨u, by rw [hiss]; exact List.mem_append_right _ hu, hres⟩
        · subst heq
          have ho : o = opt := by
            rw [hgetj] at hget
            simpa using hget
          subst ho
          rcases parser_bind_node_head encode o st st2 hnode with ⟨h1, _, _⟩ | ⟨hp, hh, _⟩
          · exact absurd h1 hpos
          · have hset := update_option_eq_set o.option (encode (to_int st.unique_ID)).2
              st.head j o hgetj rfl hp (fun k m hk hm hmo => hinv k m hk hm hmo)
            have hnew : st2.head[j]? =
                some { option := o.option,
                       arg := substitute_marker o.arg (encode (to_int st.unique_ID)).2 } := by
              rw [hh, hset, List.getElem?_set_self hi]
            refine ⟨st.unique_ID, ?_, ?_⟩
            · rw [hiss, if_neg hpos]
              simp
            · exact parser_bind_loop_keeps_plain encode j _
                (substitute_marker_no_placeholder o.arg _ (hplain _) hp
                  (hone o (List.getElem?_mem hgetj) rfl))
                fuel (j + 1) st2 st1 h hnew

/-- One round of the binding loop keeps this: apart from the `i`-th node, no node with the
flag `c` holds an unmuted `$`. -/
theorem parser_bind_node_alone (encode : Int → Int × CString) (c : Char) (i : Nat)
    (opt : GMT_OPTION) (st st1 : ParserState)
    (h : parser_bind_node encode opt st = some st1)
    (hinv : ∀ (k : Nat) (m : GMT_OPTION), st.head[k]? = some m → k ≠ i → m.option = c →
      gmtmex_get_arg_pos m.arg = -1) :
    ∀ (k : Nat) (m : GMT_OPTION), st1.head[k]? = some m → k ≠ i → m.option = c →
      gmtmex_get_arg_pos m.arg = -1 := by
  rcases parser_bind_node_head encode opt st st1 h with ⟨_, hh, _⟩ | ⟨_, hh, _⟩
  · rw [hh]
    exact hinv
  · intro k m hm hk hc
    have hfl : flags st1.head = flags st.head := by
      rw [hh]
      exact flags_update_option _ _ _
    obtain ⟨m0, hm0, hmo⟩ := flags_eq_getElem? st1.head st.head hfl k m hm
    have hplain0 := hinv k m0 hm0 hk (by rw [hmo]; exact hc)
    have := update_option_getElem?_skip opt.option (encode (to_int st.unique_ID)).2
      st.head k m0 hm0 hplain0
    rw [hh, this] at hm
    have hmm : m0 = m := Option.some.inj hm
    rw [← hmm]
    exact hplain0

/-- The binding loop past the `i`-th node leaves this node as it is when no other node with
its flag holds an unmuted `$`. -/
theorem parser_bind_loop_keeps_alone (encode : Int → Int × CString) (i : Nat)
    (n : GMT_OPTION) (fuel : Nat) :
    ∀ (j : Nat) (st st1 : ParserState), parser_bind_loop encode fuel j st = some st1 →
      i < j → st.head[i]? = some n →
      (∀ (k : Nat) (m : GMT_OPTION), st.head[k]? = some m → k ≠ i → m.option = n.option →
        gmtmex_get_arg_pos m.arg = -1) →
      st1.head[i]? = some n := by
  induction fuel with
  | zero =>
    intro j st st1 h _ hget _
    simp only [parser_bind_loop, Option.some.injEq] at h
    subst h
    exact hget
  | succ fuel ih =>
    intro j st st1 h hj hget hinv
    unfold parser_bind_loop at h
    split at h
    · simp only [Option.some.injEq] at h
      subst h
      exact hget
    · rename_i o hgetj
      split at h
      · exact absurd h (by simp)
      · rename_i st2 hnode
        have hinv2 := parser_bind_node_alone encode n.option i o st st2 hnode hinv
        apply ih (j + 1) st2 st1 h (by omega) ?_ hinv2
        rcases parser_bind_node_head encode o st st2 hnode with ⟨_, hh, _⟩ | ⟨hp, hh, _⟩
        · rw [hh]
          exact hget
        · rw [hh]
          apply update_option_getElem?_ne _ _ st.head i n hget
          intro e
          exact hp (hinv j o hgetj (by omega) e.symm)

/-- The binding loop started at or before the `i`-th node, which holds an unmuted `$`: when
no other node with the flag of this node holds an unmuted `$`, the loop leaves the `i`-th
node with an identifier that it issued substituted for its first marker. -/
theorem parser_bind_loop_substitutes_alone (encode : Int → Int × CString) (i : Nat)
    (opt : GMT_OPTION) (hpos : gmtmex_get_arg_pos opt.arg ≠ -1) (fuel : Nat) :
    ∀ (j : Nat) (st st1 : ParserState), parser_bind_loop encode fuel j st = some st1 →
      j ≤ i → st.head.length ≤ j + fuel → st.head[i]? = some opt →
      (∀ (k : Nat) (m : GMT_OPTION), st.head[k]? = some m → k ≠ i → m.option = opt.option →
        gmtmex_get_arg_pos m.arg = -1) →
      ∃ u : Nat, u ∈ bind_issued encode fuel j st ∧
        st1.head[i]? = some { option := opt.option,
                              arg := substitute_marker opt.arg (encode (to_int u)).2 } := by
  induction fuel with
  | zero =>
    intro j st st1 _ hj hlen hget _
    have := (List.getElem?_eq_some.mp hget).1
    omega
  | succ fuel ih =>
    intro j st st1 h hj hlen hget hinv
    have hi : i < st.head.length := (List.getElem?_eq_some.mp hget).1
    unfold parser_bind_loop at h
    split at h
    · rename_i hnone
      have := List.getElem?_eq_none_iff.mp hnone
      omega
    · rename_i o hgetj
      split at h
      · exact absurd h (by simp)
      · rename_i st2 hnode
        have hinv2 := parser_bind_node_alone encode opt.option i o st st2 hnode hinv
        have hfl := (parser_bind_node_flags_PS encode o st st2 hnode).1
        have hlen2 := flags_eq_length st2.head st.head hfl
        have hiss : bind_issued encode (fuel + 1) j st =
            (if gmtmex_get_arg_pos o.arg = -1 then [] else [st.unique_ID]) ++
              bind_issued encode fuel (j + 1) st2 := by
          simp only [bind_issued, hgetj, hnode]
        rcases Nat.lt_or_eq_of_le hj with hlt | heq
        · have hget2 : st2.head[i]? = some opt := by
            rcases parser_bind_node_head encode o st st2 hnode with ⟨_, hh, _⟩ | ⟨hp, hh, _⟩
            · rw [hh]
              exact hget
            · rw [hh]
              apply update_option_getElem?_ne _ _ st.head i opt hget
              intro e
              exact hp (hinv j o hgetj (by omega) e.symm)
          obtain ⟨u, hu, hres⟩ := ih (j + 1) st2 st1 h (by omega) (by omega) hget2 hinv2
          exact ⟨u, by rw [hiss]; exact List.mem_append_right _ hu, hres⟩
        · subst heq
          have ho : o = opt := by
            rw [hgetj] at hget
            simpa using hget
          subst ho
          rcases parser_bind_node_head encode o st st2 hnode with ⟨h1, _, _⟩ | ⟨hp, hh, _⟩
          · exact absurd h1 hpos
          · have hset := update_option_eq_set o.option (encode (to_int st.unique_ID)).2
              st.head j o hgetj rfl hp
              (fun k m hk hm hmo => hinv k m hm (by omega) hmo)
            have hnew : st2.head[j]? =
                some { option := o.option,
                       arg := substitute_marker o.arg (encode (to_int st.unique_ID)).2 } := by
              rw [hh, hset, List.getElem?_set_self hi]
            refine ⟨st.unique_ID, ?_, ?_⟩
            · rw [hiss, if_neg hpos]
              simp
            · exact parser_bind_loop_keeps_alone encode j _ fuel (j + 1) st2 st1 h
                (by omega) hnew hinv2

/-! ## Theorems: the rewriting of the option list by the binding pass -/

/-- The list after the default synthesis of a completed run: each node that carries a flag
in `F` holds at most one unmuted `$` when the original nodes do, the appended nodes holding
plain names. -/
theorem parser_add_defaults_single (encode : Int → Int × CString) (F : Char → Prop)
    (hplain : ∀ ID, PlainName (encode ID).2) (head extra : List GMT_OPTION)
    (hextra : ∀ o, o ∈ extra → ∃ u : Nat, o.arg = (encode (to_int u)).2)
    (hone : ∀ n, n ∈ head → F n.option → placeholder_count n.arg ≤ 1) :
    ∀ n, n ∈ head ++ extra → F n.option → placeholder_count n.arg ≤ 1 := by
  intro n hmem hF
  rcases List.mem_append.mp hmem with h1 | h1
  · exact hone n h1 hF
  · obtain ⟨u, hu⟩ := hextra n h1
    have h0 : placeholder_count n.arg = 0 := by
      rw [hu, ← gmtmex_get_arg_pos_eq_neg_one_iff]
      exact get_arg_pos_loop_no_dollar _ (hplain _).1 0 false
    omega

/-- The identifiers issued by the binding loop of a completed run are among those issued by
the call. -/
theorem bind_issued_subset (encode : Int → Int × CString) (keys : Option CString)
    (head : List GMT_OPTION) (unique_ID : Nat) (kp : KeyPos) (st : ParserState)
    (hkp : gmtmex_get_key_pos (parser_keys keys) head = some kp)
    (hst : parser_add_defaults encode kp
      (parser_start (parser_keys keys) head unique_ID kp.PS) = some st)
    (u : Nat) (hu : u ∈ bind_issued encode st.head.length 0 st) :
    u ∈ GMTMEX_parser_issued encode keys head unique_ID := by
  unfold parser_add_defaults at hst
  split at hst
  · exact absurd hst (by simp)
  · rename_i st1 h1
    unfold GMTMEX_parser_issued
    simp only [hkp, h1, hst]
    exact List.mem_append_right _ (List.mem_append_right _ hu)

/-- The run used for C11: key table `<DI,GGO`, options `<data.txt <in=$+d`. -/
theorem run_with_surrounding_text :
    GMTMEX_parser_run sample_encode (some "<DI,GGO".toList)
        [node '<' "data.txt", node '<' "in=$+d"] 0 =
      some { error := 0,
             state := { key := ["<Di".toList, "GGo".toList],
                        head := [node '<' "data.txt", node '<' "in=@GMTAPI@-000001+d",
                                 node 'G' "@GMTAPI@-000000"],
                        unique_ID := 2, lr_pos_in := 1, lr_pos_out := 1,
                        data_type := some GMT_family.GMT_IS_DATASET,
                        geometry := some GMT_geometry.GMT_IS_POINT, PS := 0 } } := by
  decide

/-- The run used for C12: key table `<DI,GGO`, two input nodes `<$`, the second with a
quoted `$` before its marker. -/
theorem run_with_shared_flag :
    GMTMEX_parser_run sample_encode (some "<DI,GGO".toList)
        [node '<' "$", node '<' "'$'$"] 0 =
      some { error := 0,
             state := { key := ["<Di".toList, "GGo".toList],
                        head := [node '<' "@GMTAPI@-000001", node '<' "'$'@GMTAPI@-000002",
                                 node 'G' "@GMTAPI@-000000"],
                        unique_ID := 3, lr_pos_in := 2, lr_pos_out := 1,
                        data_type := some GMT_family.GMT_IS_DATASET,
                        geometry := some GMT_geometry.GMT_IS_POINT, PS := 0 } } := by
  decide

/-- C18. For every key table and option list, a completed run of `GMTMEX_parser` neither
reorders nor deletes nodes: the resulting list has the flags of the original nodes, in
their order, followed by the flags of the nodes that the default synthesis appended, and
nothing else; and every original node whose argument holds no unmuted `$` is in the
resulting list at its place with its argument unchanged. -/
theorem GMTMEX_parser_keeps_nodes (encode : Int → Int × CString) (keys : Option CString)
    (head : List GMT_OPTION) (unique_ID : Nat) (r : ParserResult)
    (hrun : GMTMEX_parser_run encode keys head unique_ID = some r) :
    ∃ kp st extra,
      gmtmex_get_key_pos (parser_keys keys) head = some kp ∧
      parser_add_defaults encode kp
        (parser_start (parser_keys keys) head unique_ID kp.PS) = some st ∧
      st.head = head ++ extra ∧
      flags r.state.head = flags head ++ flags extra ∧
      (flags r.state.head).take head.length = flags head ∧
      r.state.head.length = head.length + extra.length ∧
      ∀ (i : Nat) (n : GMT_OPTION), head[i]? = some n → gmtmex_get_arg_pos n.arg = -1 →
        r.state.head[i]? = some n := by
  obtain ⟨kp, st, hkp, hst, hloop, _⟩ := GMTMEX_parser_run_inv encode keys head unique_ID r hrun
  obtain ⟨extra, hext⟩ := parser_add_defaults_extends encode kp _ st hst
  have hhead : st.head = head ++ extra := hext
  have hfl : flags r.state.head = flags st.head :=
    (parser_bind_loop_flags_PS encode _ 0 st r.state (by omega) hloop).1
  have hfl2 : flags r.state.head = flags head ++ flags extra := by
    rw [hfl, hhead]
    simp [flags]
  refine ⟨kp, st, extra, hkp, hst, hhead, hfl2, ?_, ?_, ?_⟩
  · rw [hfl2]
    have : (flags head).length = head.length := by simp [flags]
    rw [← this]
    exact List.take_left _ _
  · have := flags_eq_length _ _ hfl
    rw [this, hhead, List.length_append]
  · intro i n hn hpos
    apply parser_bind_loop_keeps_plain encode i n hpos st.head.length 0 st r.state hloop
    have hi : i < head.length := (List.getElem?_eq_some.mp hn).1
    rw [hhead, List.getElem?_append_left hi]
    exact hn

/-- The run used for C18: key table `<DI,GGO`, options `<data.txt <$ -V`. -/
theorem run_with_file_input :
    GMTMEX_parser_run sample_encode (some "<DI,GGO".toList)
        [node '<' "data.txt", node '<' "$", node 'V' ""] 0 =
      some { error := 0,
             state := { key := ["<Di".toList, "GGo".toList],
                        head := [node '<' "data.txt", node '<' "@GMTAPI@-000001",
                                 node 'V' "", node 'G' "@GMTAPI@-000000"],
                        unique_ID := 2, lr_pos_in := 1, lr_pos_out := 1,
                        data_type := some GMT_family.GMT_IS_DATASET,
                        geometry := some GMT_geometry.GMT_IS_POINT, PS := 0 } } := by
  decide

/-- Witness for C18: the file input `<data.txt` and the option `-V` keep their arguments,
the in-memory input `<$` behind the file input is the node rewritten, and the synthesized
`G` node comes last. -/
theorem GMTMEX_parser_keeps_nodes_witness :
    flags [node '<' "data.txt", node '<' "@GMTAPI@-000001", node 'V' "",
           node 'G' "@GMTAPI@-000000"] = ['<', '<', 'V', 'G'] ∧
    ∃ kp st extra,
      gmtmex_get_key_pos (parser_keys (some "<DI,GGO".toList))
        [node '<' "data.txt", node '<' "$", node 'V' ""] = some kp ∧
      parser_add_defaults sample_encode kp
        (parser_start (parser_keys (some "<DI,GGO".toList))
          [node '<' "data.txt", node '<' "$", node 'V' ""] 0 kp.PS) = some st ∧
      st.head = [node '<' "data.txt", node '<' "$", node 'V' ""] ++ extra ∧
      flags [node '<' "data.txt", node '<' "@GMTAPI@-000001", node 'V' "",
             node 'G' "@GMTAPI@-000000"] =
        flags [node '<' "data.txt", node '<' "$", node 'V' ""] ++ flags extra ∧
      (flags [node '<' "data.txt", node '<' "@GMTAPI@-000001", node 'V' "",
              node 'G' "@GMTAPI@-000000"]).take
          [node '<' "data.txt", node '<' "$", node 'V' ""].length =
        flags [node '<' "data.txt", node '<' "$", node 'V' ""] ∧
      [node '<' "data.txt", node '<' "@GMTAPI@-000001", node 'V' "",
          node 'G' "@GMTAPI@-000000"].length =
        [node '<' "data.txt", node '<' "$", node 'V' ""].length + extra.length ∧
      ∀ (i : Nat) (n : GMT_OPTION),
        ([node '<' "data.txt", node '<' "$", node 'V' ""] : List GMT_OPTION)[i]? = some n →
        gmtmex_get_arg_pos n.arg = -1 →
        ([node '<' "data.txt", node '<' "@GMTAPI@-000001", node 'V' "",
          node 'G' "@GMTAPI@-000000"] : List GMT_OPTION)[i]? = some n :=
  ⟨by decide,
   GMTMEX_parser_keeps_nodes sample_encode (some "<DI,GGO".toList)
     [node '<' "data.txt", node '<' "$", node 'V' ""] 0 _ run_with_file_input⟩

/-- C19 (defect). Scenario 1: with the key table `GGI,LDo` and the options `-Fg200k -G$`
the key-table pass finds the input given explicitly, but the key table has no default
output descriptor and none that disallows output, so the output direction stays at
`GMT_MEX_IMPLICIT` (-1); the default synthesis passes over the input direction, takes -1
for a key index in the output direction and reads `key[-1]`: the run does not complete and
returns no outcome, neither Success nor another. -/
theorem GMTMEX_parser_scenario_1_no_outcome :
    gmtmex_get_key_pos (parser_keys (some "GGI,LDo".toList))
        [node 'F' "g200k", node 'G' "$"] =
      some { def_in := GMT_MEX_EXPLICIT, def_out := GMT_MEX_IMPLICIT, PS := 0 } ∧
    GMT_MEX_IMPLICIT = -1 ∧
    parser_add_default sample_encode GMT_io_enum.GMT_IN GMT_MEX_EXPLICIT
        (parser_start ["GGI".toList, "LDo".toList] [node 'F' "g200k", node 'G' "$"] 0 0) =
      some (parser_start ["GGI".toList, "LDo".toList]
        [node 'F' "g200k", node 'G' "$"] 0 0) ∧
    parser_add_defaults sample_encode
        { def_in := GMT_MEX_EXPLICIT, def_out := GMT_MEX_IMPLICIT, PS := 0 }
        (parser_start ["GGI".toList, "LDo".toList] [node 'F' "g200k", node 'G' "$"] 0 0) =
      none ∧
    GMTMEX_parser_run sample_encode (some "GGI,LDo".toList)
      [node 'F' "g200k", node 'G' "$"] 0 = none := by
  refine ⟨by decide, by decide, by decide, by decide, by decide⟩

end Gmtmex
